import Mathlib

/-!
SparkPlayer2: queues, clock and presentation loops.

A shallow embedding of the playback core of SparkPlayer2 (an FFmpeg/SDL media
player written in C++): the packet/frame queues, the drift clock `AVSync`, the
video refresh step, the SDL audio callback, the demux and decode loops,
`Thread::Stop`, and the start-up sequence of `main`.

Conventions of the embedding.

* A `double` is the rational number it stands for, and every operation on
  doubles rounds its exact result to the nearest double (`roundToDouble`:
  53 significant bits, ties to even, gradual underflow), one operation at a
  time, as on a target that evaluates `double` in binary64 without fusing a
  multiplication with an addition.  The two zeros are one number.  Infinities and NaN are not modelled: the values in the modelled
  paths come from `int64_t` timestamps and `int` time bases and stay far below
  the largest double, and a time base with denominator 0 is outside the
  model.
* `int` / `int64_t` quantities are `Int`; overflow of the machine types is not
  modelled.
* The wall clock is an explicit input: every function that calls
  `GetMicroseconds()` takes the value read, in microseconds, as an argument.
* Each object is run sequentially: a blocking `Pop(timeout)` on an empty queue
  sees no concurrent `Push` and therefore times out.
* Calls into SDL/FFmpeg that only have an external effect are recorded as
  events in a trace that the embedded function returns.
-/

namespace SparkPlayer

/-! ## Arithmetic on doubles -/

/-- The integer nearest to `y`, the even one of the two when `y` lies half way
between two integers. -/
def roundEven (y : ℚ) : Int :=
  if y - ⌊y⌋ < 1 / 2 then ⌊y⌋
  else if 1 / 2 < y - ⌊y⌋ then ⌊y⌋ + 1
  else if ⌊y⌋ % 2 = 0 then ⌊y⌋ else ⌊y⌋ + 1

/-- The exponent of the unit in the last place of a double near `x > 0`: the
binade of `x` (not below that of the smallest normal number, `2^-1022`)
less the 52 fraction bits. -/
def ulpExp (x : ℚ) : Int :=
  max (Int.log 2 x) (-1022) - 52

/-- The double nearest to `x >= 0` (IEEE 754 binary64, round to nearest, ties
to even). -/
def roundAbs (x : ℚ) : ℚ :=
  (roundEven (x / (2 : ℚ) ^ ulpExp x) : ℚ) * (2 : ℚ) ^ ulpExp x

/-- The double nearest to `x`: what a `double` operation with exact result
`x` returns, and what the conversion of an integer `x` to `double` gives. -/
def roundToDouble (x : ℚ) : ℚ :=
  if x < 0 then -(roundAbs (-x)) else roundAbs x

/-- Half of the smallest positive double, `2^-1075`: the largest rounding
error in the range of gradual underflow. -/
def doubleTiny : ℚ := (2 : ℚ) ^ (-1075 : ℤ)

/-! ## Media data -/

/-- A byte of sample or pixel data (`uint8_t`). -/
abbrev Byte := Nat

/-- FFmpeg `AVRational`: a time base given as numerator and denominator. -/
structure AVRational where
  num : Int
  den : Int
deriving DecidableEq, Repr

/-- FFmpeg `av_q2d`: the rational as a `double`, `num / (double) den`, for
`den` not 0. -/
def av_q2d (a : AVRational) : ℚ :=
  roundToDouble (roundToDouble (a.num : ℚ) / roundToDouble (a.den : ℚ))

/-- The C expression `frame->pts * av_q2d(time_base)`: the timestamp `pts`
(an `int64_t`, converted to `double`) in seconds. -/
def ptsSeconds (pts : Int) (time_base : AVRational) : ℚ :=
  roundToDouble (roundToDouble (pts : ℚ) * av_q2d time_base)

/-- FFmpeg `AVFrame`, reduced to the presentation timestamp (in time-base
units) and the payload bytes. -/
structure AVFrame where
  pts : Int
  data : List Byte
deriving DecidableEq, Repr

/-- FFmpeg `AVPacket`, reduced to the stream tag and the payload bytes. -/
structure AVPacket where
  stream_index : Int
  data : List Byte
deriving DecidableEq, Repr

/-! ## `Queue<T>` -/

/-- Modelled from the spec: the template class `Queue<T>` of `queue.h`, which
`AVFrameQueue` and `AVPacketQueue` wrap and which is not among the sources.
The spec describes it as an ordered sequence of items together with a
permanent aborted flag. -/
structure Queue (α : Type) where
  items : List α
  aborted : Bool
deriving DecidableEq, Repr

/-- Modelled from the spec: `Queue<T>::Push`, missing from the sources.
"Transfers ownership of item into the queue, appends in O(1), wakes one
waiter. Fails/no-ops after abort."  The result code is `0` on success and
`-1` when aborted (the value both wrappers report as "queue_ abort"). -/
def Queue.Push {α : Type} (q : Queue α) (val : α) : Int × Queue α :=
  if q.aborted then (-1, q)
  else (0, { q with items := q.items ++ [val] })

/-- Modelled from the spec: `Queue<T>::Pop`, missing from the sources.
"Blocks up to timeout; returns the head item (removing it) or signals Empty
(timeout elapsed) or Aborted", and after `Abort()` "Pop returns Aborted
without blocking".  Result codes: `0` with the head item, `-1` aborted, `-2`
empty after the timeout; the wrappers only test `ret < 0` and `ret == -1`.
No other thread runs during the wait, so an empty queue stays empty. -/
def Queue.Pop {α : Type} (q : Queue α) (_timeout : Int) : Int × Option α × Queue α :=
  if q.aborted then (-1, none, q)
  else
    match q.items with
    | [] => (-2, none, q)
    | x :: rest => (0, some x, { q with items := rest })

/-- Modelled from the spec: `Queue<T>::Front`, missing from the sources.
"Non-destructive peek of the head item; returns None if empty or aborted;
ownership stays with the queue."  Result codes as for `Pop`. -/
def Queue.Front {α : Type} (q : Queue α) : Int × Option α :=
  if q.aborted then (-1, none)
  else
    match q.items with
    | [] => (-2, none)
    | x :: _ => (0, some x)

/-- Modelled from the spec: `Queue<T>::Abort`, missing from the sources: it
"flips a permanent aborted flag and wakes all waiters" (the draining that the
spec mentions first is done by the wrappers, in `release`). -/
def Queue.Abort {α : Type} (q : Queue α) : Queue α :=
  { q with aborted := true }

/-- Modelled from the spec: `Queue<T>::Size`, missing from the sources: the
count of resident items. -/
def Queue.Size {α : Type} (q : Queue α) : Int :=
  (q.items.length : Int)

/-! ## `AVFrameQueue` (avframequeue.cpp) -/

/-- The class `AVFrameQueue`: a `Queue<AVFrame *>`. -/
structure AVFrameQueue where
  queue_ : Queue AVFrame
deriving DecidableEq, Repr

/-- The loop of `AVFrameQueue::release`: pop with a 1 ms timeout until the
pop fails, freeing every frame popped.  `freed` accumulates the frames
handed to `av_frame_free`; `none` means the fuel ran out. -/
def AVFrameQueue.releaseLoop : Nat → AVFrameQueue → List AVFrame →
    Option (AVFrameQueue × List AVFrame)
  | 0, _, _ => none
  | fuel + 1, q, freed =>
    match q.queue_.Pop 1 with
    | (ret, tmp_frame, queue1) =>
      if ret < 0 then
        some ({ q with queue_ := queue1 }, freed)
      else
        AVFrameQueue.releaseLoop fuel { q with queue_ := queue1 } (freed ++ tmp_frame.toList)

/-- The method `AVFrameQueue::release`. -/
def AVFrameQueue.release (fuel : Nat) (q : AVFrameQueue) :
    Option (AVFrameQueue × List AVFrame) :=
  AVFrameQueue.releaseLoop fuel q []

/-- The method `AVFrameQueue::Abort`: `release()` then `queue_.Abort()`.  Returns the
queue afterwards and the frames freed during the call. -/
def AVFrameQueue.Abort (fuel : Nat) (q : AVFrameQueue) :
    Option (AVFrameQueue × List AVFrame) :=
  match q.release fuel with
  | none => none
  | some (q1, freed) => some ({ q1 with queue_ := q1.queue_.Abort }, freed)

/-- The method `AVFrameQueue::Size`. -/
def AVFrameQueue.Size (q : AVFrameQueue) : Int :=
  q.queue_.Size

/-- The method `AVFrameQueue::Push`: the frame's contents are moved into a freshly
allocated frame, which is pushed; the result is the code of the inner push. -/
def AVFrameQueue.Push (q : AVFrameQueue) (val : AVFrame) : Int × AVFrameQueue :=
  let tmp_frame := val
  match q.queue_.Push tmp_frame with
  | (ret, queue1) => (ret, { q with queue_ := queue1 })

/-- The method `AVFrameQueue::Pop`: the head frame, or `none` (NULL) when the inner pop
returns a negative code. -/
def AVFrameQueue.Pop (q : AVFrameQueue) (timeout : Int) : Option AVFrame × AVFrameQueue :=
  match q.queue_.Pop timeout with
  | (ret, tmp_frame, queue1) =>
    if ret < 0 then (none, { q with queue_ := queue1 })
    else (tmp_frame, { q with queue_ := queue1 })

/-- The method `AVFrameQueue::Front`: the head frame without removing it, or `none`
(NULL) when the inner peek returns a negative code. -/
def AVFrameQueue.Front (q : AVFrameQueue) : Option AVFrame :=
  match q.queue_.Front with
  | (ret, tmp_frame) => if ret < 0 then none else tmp_frame

/-! ## `AVPacketQueue` (avpacketqueue.cpp) -/

/-- The class `AVPacketQueue`: a `Queue<AVPacket *>`. -/
structure AVPacketQueue where
  queue_ : Queue AVPacket
deriving DecidableEq, Repr

/-- The loop of `AVPacketQueue::release`: pop with a 1 ms timeout until the
pop fails, freeing every packet popped. -/
def AVPacketQueue.releaseLoop : Nat → AVPacketQueue → List AVPacket →
    Option (AVPacketQueue × List AVPacket)
  | 0, _, _ => none
  | fuel + 1, q, freed =>
    match q.queue_.Pop 1 with
    | (ret, tmp_pkt, queue1) =>
      if ret < 0 then
        some ({ q with queue_ := queue1 }, freed)
      else
        AVPacketQueue.releaseLoop fuel { q with queue_ := queue1 } (freed ++ tmp_pkt.toList)

/-- The method `AVPacketQueue::release`. -/
def AVPacketQueue.release (fuel : Nat) (q : AVPacketQueue) :
    Option (AVPacketQueue × List AVPacket) :=
  AVPacketQueue.releaseLoop fuel q []

/-- The method `AVPacketQueue::Abort`: `release()` then `queue_.Abort()`. -/
def AVPacketQueue.Abort (fuel : Nat) (q : AVPacketQueue) :
    Option (AVPacketQueue × List AVPacket) :=
  match q.release fuel with
  | none => none
  | some (q1, freed) => some ({ q1 with queue_ := q1.queue_.Abort }, freed)

/-- The method `AVPacketQueue::Size`. -/
def AVPacketQueue.Size (q : AVPacketQueue) : Int :=
  q.queue_.Size

/-- The method `AVPacketQueue::Push`. -/
def AVPacketQueue.Push (q : AVPacketQueue) (val : AVPacket) : Int × AVPacketQueue :=
  let tmp_pkt := val
  match q.queue_.Push tmp_pkt with
  | (ret, queue1) => (ret, { q with queue_ := queue1 })

/-- The method `AVPacketQueue::Pop`. -/
def AVPacketQueue.Pop (q : AVPacketQueue) (timeout : Int) : Option AVPacket × AVPacketQueue :=
  match q.queue_.Pop timeout with
  | (ret, tmp_pkt, queue1) =>
    if ret < 0 then (none, { q with queue_ := queue1 })
    else (tmp_pkt, { q with queue_ := queue1 })

/-! ## `AVSync` (avsync.h) -/

/-- The class `AVSync`: the drift of the timeline against the wall clock. -/
structure AVSync where
  pts_drift_ : ℚ
deriving DecidableEq, Repr

/-- The method `AVSync::SetClock(pts)`, with `us` the value `GetMicroseconds()` returns
inside the call. -/
def AVSync.SetClock (_c : AVSync) (us : Int) (pts : ℚ) : AVSync :=
  let time : ℚ := roundToDouble (roundToDouble (us : ℚ) / 1000000)
  { pts_drift_ := roundToDouble (pts - time) }

/-- The method `AVSync::GetClock()`, with `us` the value `GetMicroseconds()` returns
inside the call. -/
def AVSync.GetClock (c : AVSync) (us : Int) : ℚ :=
  let time : ℚ := roundToDouble (roundToDouble (us : ℚ) / 1000000)
  roundToDouble (c.pts_drift_ + time)

/-- The method `AVSync::InitClock()`. -/
def AVSync.InitClock (c : AVSync) (us : Int) : AVSync :=
  c.SetClock us 0

/-! ## `VideoOutput` (videooutput.cpp) -/

/-- The refresh interval, `#define REFRESH_RATE 0.01` (seconds): the double
nearest to 0.01. -/
def REFRESH_RATE : ℚ := roundToDouble (1 / 100)

/-- The fields of `VideoOutput` that the refresh loop reads. -/
structure VideoOutput where
  avsync_ : AVSync
  frame_queue_ : AVFrameQueue
  video_width_ : Int
  video_height_ : Int
  time_base_ : AVRational
deriving DecidableEq, Repr

/-- External calls made by the video loop, in the order they are made. -/
inductive VideoCall where
  | SDL_UpdateYUVTexture (w h : Int) (frame : AVFrame)
  | SDL_RenderClear
  | SDL_RenderCopy (w h : Int)
  | SDL_RenderPresent
  | av_frame_free (frame : AVFrame)
  | sleep_for_ms (ms : Int)
deriving DecidableEq, Repr

/-- The method `VideoOutput::videoRefresh(remain_time)`, with `us` the wall clock read by
`GetClock()`.  Returns the object afterwards, the new value of the reference
parameter `remain_time`, and the external calls made. -/
def VideoOutput.videoRefresh (vo : VideoOutput) (us : Int) (remain_time : ℚ) :
    VideoOutput × ℚ × List VideoCall :=
  match vo.frame_queue_.Front with
  | none => (vo, remain_time, [])
  | some frame =>
    let pts : ℚ := ptsSeconds frame.pts vo.time_base_
    let diff : ℚ := roundToDouble (pts - vo.avsync_.GetClock us)
    if diff > 0 then
      let remain_time1 := diff
      if remain_time1 > REFRESH_RATE then (vo, REFRESH_RATE, [])
      else (vo, remain_time1, [])
    else
      let render : List VideoCall :=
        [ VideoCall.SDL_UpdateYUVTexture vo.video_width_ vo.video_height_ frame,
          VideoCall.SDL_RenderClear,
          VideoCall.SDL_RenderCopy vo.video_width_ vo.video_height_,
          VideoCall.SDL_RenderPresent ]
      match vo.frame_queue_.Pop 1 with
      | (popped, queue1) =>
        ({ vo with frame_queue_ := queue1 }, remain_time,
          render ++ (popped.toList.map VideoCall.av_frame_free))

/-- One pass through the body of the `while` loop of
`VideoOutput::RefreshLoopWaitEvent` (no SDL event pending): sleep for the
wait left in `remain_time`, if positive, then `videoRefresh`. -/
def VideoOutput.RefreshLoopBody (vo : VideoOutput) (us : Int) (remain_time : ℚ) :
    VideoOutput × ℚ × List VideoCall :=
  let slept : List VideoCall :=
    if remain_time > 0 then
      [VideoCall.sleep_for_ms ⌊roundToDouble (remain_time * 1000)⌋]
    else []
  match vo.videoRefresh us remain_time with
  | (vo1, remain_time1, calls) => (vo1, remain_time1, slept ++ calls)

/-! ## `sdl_audio_callback` (audiooutput.cpp) -/

/-- What lines 64-131 of `sdl_audio_callback` do with a popped frame, as far
as the rest of the callback can see.  The resampler (`swr_*`) and
`av_samples_get_buffer_size` are external: either one of them fails and the
callback returns at once (`failed`), or `audio_buf_` is pointed at a buffer
with contents `buf` and `audio_buf_size` is set to `size`. -/
inductive ConvResult where
  | failed
  | ok (buf : List Byte) (size : Int)
deriving DecidableEq, Repr

/-- The fields of `AudioOutput` that the callback reads and writes.
`audio_buf_ = none` is the NULL pointer. -/
structure AudioOutput where
  avsync_ : AVSync
  frame_queue_ : AVFrameQueue
  time_base_ : AVRational
  audio_buf_ : Option (List Byte)
  audio_buf_size : Int
  audio_buf_index : Int
  pts : ℚ
deriving DecidableEq, Repr

/-- External calls made by the audio callback, in the order they are made.
`write` is the `memset` or `memcpy` into the output stream, with the bytes
written. -/
inductive AudioCall where
  | Pop (result : Option AVFrame)
  | av_frame_free (frame : AVFrame)
  | write (bytes : List Byte)
  | SetClock (pts : ℚ)
deriving DecidableEq, Repr

/-- The C call `memcpy(stream, buf + off, n)`: the `n` bytes of `buf` from offset `off`
(a position outside the modelled buffer reads as `0`). -/
def memcpy (buf : List Byte) (off : Int) (n : Int) : List Byte :=
  (List.range n.toNat).map (fun i => buf.getD (off.toNat + i) 0)

/-- The C call `memset(stream, 0, n)`: `n` zero bytes. -/
def memset0 (n : Int) : List Byte :=
  List.replicate n.toNat 0

/-- The bytes a trace of the callback wrote to `stream`, in order. -/
def streamOf : List AudioCall → List Byte
  | [] => []
  | AudioCall.write bytes :: rest => bytes ++ streamOf rest
  | _ :: rest => streamOf rest

/-- The frames a trace of the callback popped from the queue, in order. -/
def poppedOf : List AudioCall → List AVFrame
  | [] => []
  | AudioCall.Pop (some frame) :: rest => frame :: poppedOf rest
  | _ :: rest => poppedOf rest

/-- Outcome of the refill block (lines 55-140). -/
inductive Refill where
  | returned (ao : AudioOutput) (calls : List AudioCall)
  | filled (ao : AudioOutput) (calls : List AudioCall)
deriving DecidableEq, Repr

/-- Lines 55-140: when the buffer is used up, pop a frame with a 2 ms timeout
and buffer its converted samples, or fall back to a NULL buffer of 512 bytes
when no frame came. -/
def AudioOutput.refill (conv : AVFrame → ConvResult) (ao : AudioOutput) : Refill :=
  if ao.audio_buf_index = ao.audio_buf_size then
    let ao1 := { ao with audio_buf_index := 0 }
    match ao1.frame_queue_.Pop 2 with
    | (some frame, queue1) =>
      let ao2 := { ao1 with frame_queue_ := queue1,
                            pts := ptsSeconds frame.pts ao1.time_base_ }
      match conv frame with
      | ConvResult.failed => Refill.returned ao2 [AudioCall.Pop (some frame)]
      | ConvResult.ok buf size =>
        Refill.filled { ao2 with audio_buf_ := some buf, audio_buf_size := size }
          [AudioCall.Pop (some frame), AudioCall.av_frame_free frame]
    | (none, queue1) =>
      Refill.filled { ao1 with frame_queue_ := queue1, audio_buf_ := none, audio_buf_size := 512 }
        [AudioCall.Pop none]
  else Refill.filled ao []

/-- The `while(len > 0)` loop of `sdl_audio_callback` (lines 53-164).  The
result is the object afterwards, whether the loop ran to `len <= 0` (`true`)
or the callback returned from inside it (`false`), and the trace extended by
the calls made; `none` means the fuel ran out. -/
def AudioOutput.fillLoop (conv : AVFrame → ConvResult) :
    Nat → AudioOutput → Int → List AudioCall → Option (AudioOutput × Bool × List AudioCall)
  | 0, _, _, _ => none
  | fuel + 1, ao, len, calls =>
    if len > 0 then
      match ao.refill conv with
      | Refill.returned ao1 calls1 => some (ao1, false, calls ++ calls1)
      | Refill.filled ao1 calls1 =>
        let len3 : Int := ao1.audio_buf_size - ao1.audio_buf_index
        let len3 : Int := if len3 > len then len else len3
        let bytes : List Byte :=
          match ao1.audio_buf_ with
          | none => memset0 len3
          | some buf => memcpy buf ao1.audio_buf_index len3
        AudioOutput.fillLoop conv fuel
          { ao1 with audio_buf_index := ao1.audio_buf_index + len3 }
          (len - len3)
          (calls ++ calls1 ++ [AudioCall.write bytes])
    else some (ao, true, calls)

/-- The function `sdl_audio_callback(userdata, stream, len)`, with `us` the wall clock read
by the closing `SetClock`.  Returns the object afterwards and the calls made;
`none` means the fuel ran out. -/
def sdl_audio_callback (conv : AVFrame → ConvResult) (fuel : Nat) (ao : AudioOutput)
    (us : Int) (len : Int) : Option (AudioOutput × List AudioCall) :=
  match AudioOutput.fillLoop conv fuel ao len [] with
  | none => none
  | some (ao1, false, calls) => some (ao1, calls)
  | some (ao1, true, calls) =>
    some ({ ao1 with avsync_ := ao1.avsync_.SetClock us ao1.pts },
          calls ++ [AudioCall.SetClock ao1.pts])

/-- An underrun: no frame can be popped, and the buffer is either used up or
is the NULL buffer of 512 bytes of silence, partly served. -/
def AudioOutput.Underrun (ao : AudioOutput) : Prop :=
  (ao.frame_queue_.Pop 2).1 = none
    ∧ (ao.audio_buf_index = ao.audio_buf_size
        ∨ (ao.audio_buf_ = none ∧ ao.audio_buf_size = 512
            ∧ 0 ≤ ao.audio_buf_index ∧ ao.audio_buf_index < 512))

/-- The position in the buffer from which the next bytes are served: 0 when
the buffer is used up (it is refilled first), else `audio_buf_index`. -/
def AudioOutput.blockStart (ao : AudioOutput) : Int :=
  if ao.audio_buf_index = ao.audio_buf_size then 0 else ao.audio_buf_index

/-- The object a refill block ends with. -/
def Refill.state : Refill → AudioOutput
  | Refill.returned ao _ => ao
  | Refill.filled ao _ => ao

/-- The calls a refill block made. -/
def Refill.calls : Refill → List AudioCall
  | Refill.returned _ calls => calls
  | Refill.filled _ calls => calls

/-- The timestamp in seconds of the frame popped last among `frames`, or
`init` when there is none. -/
def ptsAfter (tb : AVRational) (init : ℚ) (frames : List AVFrame) : ℚ :=
  match frames.getLast? with
  | some frame => ptsSeconds frame.pts tb
  | none => init

/-! ## `DemuxThread::Run` (demuxthread.cpp) -/

/-- The fields of `DemuxThread` that `Run` uses.  `ifmt_ctx_` is the source,
given by the results `av_read_frame` is going to return: `some packet` for a
unit read, `none` for a negative return code; a source that is used up
answers with a failure (end of file). -/
structure DemuxThread where
  abort_ : Int
  ifmt_ctx_ : List (Option AVPacket)
  audio_stream_ : Int
  video_stream_ : Int
  audio_queue_ : AVPacketQueue
  video_queue_ : AVPacketQueue
deriving DecidableEq, Repr

/-- External calls made by the demux loop. -/
inductive DemuxCall where
  | sleep_for_ms (ms : Int)
  | av_read_frame (result : Option AVPacket)
  | av_packet_unref (packet : AVPacket)
deriving DecidableEq, Repr

/-- Outcome of the two tests at the head of the loop body (lines 134-142). -/
inductive DemuxCheck where
  | exit_loop
  | sleep_retry
  | proceed
deriving DecidableEq, Repr

/-- Lines 134-142: the cancellation test, then the backpressure test. -/
def DemuxThread.check (d : DemuxThread) : DemuxCheck :=
  if d.abort_ = 1 then DemuxCheck.exit_loop
  else if d.audio_queue_.Size > 100 ∨ d.video_queue_.Size > 100 then DemuxCheck.sleep_retry
  else DemuxCheck.proceed

/-- Lines 145-162: read one unit and route it by its stream index.  The flag
is `true` when the loop goes on and `false` when it breaks. -/
def DemuxThread.readAndRoute (d : DemuxThread) : DemuxThread × Bool × List DemuxCall :=
  match d.ifmt_ctx_ with
  | [] => (d, false, [DemuxCall.av_read_frame none])
  | none :: rest => ({ d with ifmt_ctx_ := rest }, false, [DemuxCall.av_read_frame none])
  | some packet :: rest =>
    let d1 := { d with ifmt_ctx_ := rest }
    if packet.stream_index = d1.audio_stream_ then
      ({ d1 with audio_queue_ := (d1.audio_queue_.Push packet).2 }, true,
        [DemuxCall.av_read_frame (some packet)])
    else if packet.stream_index = d1.video_stream_ then
      ({ d1 with video_queue_ := (d1.video_queue_.Push packet).2 }, true,
        [DemuxCall.av_read_frame (some packet)])
    else
      (d1, true, [DemuxCall.av_read_frame (some packet), DemuxCall.av_packet_unref packet])

/-- One pass through the body of the `while(1)` loop of `DemuxThread::Run`
(lines 132-163). -/
def DemuxThread.RunBody (d : DemuxThread) : DemuxThread × Bool × List DemuxCall :=
  match d.check with
  | DemuxCheck.exit_loop => (d, false, [])
  | DemuxCheck.sleep_retry => (d, true, [DemuxCall.sleep_for_ms 10])
  | DemuxCheck.proceed => d.readAndRoute

/-- Where the demux thread stands between two atomic steps: at the head of
the loop body, past the two tests and about to read, or out of the loop. -/
inductive DemuxPc where
  | loop_head
  | reading
  | exited
deriving DecidableEq, Repr

/-- The demux thread together with the consumers of its two queues. -/
structure DemuxSystem where
  demux : DemuxThread
  pc : DemuxPc
deriving DecidableEq, Repr

/-- What a scheduler can let happen next: the demux thread advances by one
atomic step, a consumer pops from the audio or the video packet queue (the
`packet_queue_->Pop(10)` of a decode thread), or `Thread::Stop` sets the
cancellation flag. -/
inductive SchedAction where
  | demux_step
  | pop_audio
  | pop_video
  | stop
deriving DecidableEq, Repr

/-- One scheduled action. -/
def DemuxSystem.step (s : DemuxSystem) : SchedAction → DemuxSystem
  | SchedAction.demux_step =>
    match s.pc with
    | DemuxPc.exited => s
    | DemuxPc.loop_head =>
      match s.demux.check with
      | DemuxCheck.exit_loop => { s with pc := DemuxPc.exited }
      | DemuxCheck.sleep_retry => s
      | DemuxCheck.proceed => { s with pc := DemuxPc.reading }
    | DemuxPc.reading =>
      match s.demux.readAndRoute with
      | (d1, true, _) => { demux := d1, pc := DemuxPc.loop_head }
      | (d1, false, _) => { demux := d1, pc := DemuxPc.exited }
  | SchedAction.pop_audio =>
    { s with demux := { s.demux with audio_queue_ := (s.demux.audio_queue_.Pop 10).2 } }
  | SchedAction.pop_video =>
    { s with demux := { s.demux with video_queue_ := (s.demux.video_queue_.Pop 10).2 } }
  | SchedAction.stop =>
    { s with demux := { s.demux with abort_ := 1 } }

/-- A whole schedule, action by action. -/
def DemuxSystem.run (s : DemuxSystem) (sched : List SchedAction) : DemuxSystem :=
  sched.foldl DemuxSystem.step s

/-- The bound kept by every scheduled action: at most 101 items in either
packet queue, and at most 100 once the demux thread is past its tests. -/
def DemuxSystem.Bounded (s : DemuxSystem) : Prop :=
  s.demux.audio_queue_.Size ≤ 101 ∧ s.demux.video_queue_.Size ≤ 101
    ∧ (s.pc = DemuxPc.reading →
        s.demux.audio_queue_.Size ≤ 100 ∧ s.demux.video_queue_.Size ≤ 100)

/-! ## `DecodeThread::Run` (decodethread.cpp) -/

/-- What `avcodec_receive_frame` answers: a frame (`ret == 0`), "needs more
input" (`ret == AVERROR(EAGAIN)`), or any other code. -/
inductive RecvResult where
  | frame (f : AVFrame)
  | eagain
  | error (ret : Int)
deriving DecidableEq, Repr

/-- The external decoder as an oracle over its own state `σ` (the
`codec_ctx_`): `avcodec_send_packet` with its return code, and
`avcodec_receive_frame`. -/
structure Decoder (σ : Type) where
  send_packet : σ → AVPacket → Int × σ
  receive_frame : σ → RecvResult × σ

/-- The fields of `DecodeThread` that `Run` uses. -/
structure DecodeThread (σ : Type) where
  abort_ : Int
  codec_ctx_ : σ
  packet_queue_ : AVPacketQueue
  frame_queue_ : AVFrameQueue

/-- External calls and queue operations made by the decode loop. -/
inductive DecodeCall where
  | sleep_for_ms (ms : Int)
  | Pop (result : Option AVPacket)
  | avcodec_send_packet (packet : AVPacket) (ret : Int)
  | av_packet_free (packet : AVPacket)
  | avcodec_receive_frame (result : RecvResult)
  | Push (frame : AVFrame) (ret : Int)
deriving DecidableEq, Repr

/-- The inner `while (true)` loop of `DecodeThread::Run` (lines 140-157):
receive frames and push each one until the decoder answers something else;
any answer other than EAGAIN also sets `abort_`.  `none` means the fuel ran
out. -/
def DecodeThread.receiveLoop {σ : Type} (dec : Decoder σ) :
    Nat → DecodeThread σ → List DecodeCall → Option (DecodeThread σ × List DecodeCall)
  | 0, _, _ => none
  | fuel + 1, t, calls =>
    match dec.receive_frame t.codec_ctx_ with
    | (RecvResult.frame frame, ctx1) =>
      match t.frame_queue_.Push frame with
      | (ret, queue1) =>
        DecodeThread.receiveLoop dec fuel { t with codec_ctx_ := ctx1, frame_queue_ := queue1 }
          (calls ++ [DecodeCall.avcodec_receive_frame (RecvResult.frame frame),
                     DecodeCall.Push frame ret])
    | (RecvResult.eagain, ctx1) =>
      some ({ t with codec_ctx_ := ctx1 },
            calls ++ [DecodeCall.avcodec_receive_frame RecvResult.eagain])
    | (RecvResult.error ret, ctx1) =>
      some ({ t with codec_ctx_ := ctx1, abort_ := 1 },
            calls ++ [DecodeCall.avcodec_receive_frame (RecvResult.error ret)])

/-- One pass through the body of the `while(1)` loop of `DecodeThread::Run`
(lines 112-162).  The flag is `true` when the loop goes on and `false` when
it breaks; `none` means the fuel of the inner loop ran out. -/
def DecodeThread.RunBody {σ : Type} (dec : Decoder σ) (fuel : Nat) (t : DecodeThread σ) :
    Option (DecodeThread σ × Bool × List DecodeCall) :=
  if t.abort_ = 1 then some (t, false, [])
  else if t.frame_queue_.Size > 10 then some (t, true, [DecodeCall.sleep_for_ms 10])
  else
    match t.packet_queue_.Pop 10 with
    | (some packet, pqueue1) =>
      match dec.send_packet t.codec_ctx_ packet with
      | (ret, ctx1) =>
        let t1 := { t with packet_queue_ := pqueue1, codec_ctx_ := ctx1 }
        let calls := [DecodeCall.Pop (some packet), DecodeCall.avcodec_send_packet packet ret,
                      DecodeCall.av_packet_free packet]
        if ret < 0 then some (t1, false, calls)
        else
          match DecodeThread.receiveLoop dec fuel t1 calls with
          | none => none
          | some (t2, calls2) => some (t2, true, calls2)
    | (none, pqueue1) =>
      some ({ t with packet_queue_ := pqueue1 }, true, [DecodeCall.Pop none])

/-- The decoder, asked repeatedly from state `c`, returns the frames `fs` in
this order, then answers EAGAIN and is left in state `c2`. -/
inductive Decoder.Yields {σ : Type} (dec : Decoder σ) : σ → List AVFrame → σ → Prop where
  | done {c c2 : σ} : dec.receive_frame c = (RecvResult.eagain, c2) → Decoder.Yields dec c [] c2
  | more {c c1 c2 : σ} {f : AVFrame} {fs : List AVFrame} :
      dec.receive_frame c = (RecvResult.frame f, c1) → Decoder.Yields dec c1 fs c2 →
      Decoder.Yields dec c (f :: fs) c2

/-- The calls the inner loop makes for the frames `fs` when every push is
accepted: receive and push, frame by frame. -/
def receivePushCalls (fs : List AVFrame) : List DecodeCall :=
  fs.flatMap (fun f => [DecodeCall.avcodec_receive_frame (RecvResult.frame f), DecodeCall.Push f 0])

/-- A decoder without reordering delay: after a packet is sent it returns one
frame (carrying the packet's payload) and then asks for more input.  Its
state is the frame pending, if any. -/
def oneFrameDecoder : Decoder (Option AVFrame) where
  send_packet := fun _ packet => (0, some { pts := 0, data := packet.data })
  receive_frame := fun c =>
    match c with
    | some f => (RecvResult.frame f, none)
    | none => (RecvResult.eagain, none)

/-- The whole `while(1)` loop of `DemuxThread::Run` (lines 132-163): passes
through the body until one breaks.  Returns the object afterwards and the
trace extended by the calls made; `none` means the fuel ran out. -/
def DemuxThread.Run : Nat → DemuxThread → List DemuxCall →
    Option (DemuxThread × List DemuxCall)
  | 0, _, _ => none
  | fuel + 1, d, calls =>
    match d.RunBody with
    | (d1, true, calls1) => DemuxThread.Run fuel d1 (calls ++ calls1)
    | (d1, false, calls1) => some (d1, calls ++ calls1)

/-- The calls the demux loop makes for the units `units` read in this order:
a read for each, followed by an unref when the unit belongs to neither
stream. -/
def routeCalls (audio_stream video_stream : Int) (units : List AVPacket) : List DemuxCall :=
  units.flatMap (fun packet =>
    if packet.stream_index = audio_stream ∨ packet.stream_index = video_stream then
      [DemuxCall.av_read_frame (some packet)]
    else
      [DemuxCall.av_read_frame (some packet), DemuxCall.av_packet_unref packet])

/-- The whole `while(1)` loop of `DecodeThread::Run` (lines 112-162): passes
through the body until one breaks.  `inner` is the fuel given to each inner
loop; `none` means some fuel ran out. -/
def DecodeThread.Run {σ : Type} (dec : Decoder σ) (inner : Nat) :
    Nat → DecodeThread σ → List DecodeCall → Option (DecodeThread σ × List DecodeCall)
  | 0, _, _ => none
  | fuel + 1, t, calls =>
    match DecodeThread.RunBody dec inner t with
    | none => none
    | some (t1, true, calls1) => DecodeThread.Run dec inner fuel t1 (calls ++ calls1)
    | some (t1, false, calls1) => some (t1, calls ++ calls1)

/-- The calls of the inner loop that go with a frame received: the receive
itself and the push. -/
def DecodeCall.isDrain : DecodeCall → Bool
  | DecodeCall.avcodec_receive_frame (RecvResult.frame _) => true
  | DecodeCall.Push _ _ => true
  | _ => false

/-- The number of `SetClock` calls in a trace of the audio callback. -/
def setClockCount : List AudioCall → Nat
  | [] => 0
  | AudioCall.SetClock _ :: rest => setClockCount rest + 1
  | _ :: rest => setClockCount rest

/-! ## Clients of a queue -/

/-- An operation a client performs on an `AVFrameQueue`. -/
inductive FrameQueueOp where
  | Push (val : AVFrame)
  | Pop (timeout : Int)
  | Front
  | Abort
deriving DecidableEq, Repr

/-- The frame queue after one operation of a client; `none` when the fuel of
an `Abort` ran out. -/
def AVFrameQueue.perform (fuel : Nat) (q : AVFrameQueue) : FrameQueueOp → Option AVFrameQueue
  | FrameQueueOp.Push val => some (q.Push val).2
  | FrameQueueOp.Pop timeout => some (q.Pop timeout).2
  | FrameQueueOp.Front => some q
  | FrameQueueOp.Abort => (q.Abort fuel).map Prod.fst

/-- The frame queue after a sequence of operations. -/
def AVFrameQueue.performAll (fuel : Nat) : AVFrameQueue → List FrameQueueOp → Option AVFrameQueue
  | q, [] => some q
  | q, op :: ops =>
    match q.perform fuel op with
    | none => none
    | some q1 => AVFrameQueue.performAll fuel q1 ops

/-- An operation a client performs on an `AVPacketQueue`. -/
inductive PacketQueueOp where
  | Push (val : AVPacket)
  | Pop (timeout : Int)
  | Abort
deriving DecidableEq, Repr

/-- The packet queue after one operation of a client; `none` when the fuel
of an `Abort` ran out. -/
def AVPacketQueue.perform (fuel : Nat) (q : AVPacketQueue) : PacketQueueOp → Option AVPacketQueue
  | PacketQueueOp.Push val => some (q.Push val).2
  | PacketQueueOp.Pop timeout => some (q.Pop timeout).2
  | PacketQueueOp.Abort => (q.Abort fuel).map Prod.fst

/-- The packet queue after a sequence of operations. -/
def AVPacketQueue.performAll (fuel : Nat) :
    AVPacketQueue → List PacketQueueOp → Option AVPacketQueue
  | q, [] => some q
  | q, op :: ops =>
    match q.perform fuel op with
    | none => none
    | some q1 => AVPacketQueue.performAll fuel q1 ops

/-! ## `Thread` (thread.cpp) -/

/-- The base class `Thread` of the stages: the cancellation flag and the
pointer to the running `std::thread` (`none` is the null pointer, `some h`
a thread with handle `h`). -/
structure Thread where
  abort_ : Int
  thread_ : Option Nat
deriving DecidableEq, Repr

/-- What `Thread::Stop` does with the thread object. -/
inductive ThreadCall where
  | join (handle : Nat)
  | delete (handle : Nat)
deriving DecidableEq, Repr

/-- The method `Thread::Start` of the base class: returns 0. -/
def Thread.Start (t : Thread) : Thread × Int :=
  (t, 0)

/-- The method `Thread::Stop`: set `abort_`, then join and delete the thread
if there is one, and return 0. -/
def Thread.Stop (t : Thread) : Thread × Int × List ThreadCall :=
  let t1 := { t with abort_ := 1 }
  match t1.thread_ with
  | some handle =>
    ({ t1 with thread_ := none }, 0, [ThreadCall.join handle, ThreadCall.delete handle])
  | none => (t1, 0, [])

/-- The method `DecodeThread::Stop`, on the `Thread` part of the object:
`Thread::Stop()`, then return 0. -/
def DecodeThread.Stop (base : Thread) : Thread × Int × List ThreadCall :=
  match base.Stop with
  | (base1, _, calls) => (base1, 0, calls)

/-- The method `DemuxThread::Stop`, on the `Thread` part of the object:
`Thread::Stop()`, then return 0. -/
def DemuxThread.Stop (base : Thread) : Thread × Int × List ThreadCall :=
  match base.Stop with
  | (base1, _, calls) => (base1, 0, calls)

/-! ## `main` (main.cpp) -/

/-- The return codes that `main` tests, as inputs: `Init` and `Start` of the
demux thread and of the two decode threads, `Init` of the two outputs. -/
structure StageResults where
  demux_thread_Init : Int
  demux_thread_Start : Int
  audio_decode_thread_Init : Int
  audio_decode_thread_Start : Int
  video_decode_thread_Init : Int
  video_decode_thread_Start : Int
  audio_output_Init : Int
  video_output_Init : Int
deriving DecidableEq, Repr

/-- The steps of `main`, in the order they are taken. -/
inductive MainCall where
  | demux_thread_Init
  | demux_thread_Start
  | audio_decode_thread_Init
  | audio_decode_thread_Start
  | video_decode_thread_Init
  | video_decode_thread_Start
  | avsync_InitClock
  | audio_output_Init
  | video_output_Init
  | video_output_MainLoop
  | video_decode_thread_Stop
  | audio_decode_thread_Stop
  | demux_thread_Stop
  | delete_audio_output
  | delete_video_output
  | audio_frame_queue_Abort
  | video_frame_queue_Abort
  | audio_packet_queue_Abort
  | video_packet_queue_Abort
  | delete_threads
deriving DecidableEq, Repr

/-- The function `main` (lines 31-131), for a `MainLoop` that returns: the
exit status and the steps taken. -/
def main (r : StageResults) : Int × List MainCall :=
  if r.demux_thread_Init < 0 then (-1, [MainCall.demux_thread_Init])
  else if r.demux_thread_Start < 0 then
    (-1, [MainCall.demux_thread_Init, MainCall.demux_thread_Start])
  else if r.audio_decode_thread_Init < 0 then
    (-1, [MainCall.demux_thread_Init, MainCall.demux_thread_Start,
          MainCall.audio_decode_thread_Init])
  else if r.audio_decode_thread_Start < 0 then
    (-1, [MainCall.demux_thread_Init, MainCall.demux_thread_Start,
          MainCall.audio_decode_thread_Init, MainCall.audio_decode_thread_Start])
  else if r.video_decode_thread_Init < 0 then
    (-1, [MainCall.demux_thread_Init, MainCall.demux_thread_Start,
          MainCall.audio_decode_thread_Init, MainCall.audio_decode_thread_Start,
          MainCall.video_decode_thread_Init])
  else if r.video_decode_thread_Start < 0 then
    (-1, [MainCall.demux_thread_Init, MainCall.demux_thread_Start,
          MainCall.audio_decode_thread_Init, MainCall.audio_decode_thread_Start,
          MainCall.video_decode_thread_Init, MainCall.video_decode_thread_Start])
  else if r.audio_output_Init < 0 then
    (-1, [MainCall.demux_thread_Init, MainCall.demux_thread_Start,
          MainCall.audio_decode_thread_Init, MainCall.audio_decode_thread_Start,
          MainCall.video_decode_thread_Init, MainCall.video_decode_thread_Start,
          MainCall.avsync_InitClock, MainCall.audio_output_Init])
  else if r.video_output_Init < 0 then
    (-1, [MainCall.demux_thread_Init, MainCall.demux_thread_Start,
          MainCall.audio_decode_thread_Init, MainCall.audio_decode_thread_Start,
          MainCall.video_decode_thread_Init, MainCall.video_decode_thread_Start,
          MainCall.avsync_InitClock, MainCall.audio_output_Init, MainCall.video_output_Init])
  else
    (0, [MainCall.demux_thread_Init, MainCall.demux_thread_Start,
         MainCall.audio_decode_thread_Init, MainCall.audio_decode_thread_Start,
         MainCall.video_decode_thread_Init, MainCall.video_decode_thread_Start,
         MainCall.avsync_InitClock, MainCall.audio_output_Init, MainCall.video_output_Init,
         MainCall.video_output_MainLoop,
         MainCall.video_decode_thread_Stop, MainCall.audio_decode_thread_Stop,
         MainCall.demux_thread_Stop,
         MainCall.delete_audio_output, MainCall.delete_video_output,
         MainCall.audio_frame_queue_Abort, MainCall.video_frame_queue_Abort,
         MainCall.audio_packet_queue_Abort, MainCall.video_packet_queue_Abort,
         MainCall.delete_threads])

/-! ## Concrete objects used to exercise the definitions -/

/-- A video output whose clock was anchored by `InitClock()` at wall time 0
and whose queue holds a frame due at 1 s followed by a frame due at 2 s
(time base 1/1). -/
def videoAtStart : VideoOutput where
  avsync_ := AVSync.InitClock { pts_drift_ := 0 } 0
  frame_queue_ := { queue_ := { items := [{ pts := 1, data := [10] }, { pts := 2, data := [20] }],
                                aborted := false } }
  video_width_ := 4
  video_height_ := 2
  time_base_ := { num := 1, den := 1 }

/-- The same video output with only the frame due at 2 s left in the queue. -/
def videoSecondPending : VideoOutput :=
  { videoAtStart with
    frame_queue_ := { queue_ := { items := [{ pts := 2, data := [20] }], aborted := false } } }

/-- A video output whose clock was anchored by `InitClock()` at wall time
1793354400.000001 s and whose queue holds one frame with pts = 1 in the time
base 1/1000. -/
def videoAtMillisecond : VideoOutput where
  avsync_ := AVSync.InitClock { pts_drift_ := 0 } 1793354400000001
  frame_queue_ := { queue_ := { items := [{ pts := 1, data := [10] }], aborted := false } }
  video_width_ := 4
  video_height_ := 2
  time_base_ := { num := 1, den := 1000 }

/-- A video output with the same clock whose queue holds one frame with
pts = 28 in the time base 1/90000. -/
def videoAtTick : VideoOutput where
  avsync_ := AVSync.InitClock { pts_drift_ := 0 } 1793354400000001
  frame_queue_ := { queue_ := { items := [{ pts := 28, data := [10] }], aborted := false } }
  video_width_ := 4
  video_height_ := 2
  time_base_ := { num := 1, den := 90000 }

/-- A video output with an empty frame queue. -/
def videoIdle (avsync : AVSync) (w h : Int) (tb : AVRational) : VideoOutput where
  avsync_ := avsync
  frame_queue_ := { queue_ := { items := [], aborted := false } }
  video_width_ := w
  video_height_ := h
  time_base_ := tb

/-- An audio packet (stream 0). -/
def audioPacket : AVPacket := { stream_index := 0, data := [7] }

/-- A demux thread, not cancelled, reading streams 0 (audio) and 1 (video),
with `n` packets resident in its audio queue, none in its video queue, and
the given read results ahead. -/
def demuxWithAudio (n : Nat) (source : List (Option AVPacket)) : DemuxThread where
  abort_ := 0
  ifmt_ctx_ := source
  audio_stream_ := 0
  video_stream_ := 1
  audio_queue_ := { queue_ := { items := List.replicate n audioPacket, aborted := false } }
  video_queue_ := { queue_ := { items := [], aborted := false } }

/-- A decode thread around `oneFrameDecoder`, not cancelled, with the given
packets waiting and an empty frame queue. -/
def decodeIdle (packets : List AVPacket) : DecodeThread (Option AVFrame) where
  abort_ := 0
  codec_ctx_ := none
  packet_queue_ := { queue_ := { items := packets, aborted := false } }
  frame_queue_ := { queue_ := { items := [], aborted := false } }

/-- A converter that needs no resampling: the buffer is the frame's payload
and its size the payload's length. -/
def convCopy : AVFrame → ConvResult :=
  fun frame => ConvResult.ok frame.data (frame.data.length : Int)

/-- An audio frame with pts 3 and eight bytes of samples. -/
def toneFrame : AVFrame := { pts := 3, data := [1, 2, 3, 4, 5, 6, 7, 8] }

/-- The audio output as its constructor leaves it (no buffer, size and index
0), with an empty frame queue and time base 1/1. -/
def audioFresh : AudioOutput where
  avsync_ := { pts_drift_ := 0 }
  frame_queue_ := { queue_ := { items := [], aborted := false } }
  time_base_ := { num := 1, den := 1 }
  audio_buf_ := none
  audio_buf_size := 0
  audio_buf_index := 0
  pts := 0

/-- The audio output after a callback for 4 bytes found no frame: 4 of the
512 bytes of the silent block are served. -/
def audioAfterShortSilence : AudioOutput :=
  { audioFresh with
    avsync_ := audioFresh.avsync_.SetClock 0 audioFresh.pts
    audio_buf_ := none
    audio_buf_size := 512
    audio_buf_index := 4 }

/-- The same after the decoder has pushed `toneFrame` to the frame queue. -/
def audioFrameArrived : AudioOutput :=
  { audioAfterShortSilence with
    frame_queue_ := (audioAfterShortSilence.frame_queue_.Push toneFrame).2 }

/-- An audio output with eight converted bytes buffered, two of them already
served, and `toneFrame` waiting in the queue. -/
def audioLeftover : AudioOutput where
  avsync_ := { pts_drift_ := 0 }
  frame_queue_ := { queue_ := { items := [toneFrame], aborted := false } }
  time_base_ := { num := 1, den := 1 }
  audio_buf_ := some [11, 12, 13, 14, 15, 16, 17, 18]
  audio_buf_size := 8
  audio_buf_index := 2
  pts := 1

/-- The audio output after a callback for 8 bytes on `audioLeftover`: the six
leftover bytes were served, `toneFrame` was popped and two of its bytes
served. -/
def audioAfterTone : AudioOutput :=
  { audioLeftover with
    frame_queue_ := { queue_ := { items := [], aborted := false } }
    audio_buf_ := some toneFrame.data
    audio_buf_size := 8
    audio_buf_index := 2
    pts := ptsSeconds 3 { num := 1, den := 1 } }

/-- A fresh audio output whose queue holds two frames of two bytes each. -/
def audioTwoFrames : AudioOutput :=
  { audioFresh with
    frame_queue_ := { queue_ := { items := [{ pts := 1, data := [1, 2] },
                                            { pts := 2, data := [3, 4] }],
                                  aborted := false } } }

/-- A decoder that refuses every packet: `avcodec_send_packet` returns -22. -/
def rejectingDecoder : Decoder (Option AVFrame) where
  send_packet := fun c _ => (-22, c)
  receive_frame := fun c => (RecvResult.eagain, c)

/-- A decoder that accepts every packet and then fails to decode it:
`avcodec_receive_frame` returns -22. -/
def failingDecoder : Decoder (Option AVFrame) where
  send_packet := fun c _ => (0, c)
  receive_frame := fun c => (RecvResult.error (-22), c)

/-- A video packet (stream 1). -/
def videoPacket : AVPacket := { stream_index := 1, data := [8] }

/-- A packet of a stream that is neither the audio nor the video stream. -/
def subtitlePacket : AVPacket := { stream_index := 2, data := [9] }

/-! ## Theorems -/

/-! ### Rounding to double -/

theorem roundEven_intCast (n : Int) : roundEven (n : ℚ) = n := by
  simp [roundEven]

theorem roundEven_cases (y : ℚ) : roundEven y = ⌊y⌋ ∧ y - ⌊y⌋ ≤ 1 / 2
    ∨ roundEven y = ⌊y⌋ + 1 ∧ 1 / 2 ≤ y - ⌊y⌋ := by
  unfold roundEven
  by_cases h1 : y - ⌊y⌋ < 1 / 2
  · left; simp only [h1, if_true, true_and]; exact le_of_lt h1
  · by_cases h2 : 1 / 2 < y - ⌊y⌋
    · right; simp only [h1, h2, if_true, if_false, true_and]; linarith
    · have h3 : y - ⌊y⌋ = 1 / 2 := le_antisymm (not_lt.mp h2) (not_lt.mp h1)
      by_cases h4 : ⌊y⌋ % 2 = 0
      · left; simp only [h1, h2, h4, if_true, if_false, true_and]; linarith
      · right; simp only [h1, h2, h4, if_false, true_and]; linarith

theorem roundEven_sub_le (y : ℚ) : |(roundEven y : ℚ) - y| ≤ 1 / 2 := by
  have hf := Int.floor_le y
  have hl := Int.lt_floor_add_one y
  rw [abs_le]
  rcases roundEven_cases y with ⟨h, hr⟩ | ⟨h, hr⟩
  · rw [h]; constructor <;> linarith
  · rw [h]; push_cast; constructor <;> linarith

theorem roundEven_eq_of_near (y : ℚ) (n : Int) (h : |y - n| < 1 / 2) : roundEven y = n := by
  have h1 := roundEven_sub_le y
  rw [abs_le] at h1
  rw [abs_lt] at h
  have h2 : ((roundEven y : Int) : ℚ) - n < 1 := by linarith
  have h3 : (n : ℚ) - roundEven y < 1 := by linarith
  have h4 : roundEven y - n < 1 := by exact_mod_cast h2
  have h5 : n - roundEven y < 1 := by exact_mod_cast h3
  omega

theorem roundEven_nonneg (y : ℚ) (h : 0 ≤ y) : 0 ≤ roundEven y := by
  have hf : 0 ≤ ⌊y⌋ := Int.floor_nonneg.mpr h
  rcases roundEven_cases y with ⟨h1, _⟩ | ⟨h1, _⟩ <;> omega

theorem roundEven_le_of_le (y : ℚ) (N : Int) (h : y ≤ N) : roundEven y ≤ N := by
  have hf := Int.floor_le y
  have hfN : ⌊y⌋ ≤ N := by
    have : ((⌊y⌋ : Int) : ℚ) ≤ N := le_trans hf h
    exact_mod_cast this
  rcases roundEven_cases y with ⟨h1, _⟩ | ⟨h1, hr⟩
  · omega
  · have : ((⌊y⌋ : Int) : ℚ) < N := by linarith
    have : ⌊y⌋ < N := by exact_mod_cast this
    omega

theorem log2_eq_of_bounds (x : ℚ) (e : Int) (h1 : (2 : ℚ) ^ e ≤ x) (h2 : x < (2 : ℚ) ^ (e + 1)) :
    Int.log 2 x = e := by
  have hx : 0 < x := lt_of_lt_of_le (by positivity) h1
  have ha : e ≤ Int.log 2 x := by
    have := (Int.zpow_le_iff_le_log (b := 2) (by norm_num) hx (x := e)).mp (by exact_mod_cast h1)
    exact this
  have hb : Int.log 2 x < e + 1 := by
    have := (Int.lt_zpow_iff_log_lt (b := 2) (by norm_num) hx (x := e + 1)).mp (by exact_mod_cast h2)
    exact this
  omega


theorem ulp_pos (x : ℚ) : (0 : ℚ) < (2 : ℚ) ^ ulpExp x := by positivity

theorem roundAbs_zero : roundAbs 0 = 0 := by
  simp [roundAbs, roundEven]

theorem roundAbs_nonneg (x : ℚ) (hx : 0 ≤ x) : 0 ≤ roundAbs x := by
  unfold roundAbs
  have hp := ulp_pos x
  have hn : 0 ≤ roundEven (x / (2 : ℚ) ^ ulpExp x) := roundEven_nonneg _ (by positivity)
  have : (0 : ℚ) ≤ (roundEven (x / (2 : ℚ) ^ ulpExp x) : ℚ) := by exact_mod_cast hn
  positivity

theorem roundAbs_of_int_ratio (x : ℚ) (N : Int) (h : x / (2 : ℚ) ^ ulpExp x = N) :
    roundAbs x = x := by
  unfold roundAbs
  rw [h, roundEven_intCast, ← h]
  have hp := ulp_pos x
  field_simp

theorem roundAbs_dyadic (m : Int) (k : Int) (hm0 : 0 < m) (hm : (m : ℚ) ≤ 2 ^ (53 : ℕ))
    (hk : -1074 ≤ k) : roundAbs ((m : ℚ) * (2 : ℚ) ^ k) = (m : ℚ) * (2 : ℚ) ^ k := by
  have hm0q : (0 : ℚ) < m := by exact_mod_cast hm0
  have hkpos : (0 : ℚ) < (2 : ℚ) ^ k := by positivity
  have hx : (0 : ℚ) < (m : ℚ) * (2 : ℚ) ^ k := by positivity
  have hlow : (2 : ℚ) ^ Int.log 2 ((m : ℚ) * (2 : ℚ) ^ k) ≤ (m : ℚ) * (2 : ℚ) ^ k := by
    have := Int.zpow_log_le_self (b := 2) (by norm_num) hx
    simpa using this
  -- the logarithm is at most k + 53
  have hxle : (m : ℚ) * (2 : ℚ) ^ k ≤ (2 : ℚ) ^ (k + 53) := by
    rw [zpow_add₀ (by norm_num : (2 : ℚ) ≠ 0), mul_comm]
    have : ((2 : ℚ) ^ (53 : ℤ)) = 2 ^ (53 : ℕ) := by norm_cast
    rw [this]
    exact mul_le_mul_of_nonneg_left hm (le_of_lt hkpos)
  have hL : Int.log 2 ((m : ℚ) * (2 : ℚ) ^ k) ≤ k + 53 := by
    have h1 := Int.log_mono_right (b := 2) hx hxle
    have h2 : Int.log 2 ((2 : ℚ) ^ (k + 53)) = k + 53 := by
      have := Int.log_zpow (R := ℚ) (b := 2) (by norm_num) (k + 53)
      simpa using this
    omega
  by_cases hcase : ulpExp ((m : ℚ) * (2 : ℚ) ^ k) ≤ k
  · -- the unit in the last place divides x
    obtain ⟨j, hj⟩ : ∃ j : ℕ, k = ulpExp ((m : ℚ) * (2 : ℚ) ^ k) + j :=
      ⟨(k - ulpExp ((m : ℚ) * (2 : ℚ) ^ k)).toNat, by omega⟩
    apply roundAbs_of_int_ratio _ (m * 2 ^ j)
    have hp := ulp_pos ((m : ℚ) * (2 : ℚ) ^ k)
    rw [div_eq_iff (ne_of_gt hp)]
    push_cast
    conv_lhs => rw [hj]
    rw [zpow_add₀ (by norm_num : (2 : ℚ) ≠ 0), zpow_natCast]
    ring
  · -- then m = 2^53 and the unit is 2^(k+1)
    have hE : ulpExp ((m : ℚ) * (2 : ℚ) ^ k) = k + 1 := by
      unfold ulpExp at hcase ⊢
      omega
    have hLeq : Int.log 2 ((m : ℚ) * (2 : ℚ) ^ k) = k + 53 := by
      unfold ulpExp at hE
      omega
    have hm53 : (m : ℚ) = 2 ^ (53 : ℕ) := by
      apply le_antisymm hm
      rw [hLeq, zpow_add₀ (by norm_num : (2 : ℚ) ≠ 0)] at hlow
      have h2 : ((2 : ℚ) ^ (53 : ℤ)) = 2 ^ (53 : ℕ) := by norm_cast
      rw [h2, mul_comm] at hlow
      exact le_of_mul_le_mul_right hlow hkpos
    apply roundAbs_of_int_ratio _ (2 ^ (52 : ℕ))
    rw [hE, hm53, zpow_add₀ (by norm_num : (2 : ℚ) ≠ 0)]
    push_cast
    field_simp
    ring


theorem roundToDouble_zero : roundToDouble 0 = 0 := by
  simp [roundToDouble, roundAbs_zero]

theorem roundToDouble_neg (x : ℚ) : roundToDouble (-x) = -roundToDouble x := by
  unfold roundToDouble
  rcases lt_trichotomy x 0 with h | h | h
  · have h1 : ¬ (-x < 0) := by linarith
    simp [h, h1]
  · subst h
    simp [roundAbs_zero]
  · have h1 : -x < 0 := by linarith
    have h2 : ¬ (x < 0) := by linarith
    simp [h1, h2]

theorem roundToDouble_nonpos (x : ℚ) (hx : x ≤ 0) : roundToDouble x ≤ 0 := by
  unfold roundToDouble
  by_cases h : x < 0
  · have := roundAbs_nonneg (-x) (by linarith)
    simp only [h, if_true]
    linarith
  · have h0 : x = 0 := le_antisymm hx (not_lt.mp h)
    subst h0
    simp [roundAbs_zero]

theorem roundToDouble_nonneg (x : ℚ) (hx : 0 ≤ x) : 0 ≤ roundToDouble x := by
  unfold roundToDouble
  have h : ¬ x < 0 := not_lt.mpr hx
  simp only [h, if_false]
  exact roundAbs_nonneg x hx

/-- A number `m * 2^k` with `|m| <= 2^53` and `k >= -1074` is a double: rounding
leaves it as it is. -/
theorem roundToDouble_dyadic (m : Int) (k : Int) (hm : |(m : ℚ)| ≤ 2 ^ (53 : ℕ))
    (hk : -1074 ≤ k) : roundToDouble ((m : ℚ) * (2 : ℚ) ^ k) = (m : ℚ) * (2 : ℚ) ^ k := by
  have hkpos : (0 : ℚ) < (2 : ℚ) ^ k := by positivity
  rw [abs_le] at hm
  rcases lt_trichotomy m 0 with h | h | h
  · have hq : (m : ℚ) < 0 := by exact_mod_cast h
    have hx : (m : ℚ) * (2 : ℚ) ^ k < 0 := mul_neg_of_neg_of_pos hq hkpos
    have := roundAbs_dyadic (-m) k (by omega) (by push_cast; linarith) hk
    unfold roundToDouble
    simp only [hx, if_true]
    have e : -((m : ℚ) * (2 : ℚ) ^ k) = ((-m : Int) : ℚ) * (2 : ℚ) ^ k := by push_cast; ring
    rw [e, this]
    push_cast
    ring
  · subst h
    simp [roundToDouble_zero]
  · have hq : (0 : ℚ) < m := by exact_mod_cast h
    have hx : ¬ ((m : ℚ) * (2 : ℚ) ^ k < 0) := not_lt.mpr (by positivity)
    unfold roundToDouble
    simp only [hx, if_false]
    exact roundAbs_dyadic m k h hm.2 hk

/-- Every rounded value is a double: an integer of magnitude at most 2^53 times a power of two
not below 2^-1074. -/
theorem roundAbs_isDyadic (x : ℚ) (hx : 0 ≤ x) :
    ∃ (m : Int) (k : Int), 0 ≤ m ∧ (m : ℚ) ≤ 2 ^ (53 : ℕ) ∧ -1074 ≤ k
      ∧ roundAbs x = (m : ℚ) * (2 : ℚ) ^ k := by
  refine ⟨roundEven (x / (2 : ℚ) ^ ulpExp x), ulpExp x, roundEven_nonneg _ (by positivity), ?_,
    by unfold ulpExp; omega, rfl⟩
  have hp := ulp_pos x
  have hlt : x < (2 : ℚ) ^ (Int.log 2 x + 1) := by
    have := Int.lt_zpow_succ_log_self (b := 2) (by norm_num) x
    simpa using this
  have hle : (2 : ℚ) ^ (Int.log 2 x + 1) ≤ (2 : ℚ) ^ (ulpExp x + 53) := by
    apply zpow_le_zpow_right₀ (by norm_num)
    unfold ulpExp
    omega
  have hy : x / (2 : ℚ) ^ ulpExp x ≤ ((2 ^ (53 : ℕ) : Int) : ℚ) := by
    rw [div_le_iff₀ hp]
    push_cast
    have e : (2 : ℚ) ^ (ulpExp x + 53) = 2 ^ (53 : ℕ) * (2 : ℚ) ^ ulpExp x := by
      rw [zpow_add₀ (by norm_num : (2 : ℚ) ≠ 0), mul_comm]
      norm_cast
    linarith
  have := roundEven_le_of_le _ _ hy
  exact_mod_cast this

/-- Rounding a double again changes nothing. -/
theorem roundToDouble_idem (x : ℚ) : roundToDouble (roundToDouble x) = roundToDouble x := by
  have key : ∀ y : ℚ, 0 ≤ y → roundToDouble (roundAbs y) = roundAbs y := by
    intro y hy
    obtain ⟨m, k, hm0, hm, hk, h⟩ := roundAbs_isDyadic y hy
    rw [h]
    apply roundToDouble_dyadic m k _ hk
    rw [abs_of_nonneg (by exact_mod_cast hm0)]
    exact hm
  by_cases h : x < 0
  · have e : roundToDouble x = -(roundAbs (-x)) := by simp [roundToDouble, h]
    rw [e, roundToDouble_neg, key (-x) (by linarith)]
  · have e : roundToDouble x = roundAbs x := by simp [roundToDouble, h]
    rw [e, key x (not_lt.mp h)]


theorem doubleTiny_pos : 0 < doubleTiny := by unfold doubleTiny; positivity

theorem roundAbs_error (x : ℚ) (hx : 0 ≤ x) :
    |roundAbs x - x| ≤ x / 2 ^ (53 : ℕ) + doubleTiny := by
  rcases eq_or_lt_of_le hx with h0 | hpos
  · subst h0
    have := doubleTiny_pos
    simp [roundAbs_zero]
    linarith
  have hp := ulp_pos x
  have hr := roundEven_sub_le (x / (2 : ℚ) ^ ulpExp x)
  have hstep : |roundAbs x - x| ≤ (2 : ℚ) ^ ulpExp x / 2 := by
    have e : roundAbs x - x
        = ((roundEven (x / (2 : ℚ) ^ ulpExp x) : ℚ) - x / (2 : ℚ) ^ ulpExp x)
            * (2 : ℚ) ^ ulpExp x := by
      unfold roundAbs
      field_simp
    rw [e, abs_mul, abs_of_pos hp]
    calc |(roundEven (x / (2 : ℚ) ^ ulpExp x) : ℚ) - x / (2 : ℚ) ^ ulpExp x| * (2 : ℚ) ^ ulpExp x
        ≤ 1 / 2 * (2 : ℚ) ^ ulpExp x := mul_le_mul_of_nonneg_right hr (le_of_lt hp)
      _ = (2 : ℚ) ^ ulpExp x / 2 := by ring
  have hlow : (2 : ℚ) ^ Int.log 2 x ≤ x := by
    have := Int.zpow_log_le_self (b := 2) (by norm_num) hpos
    simpa using this
  have htiny := doubleTiny_pos
  by_cases hcase : -1022 ≤ Int.log 2 x
  · have hE : ulpExp x = Int.log 2 x + (-52) := by unfold ulpExp; omega
    have e : (2 : ℚ) ^ ulpExp x / 2 = (2 : ℚ) ^ Int.log 2 x / 2 ^ (53 : ℕ) := by
      rw [hE, zpow_add₀ (by norm_num : (2 : ℚ) ≠ 0)]
      norm_num
      ring
    have : (2 : ℚ) ^ Int.log 2 x / 2 ^ (53 : ℕ) ≤ x / 2 ^ (53 : ℕ) :=
      div_le_div_of_nonneg_right hlow (by positivity)
    linarith
  · have hE : ulpExp x = -1074 := by unfold ulpExp; omega
    have e : (2 : ℚ) ^ ulpExp x / 2 = doubleTiny := by
      rw [hE]
      unfold doubleTiny
      rw [show (-1075 : ℤ) = -1074 + (-1) by norm_num, zpow_add₀ (by norm_num : (2 : ℚ) ≠ 0)]
      norm_num
    have : 0 ≤ x / 2 ^ (53 : ℕ) := by positivity
    linarith

/-- The rounding error is at most the relative error `2^-53`, or `2^-1075` in
the range of gradual underflow. -/
theorem roundToDouble_error (x : ℚ) :
    |roundToDouble x - x| ≤ |x| / 2 ^ (53 : ℕ) + doubleTiny := by
  unfold roundToDouble
  by_cases h : x < 0
  · simp only [h, if_true]
    have := roundAbs_error (-x) (by linarith)
    rw [abs_of_neg h]
    have e : -roundAbs (-x) - x = -(roundAbs (-x) - -x) := by ring
    rw [e, abs_neg]
    exact this
  · simp only [h, if_false]
    rw [abs_of_nonneg (not_lt.mp h)]
    exact roundAbs_error x (not_lt.mp h)


theorem roundAbs_eq_of_near (x : ℚ) (e : Int) (n : Int) (he : -1022 ≤ e)
    (h1 : (2 : ℚ) ^ e ≤ x) (h2 : x < (2 : ℚ) ^ (e + 1))
    (hn : |x / (2 : ℚ) ^ (e - 52) - n| < 1 / 2) :
    roundAbs x = (n : ℚ) * (2 : ℚ) ^ (e - 52) := by
  have hlog := log2_eq_of_bounds x e h1 h2
  have hE : ulpExp x = e - 52 := by unfold ulpExp; omega
  unfold roundAbs
  rw [hE, roundEven_eq_of_near _ n hn]

/-- Evaluation of a rounding from a certificate: for `x` in the binade
`[2^e, 2^(e+1))`, an integer `n` within less than 1/2 of `x / 2^(e-52)` gives the
rounded value `n * 2^(e-52)`. -/
theorem roundToDouble_eq_of_near (x : ℚ) (e : Int) (n : Int) (he : -1022 ≤ e)
    (h1 : (2 : ℚ) ^ e ≤ x) (h2 : x < (2 : ℚ) ^ (e + 1))
    (hn : |x / (2 : ℚ) ^ (e - 52) - n| < 1 / 2) :
    roundToDouble x = (n : ℚ) * (2 : ℚ) ^ (e - 52) := by
  have hx : ¬ x < 0 := not_lt.mpr (le_trans (by positivity) h1)
  unfold roundToDouble
  simp only [hx, if_false]
  exact roundAbs_eq_of_near x e n he h1 h2 hn

theorem roundToDouble_of_dyadic (x : ℚ) (m : Int) (k : Int) (hm : |(m : ℚ)| ≤ 2 ^ (53 : ℕ))
    (hk : -1074 ≤ k) (hx : x = (m : ℚ) * (2 : ℚ) ^ k) : roundToDouble x = x := by
  rw [hx]
  exact roundToDouble_dyadic m k hm hk

theorem roundToDouble_intCast (n : Int) (h : |(n : ℚ)| ≤ 2 ^ (53 : ℕ)) :
    roundToDouble (n : ℚ) = n :=
  roundToDouble_of_dyadic (n : ℚ) n 0 h (by norm_num) (by simp)

theorem roundAbs_on_grid (x : ℚ) : ∃ j : Int, roundAbs x = (j : ℚ) * (2 : ℚ) ^ (-1074 : ℤ) := by
  obtain ⟨d, hd⟩ : ∃ d : ℕ, ulpExp x = -1074 + d :=
    ⟨(ulpExp x + 1074).toNat, by unfold ulpExp; omega⟩
  refine ⟨roundEven (x / (2 : ℚ) ^ ulpExp x) * 2 ^ d, ?_⟩
  unfold roundAbs
  generalize roundEven (x / (2 : ℚ) ^ ulpExp x) = r
  rw [hd, zpow_add₀ (by norm_num : (2 : ℚ) ≠ 0), zpow_natCast]
  generalize (2 : ℚ) ^ (-1074 : ℤ) = g
  push_cast
  ring

/-- Every double is an integer multiple of the smallest positive double,
`2^-1074`. -/
theorem roundToDouble_on_grid (x : ℚ) :
    ∃ j : Int, roundToDouble x = (j : ℚ) * (2 : ℚ) ^ (-1074 : ℤ) := by
  unfold roundToDouble
  by_cases h : x < 0
  · obtain ⟨j, hj⟩ := roundAbs_on_grid (-x)
    refine ⟨-j, ?_⟩
    simp only [h, if_true, hj]
    push_cast
    ring
  · simp only [h, if_false]
    exact roundAbs_on_grid x

theorem roundEven_pos_of_one_le (y : ℚ) (h : 1 ≤ y) : 0 < roundEven y := by
  have hf : 1 ≤ ⌊y⌋ := Int.le_floor.mpr (by exact_mod_cast h)
  rcases roundEven_cases y with ⟨h1, _⟩ | ⟨h1, _⟩ <;> omega

theorem roundAbs_pos_on_grid (x : ℚ) (j : Int) (hx : 0 < x)
    (hj : x = (j : ℚ) * (2 : ℚ) ^ (-1074 : ℤ)) : 0 < roundAbs x := by
  have hp := ulp_pos x
  have hlow : (2 : ℚ) ^ Int.log 2 x ≤ x := by
    have := Int.zpow_log_le_self (b := 2) (by norm_num) hx
    simpa using this
  have hule : (2 : ℚ) ^ ulpExp x ≤ x := by
    by_cases hcase : -1022 ≤ Int.log 2 x
    · have hle : (2 : ℚ) ^ ulpExp x ≤ (2 : ℚ) ^ Int.log 2 x := by
        apply zpow_le_zpow_right₀ (by norm_num)
        unfold ulpExp
        omega
      linarith
    · have hE : ulpExp x = -1074 := by unfold ulpExp; omega
      have hg : (0 : ℚ) < (2 : ℚ) ^ (-1074 : ℤ) := by positivity
      have hjpos : (0 : ℚ) < (j : ℚ) := by
        by_contra hneg
        have : (j : ℚ) * (2 : ℚ) ^ (-1074 : ℤ) ≤ 0 :=
          mul_nonpos_of_nonpos_of_nonneg (not_lt.mp hneg) (le_of_lt hg)
        linarith
      have hj1 : (1 : ℚ) ≤ (j : ℚ) := by
        have : 0 < j := by exact_mod_cast hjpos
        have : 1 ≤ j := this
        exact_mod_cast this
      rw [hE]
      calc (2 : ℚ) ^ (-1074 : ℤ) = 1 * (2 : ℚ) ^ (-1074 : ℤ) := by ring
        _ ≤ (j : ℚ) * (2 : ℚ) ^ (-1074 : ℤ) := mul_le_mul_of_nonneg_right hj1 (le_of_lt hg)
        _ = x := hj.symm
  have hy : 1 ≤ x / (2 : ℚ) ^ ulpExp x := by
    rw [le_div_iff₀ hp]
    linarith
  have hn := roundEven_pos_of_one_le _ hy
  have hnq : (0 : ℚ) < (roundEven (x / (2 : ℚ) ^ ulpExp x) : ℚ) := by exact_mod_cast hn
  unfold roundAbs
  positivity

theorem roundToDouble_of_nonneg (x : ℚ) (hx : 0 ≤ x) : roundToDouble x = roundAbs x := by
  have h : ¬ x < 0 := not_lt.mpr hx
  simp only [roundToDouble, h, if_false]

/-- The rounded difference of two doubles is positive exactly when the first
is the larger: a subtraction of doubles never rounds a nonzero difference to
zero. -/
theorem roundToDouble_sub_pos_iff (a b : ℚ) :
    roundToDouble (roundToDouble a - roundToDouble b) > 0 ↔ roundToDouble a > roundToDouble b := by
  constructor
  · intro h
    by_contra hle
    have := roundToDouble_nonpos (roundToDouble a - roundToDouble b) (by linarith [not_lt.mp hle])
    linarith
  · intro h
    obtain ⟨ja, ha⟩ := roundToDouble_on_grid a
    obtain ⟨jb, hb⟩ := roundToDouble_on_grid b
    have hpos : 0 < roundToDouble a - roundToDouble b := by linarith
    have hgrid : roundToDouble a - roundToDouble b = ((ja - jb : Int) : ℚ) * (2 : ℚ) ^ (-1074 : ℤ) := by
      rw [ha, hb]
      push_cast
      ring
    have := roundAbs_pos_on_grid _ (ja - jb) hpos hgrid
    show 0 < roundToDouble (roundToDouble a - roundToDouble b)
    rw [roundToDouble_of_nonneg _ (le_of_lt hpos)]
    exact this

/-- The double written `0.01`. -/
theorem REFRESH_RATE_eq : REFRESH_RATE = 5764607523034235 / 576460752303423488 := by
  have := roundToDouble_eq_of_near (1 / 100) (-7) 5764607523034235
    (by norm_num) (by norm_num) (by norm_num) (by norm_num [abs_lt])
  rw [REFRESH_RATE, this]
  norm_num

theorem av_q2d_one : av_q2d { num := 1, den := 1 } = 1 := by
  have h1 : roundToDouble 1 = 1 :=
    roundToDouble_of_dyadic 1 1 0 (by norm_num) (by norm_num) (by norm_num)
  simp [av_q2d, h1]

/-- In the time base 1/1 a timestamp of at most 53 bits is its own number of
seconds. -/
theorem ptsSeconds_one (pts : Int) (h : |(pts : ℚ)| ≤ 2 ^ (53 : ℕ)) :
    ptsSeconds pts { num := 1, den := 1 } = pts := by
  rw [ptsSeconds, av_q2d_one, roundToDouble_intCast pts h, mul_one, roundToDouble_intCast pts h]

/-! ### The clock -/

/-- The wall clock in seconds as the code computes it,
`GetMicroseconds() / 1000000.0`, is within three relative rounding errors of
the exact quotient. -/
theorem AVSync.time_error (us : Int) :
    |roundToDouble (roundToDouble (us : ℚ) / 1000000) - (us : ℚ) / 1000000|
      ≤ 3 * |(us : ℚ) / 1000000| / 2 ^ (53 : ℕ) + 2 * doubleTiny := by
  have hA := roundToDouble_error (us : ℚ)
  have hT := roundToDouble_error (roundToDouble (us : ℚ) / 1000000)
  have htiny := doubleTiny_pos
  have e1 : |roundToDouble (us : ℚ) / 1000000| = |roundToDouble (us : ℚ)| / 1000000 := by
    rw [abs_div]; norm_num
  have e2 : |(us : ℚ) / 1000000| = |(us : ℚ)| / 1000000 := by
    rw [abs_div]; norm_num
  have hAabs : |roundToDouble (us : ℚ)| ≤ |(us : ℚ)| + |roundToDouble (us : ℚ) - us| := by
    have := abs_add (us : ℚ) (roundToDouble (us : ℚ) - us)
    simpa using this
  have hsplit : |roundToDouble (roundToDouble (us : ℚ) / 1000000) - (us : ℚ) / 1000000|
      ≤ |roundToDouble (roundToDouble (us : ℚ) / 1000000) - roundToDouble (us : ℚ) / 1000000|
        + |roundToDouble (us : ℚ) - us| / 1000000 := by
    have := abs_add
      (roundToDouble (roundToDouble (us : ℚ) / 1000000) - roundToDouble (us : ℚ) / 1000000)
      ((roundToDouble (us : ℚ) - us) / 1000000)
    have e3 : |(roundToDouble (us : ℚ) - us) / 1000000|
        = |roundToDouble (us : ℚ) - us| / 1000000 := by
      rw [abs_div]; norm_num
    rw [e3] at this
    have e4 : roundToDouble (roundToDouble (us : ℚ) / 1000000) - roundToDouble (us : ℚ) / 1000000
        + (roundToDouble (us : ℚ) - us) / 1000000
        = roundToDouble (roundToDouble (us : ℚ) / 1000000) - (us : ℚ) / 1000000 := by ring
    rw [e4] at this
    exact this
  rw [e1] at hT
  rw [e2]
  have hnn := abs_nonneg (us : ℚ)
  have hnn2 := abs_nonneg (roundToDouble (us : ℚ) - us)
  norm_num at hA hT ⊢
  linarith

/-- The value `GetClock()` returns after `SetClock(pts0)` differs from
`pts0 + (t1 - t0)` by the rounding of the five operations involved: at most
`(|pts0| + |t0| + |t1|) / 2^49 + 32 * 2^-1075`. -/
theorem AVSync.getClock_error (c : AVSync) (pts0 : ℚ) (us0 us1 : Int) :
    |(c.SetClock us0 pts0).GetClock us1 - (pts0 + ((us1 : ℚ) / 1000000 - (us0 : ℚ) / 1000000))|
      ≤ (|pts0| + |(us0 : ℚ) / 1000000| + |(us1 : ℚ) / 1000000|) / 2 ^ (49 : ℕ)
        + 32 * doubleTiny := by
  simp only [AVSync.GetClock, AVSync.SetClock]
  generalize hT0 : roundToDouble (roundToDouble (us0 : ℚ) / 1000000) = T0
  generalize hT1 : roundToDouble (roundToDouble (us1 : ℚ) / 1000000) = T1
  have h0 := AVSync.time_error us0
  have h1 := AVSync.time_error us1
  rw [hT0] at h0
  rw [hT1] at h1
  generalize (us0 : ℚ) / 1000000 = t0 at h0 ⊢
  generalize (us1 : ℚ) / 1000000 = t1 at h1 ⊢
  have hD := roundToDouble_error (pts0 - T0)
  have hG := roundToDouble_error (roundToDouble (pts0 - T0) + T1)
  generalize roundToDouble (pts0 - T0) = D at hD hG ⊢
  generalize roundToDouble (D + T1) = G at hG ⊢
  have htiny := doubleTiny_pos
  -- triangle inequalities
  have a1 : |T0| ≤ |t0| + |T0 - t0| := by
    have := abs_add t0 (T0 - t0); simpa using this
  have a2 : |T1| ≤ |t1| + |T1 - t1| := by
    have := abs_add t1 (T1 - t1); simpa using this
  have a3 : |pts0 - T0| ≤ |pts0| + |T0| := abs_sub pts0 T0
  have a4 : |D| ≤ |pts0 - T0| + |D - (pts0 - T0)| := by
    have := abs_add (pts0 - T0) (D - (pts0 - T0)); simpa using this
  have a5 : |D + T1| ≤ |D| + |T1| := abs_add D T1
  have a6 : |G - (pts0 + (t1 - t0))|
      ≤ |G - (D + T1)| + |D - (pts0 - T0)| + |T0 - t0| + |T1 - t1| := by
    have e : G - (pts0 + (t1 - t0))
        = (G - (D + T1)) + (D - (pts0 - T0)) + (-(T0 - t0)) + (T1 - t1) := by ring
    rw [e]
    have b1 := abs_add ((G - (D + T1)) + (D - (pts0 - T0)) + (-(T0 - t0))) (T1 - t1)
    have b2 := abs_add ((G - (D + T1)) + (D - (pts0 - T0))) (-(T0 - t0))
    have b3 := abs_add (G - (D + T1)) (D - (pts0 - T0))
    rw [abs_neg] at b2
    linarith
  have n1 := abs_nonneg pts0
  have n2 := abs_nonneg t0
  have n3 := abs_nonneg t1
  have n4 := abs_nonneg (T0 - t0)
  have n5 := abs_nonneg (T1 - t1)
  have n6 := abs_nonneg (D - (pts0 - T0))
  norm_num at h0 h1 hD hG ⊢
  linarith

/-- A clock anchored at 0 by `InitClock()` at 1793354400.000001 s and read
1 ms later shows `2097 / 2^21` s (0.00099992752...). -/
theorem AVSync.clock_after_millisecond :
    (AVSync.InitClock { pts_drift_ := 0 } 1793354400000001).GetClock 1793354400001001
        = 2097 / 2097152 := by
  have hu0 : roundToDouble ((1793354400000001 : Int) : ℚ) = 1793354400000001 := by
    have := roundToDouble_intCast 1793354400000001 (by norm_num)
    simpa using this
  have hu1 : roundToDouble ((1793354400001001 : Int) : ℚ) = 1793354400001001 := by
    have := roundToDouble_intCast 1793354400001001 (by norm_num)
    simpa using this
  have hT0 : roundToDouble (1793354400000001 / 1000000) = 1880468383334401 / 1048576 := by
    have := roundToDouble_eq_of_near (1793354400000001 / 1000000) 30 7521873533337604
      (by norm_num) (by norm_num) (by norm_num) (by norm_num [abs_lt])
    rw [this]
    norm_num
  have hT1 : roundToDouble (1793354400001001 / 1000000) = 3760936766670899 / 2097152 := by
    have := roundToDouble_eq_of_near (1793354400001001 / 1000000) 30 7521873533341798
      (by norm_num) (by norm_num) (by norm_num) (by norm_num [abs_lt])
    rw [this]
    norm_num
  have hD : roundToDouble (0 - 1880468383334401 / 1048576) = -(1880468383334401 / 1048576) := by
    rw [roundToDouble_of_dyadic _ (-1880468383334401) (-20) (by norm_num) (by norm_num)
      (by norm_num)]
    norm_num
  have hG : roundToDouble (-(1880468383334401 / 1048576) + 3760936766670899 / 2097152)
      = 2097 / 2097152 := by
    rw [roundToDouble_of_dyadic _ 2097 (-21) (by norm_num) (by norm_num) (by norm_num)]
    norm_num
  simp only [AVSync.GetClock, AVSync.InitClock, AVSync.SetClock, hu0, hu1, hT0, hT1, hD, hG]

/-- The same clock read 312 microseconds after `InitClock()` shows
`1305 / 2^22` s (0.00031113624...). -/
theorem AVSync.clock_after_312_microseconds :
    (AVSync.InitClock { pts_drift_ := 0 } 1793354400000001).GetClock 1793354400000312
        = 1305 / 4194304 := by
  have hu0 : roundToDouble ((1793354400000001 : Int) : ℚ) = 1793354400000001 := by
    have := roundToDouble_intCast 1793354400000001 (by norm_num)
    simpa using this
  have hu2 : roundToDouble ((1793354400000312 : Int) : ℚ) = 1793354400000312 := by
    have := roundToDouble_intCast 1793354400000312 (by norm_num)
    simpa using this
  have hT0 : roundToDouble (1793354400000001 / 1000000) = 1880468383334401 / 1048576 := by
    have := roundToDouble_eq_of_near (1793354400000001 / 1000000) 30 7521873533337604
      (by norm_num) (by norm_num) (by norm_num) (by norm_num [abs_lt])
    rw [this]
    norm_num
  have hT2 : roundToDouble (1793354400000312 / 1000000) = 7521873533338909 / 4194304 := by
    have := roundToDouble_eq_of_near (1793354400000312 / 1000000) 30 7521873533338909
      (by norm_num) (by norm_num) (by norm_num) (by norm_num [abs_lt])
    rw [this]
    norm_num
  have hD : roundToDouble (0 - 1880468383334401 / 1048576) = -(1880468383334401 / 1048576) := by
    rw [roundToDouble_of_dyadic _ (-1880468383334401) (-20) (by norm_num) (by norm_num)
      (by norm_num)]
    norm_num
  have hG : roundToDouble (-(1880468383334401 / 1048576) + 7521873533338909 / 4194304)
      = 1305 / 4194304 := by
    rw [roundToDouble_of_dyadic _ 1305 (-22) (by norm_num) (by norm_num) (by norm_num)]
    norm_num
  simp only [AVSync.GetClock, AVSync.InitClock, AVSync.SetClock, hu0, hu2, hT0, hT2, hD, hG]

/-- C1 (counterexample): a clock anchored at 0 by `InitClock()` at
wall time 1793354400.000001 s and read 1 ms later returns `2097 / 2^21`
(0.00099992752...), not `0 + (t1 - t0) = 1/1000`: the two wall-clock readings
are rounded to doubles of spacing `2^-22` s before they are subtracted. -/
theorem getClock_not_exact_after_setClock :
    (AVSync.SetClock { pts_drift_ := 0 } 1793354400000001 0).GetClock 1793354400001001
        = 2097 / 2097152
      ∧ (AVSync.SetClock { pts_drift_ := 0 } 1793354400000001 0).GetClock 1793354400001001
        ≠ 0 + (((1793354400001001 : Int) : ℚ) / 1000000
                - ((1793354400000001 : Int) : ℚ) / 1000000) := by
  have h : (AVSync.SetClock { pts_drift_ := 0 } 1793354400000001 0).GetClock 1793354400001001
      = 2097 / 2097152 := AVSync.clock_after_millisecond
  refine ⟨h, ?_⟩
  rw [h]
  norm_num

/-- C1 (amended): a `GetClock()` that reads the wall clock at `us1` microseconds,
after a `SetClock(pts0)` that read it at `us0` and with no `SetClock` in
between, returns `pts0 + (t1 - t0)`, with `t = us / 1000000` seconds, up to the
rounding of the double operations: the error is at most
`(|pts0| + |t0| + |t1|) / 2^49 + 2^-1070`.  `InitClock()` is `SetClock(0)`, and
`GetClock()` at the instant of `InitClock()` returns exactly 0. -/
theorem getClock_after_setClock (c : AVSync) (pts0 : ℚ) (us0 us1 : Int) :
    |(c.SetClock us0 pts0).GetClock us1
          - (pts0 + ((us1 : ℚ) / 1000000 - (us0 : ℚ) / 1000000))|
        ≤ (|pts0| + |(us0 : ℚ) / 1000000| + |(us1 : ℚ) / 1000000|) / 2 ^ (49 : ℕ)
            + 32 * doubleTiny
      ∧ c.InitClock us0 = c.SetClock us0 0
      ∧ (c.InitClock us0).GetClock us0 = 0 := by
  refine ⟨AVSync.getClock_error c pts0 us0 us1, rfl, ?_⟩
  simp only [AVSync.GetClock, AVSync.InitClock, AVSync.SetClock]
  rw [zero_sub, roundToDouble_neg, roundToDouble_idem, neg_add_cancel, roundToDouble_zero]

/-! ### The video refresh step -/

theorem AVFrameQueue.Front_cons (q : AVFrameQueue) (frame : AVFrame) (rest : List AVFrame)
    (hitems : q.queue_.items = frame :: rest) (hab : q.queue_.aborted = false) :
    q.Front = some frame := by
  simp [AVFrameQueue.Front, Queue.Front, hitems, hab]

theorem AVFrameQueue.Pop_cons (q : AVFrameQueue) (frame : AVFrame) (rest : List AVFrame)
    (timeout : Int)
    (hitems : q.queue_.items = frame :: rest) (hab : q.queue_.aborted = false) :
    q.Pop timeout = (some frame, { queue_ := { items := rest, aborted := false } }) := by
  simp [AVFrameQueue.Pop, Queue.Pop, hitems, hab]

/-- The sign of `diff` in `videoRefresh` is the order of the two doubles it
subtracts: `diff > 0` exactly when the head frame's time is after the
clock. -/
theorem VideoOutput.diff_pos_iff (vo : VideoOutput) (us : Int) (frame : AVFrame) :
    roundToDouble (ptsSeconds frame.pts vo.time_base_ - vo.avsync_.GetClock us) > 0
      ↔ ptsSeconds frame.pts vo.time_base_ > vo.avsync_.GetClock us := by
  simp only [ptsSeconds, AVSync.GetClock]
  exact roundToDouble_sub_pos_iff _ _

/-- The branch `diff > 0` of `videoRefresh`. -/
theorem VideoOutput.videoRefresh_of_diff_pos (vo : VideoOutput) (us : Int) (remain_time : ℚ)
    (frame : AVFrame)
    (hfront : vo.frame_queue_.Front = some frame)
    (hdiff : roundToDouble (ptsSeconds frame.pts vo.time_base_ - vo.avsync_.GetClock us) > 0) :
    vo.videoRefresh us remain_time
      = (vo, min (roundToDouble (ptsSeconds frame.pts vo.time_base_ - vo.avsync_.GetClock us))
               REFRESH_RATE, []) := by
  by_cases hcap : roundToDouble (ptsSeconds frame.pts vo.time_base_ - vo.avsync_.GetClock us)
      > REFRESH_RATE
  · simp [VideoOutput.videoRefresh, hfront, hdiff, hcap, min_eq_right (le_of_lt hcap)]
  · have hle : roundToDouble (ptsSeconds frame.pts vo.time_base_ - vo.avsync_.GetClock us)
        ≤ REFRESH_RATE := not_lt.mp hcap
    simp [VideoOutput.videoRefresh, hfront, hdiff, hcap, min_eq_left hle]

/-- The branch `diff <= 0` of `videoRefresh`. -/
theorem VideoOutput.videoRefresh_of_diff_nonpos (vo : VideoOutput) (us : Int) (remain_time : ℚ)
    (frame : AVFrame) (rest : List AVFrame)
    (hitems : vo.frame_queue_.queue_.items = frame :: rest)
    (hab : vo.frame_queue_.queue_.aborted = false)
    (hdiff : roundToDouble (ptsSeconds frame.pts vo.time_base_ - vo.avsync_.GetClock us) ≤ 0) :
    vo.videoRefresh us remain_time
      = ({ vo with frame_queue_ := { queue_ := { items := rest, aborted := false } } },
         remain_time,
         [ VideoCall.SDL_UpdateYUVTexture vo.video_width_ vo.video_height_ frame,
           VideoCall.SDL_RenderClear,
           VideoCall.SDL_RenderCopy vo.video_width_ vo.video_height_,
           VideoCall.SDL_RenderPresent,
           VideoCall.av_frame_free frame ]) := by
  have hfront := AVFrameQueue.Front_cons vo.frame_queue_ frame rest hitems hab
  have hpop := AVFrameQueue.Pop_cons vo.frame_queue_ frame rest 1 hitems hab
  have hnot : ¬ (roundToDouble (ptsSeconds frame.pts vo.time_base_ - vo.avsync_.GetClock us)
      > 0) := not_lt.mpr hdiff
  simp [VideoOutput.videoRefresh, hfront, hpop, hnot]

/-- The clock of `videoAtStart`, anchored at 0 at wall time 0, read at 1.5 s. -/
theorem videoAtStart_clock : videoAtStart.avsync_.GetClock 1500000 = 3 / 2 := by
  have h0 : roundToDouble 0 = 0 := roundToDouble_zero
  have hu : roundToDouble 1500000 = 1500000 :=
    roundToDouble_of_dyadic 1500000 1500000 0 (by norm_num) (by norm_num) (by norm_num)
  have h32 : roundToDouble (3 / 2) = 3 / 2 :=
    roundToDouble_of_dyadic (3 / 2) 3 (-1) (by norm_num) (by norm_num) (by norm_num)
  norm_num [videoAtStart, AVSync.GetClock, AVSync.InitClock, AVSync.SetClock, h0, hu, h32]

/-- C2: when the video frame queue is not aborted and holds `frame :: rest`,
and the head frame's time in seconds, the double `pts * time_base`, is at or
before the double `GetClock()` returns, one call of `videoRefresh` uploads the
head frame into the texture, clears, copies and presents, then pops and frees
exactly that frame; the queue is left holding `rest` in the same order, and
`remain_time` is not touched. -/
theorem videoRefresh_renders_due_frame (vo : VideoOutput) (us : Int) (remain_time : ℚ)
    (frame : AVFrame) (rest : List AVFrame)
    (hitems : vo.frame_queue_.queue_.items = frame :: rest)
    (hab : vo.frame_queue_.queue_.aborted = false)
    (hdue : ptsSeconds frame.pts vo.time_base_ ≤ vo.avsync_.GetClock us) :
    vo.videoRefresh us remain_time
      = ({ vo with frame_queue_ := { queue_ := { items := rest, aborted := false } } },
         remain_time,
         [ VideoCall.SDL_UpdateYUVTexture vo.video_width_ vo.video_height_ frame,
           VideoCall.SDL_RenderClear,
           VideoCall.SDL_RenderCopy vo.video_width_ vo.video_height_,
           VideoCall.SDL_RenderPresent,
           VideoCall.av_frame_free frame ]) :=
  VideoOutput.videoRefresh_of_diff_nonpos vo us remain_time frame rest hitems hab
    (roundToDouble_nonpos _ (by linarith))

/-- Witness for C2: clock anchored at 0 by `InitClock()`, read at 1.5 s; the
head frame with pts = 1 s is rendered and removed, the frame with pts = 2 s
stays. -/
theorem videoRefresh_renders_due_frame_witness :
    videoAtStart.videoRefresh 1500000 0
      = (videoSecondPending, 0,
         [ VideoCall.SDL_UpdateYUVTexture 4 2 { pts := 1, data := [10] },
           VideoCall.SDL_RenderClear,
           VideoCall.SDL_RenderCopy 4 2,
           VideoCall.SDL_RenderPresent,
           VideoCall.av_frame_free { pts := 1, data := [10] } ]) :=
  videoRefresh_renders_due_frame videoAtStart 1500000 0 { pts := 1, data := [10] }
    [{ pts := 2, data := [20] }] rfl rfl
    (by
      have hp : ptsSeconds 1 { num := 1, den := 1 } = ((1 : Int) : ℚ) :=
        ptsSeconds_one 1 (by norm_num)
      show ptsSeconds 1 { num := 1, den := 1 } ≤ videoAtStart.avsync_.GetClock 1500000
      rw [hp, videoAtStart_clock]
      norm_num)

/-- C3: when the head frame of the video frame queue is still ahead of the
clock, that is `diff > 0` for the double `diff = pts * time_base - GetClock()`
the code computes, one call of `videoRefresh` leaves the object (and so the
queue) unchanged, makes no external call, and sets `remain_time` to
`min(diff, REFRESH_RATE)`, where `REFRESH_RATE` is the double written `0.01`:
the double nearest to 1/100, `5764607523034235 / 2^59`. -/
theorem videoRefresh_waits_for_early_frame (vo : VideoOutput) (us : Int) (remain_time : ℚ)
    (frame : AVFrame)
    (hfront : vo.frame_queue_.Front = some frame)
    (hdiff : roundToDouble (ptsSeconds frame.pts vo.time_base_ - vo.avsync_.GetClock us) > 0) :
    vo.videoRefresh us remain_time
      = (vo, min (roundToDouble (ptsSeconds frame.pts vo.time_base_ - vo.avsync_.GetClock us))
               REFRESH_RATE, [])
      ∧ REFRESH_RATE = roundToDouble (1 / 100)
      ∧ REFRESH_RATE = 5764607523034235 / 576460752303423488 :=
  ⟨VideoOutput.videoRefresh_of_diff_pos vo us remain_time frame hfront hdiff, rfl,
    REFRESH_RATE_eq⟩

/-- Witness for C3: at 1.5 s the frame with pts = 2 s is 0.5 s early; it stays
queued, nothing is rendered, and the wait is capped at `REFRESH_RATE`. -/
theorem videoRefresh_waits_for_early_frame_witness :
    videoSecondPending.videoRefresh 1500000 0
      = (videoSecondPending,
         min (roundToDouble (ptsSeconds 2 videoSecondPending.time_base_
                - videoSecondPending.avsync_.GetClock 1500000)) REFRESH_RATE, [])
      ∧ REFRESH_RATE = roundToDouble (1 / 100)
      ∧ REFRESH_RATE = 5764607523034235 / 576460752303423488 :=
  videoRefresh_waits_for_early_frame videoSecondPending 1500000 0 { pts := 2, data := [20] }
    rfl
    (by
      have hp : ptsSeconds 2 { num := 1, den := 1 } = ((2 : Int) : ℚ) :=
        ptsSeconds_one 2 (by norm_num)
      have hc : videoSecondPending.avsync_.GetClock 1500000 = 3 / 2 := videoAtStart_clock
      have hhalf : roundToDouble (1 / 2) = 1 / 2 :=
        roundToDouble_of_dyadic (1 / 2) 1 (-1) (by norm_num) (by norm_num) (by norm_num)
      show roundToDouble (ptsSeconds 2 { num := 1, den := 1 }
        - videoSecondPending.avsync_.GetClock 1500000) > 0
      rw [hp, hc]
      norm_num [hhalf])

/-! ### The video refresh step where rounding decides the branch -/

theorem ptsSeconds_millisecond :
    ptsSeconds 1 { num := 1, den := 1000 } = 1152921504606847 / 1152921504606846976 := by
  have h1 : roundToDouble 1 = 1 :=
    roundToDouble_of_dyadic 1 1 0 (by norm_num) (by norm_num) (by norm_num)
  have h1000 : roundToDouble 1000 = 1000 :=
    roundToDouble_of_dyadic 1000 1000 0 (by norm_num) (by norm_num) (by norm_num)
  have hq : roundToDouble (1 / 1000) = 1152921504606847 / 1152921504606846976 := by
    have := roundToDouble_eq_of_near (1 / 1000) (-10) 4611686018427388
      (by norm_num) (by norm_num) (by norm_num) (by norm_num [abs_lt])
    rw [this]
    norm_num
  have hP : roundToDouble (1152921504606847 / 1152921504606846976)
      = 1152921504606847 / 1152921504606846976 :=
    roundToDouble_of_dyadic _ 1152921504606847 (-60) (by norm_num) (by norm_num) (by norm_num)
  simp only [ptsSeconds, av_q2d, Int.cast_one, Int.cast_ofNat, h1, h1000, hq, one_mul, hP]

theorem ptsSeconds_tick :
    ptsSeconds 28 { num := 1, den := 90000 } = 5738987045154083 / 18446744073709551616 := by
  have h1 : roundToDouble 1 = 1 :=
    roundToDouble_of_dyadic 1 1 0 (by norm_num) (by norm_num) (by norm_num)
  have h28 : roundToDouble 28 = 28 :=
    roundToDouble_of_dyadic 28 28 0 (by norm_num) (by norm_num) (by norm_num)
  have h90000 : roundToDouble 90000 = 90000 :=
    roundToDouble_of_dyadic 90000 90000 0 (by norm_num) (by norm_num) (by norm_num)
  have hq : roundToDouble (1 / 90000) = 819855292164869 / 73786976294838206464 := by
    have := roundToDouble_eq_of_near (1 / 90000) (-17) 6558842337318952
      (by norm_num) (by norm_num) (by norm_num) (by norm_num [abs_lt])
    rw [this]
    norm_num
  have hP : roundToDouble (28 * (819855292164869 / 73786976294838206464))
      = 5738987045154083 / 18446744073709551616 := by
    rw [roundToDouble_of_dyadic _ 5738987045154083 (-64) (by norm_num) (by norm_num)
      (by norm_num)]
    norm_num
  simp only [ptsSeconds, av_q2d, Int.cast_one, Int.cast_ofNat, h1, h28, h90000, hq, hP]

/-- A frame whose exact time 1 * 1/1000 s equals the exact time elapsed since
`InitClock()` is not rendered: the doubles the code compares are
`pts * time_base = 0.001` (the double nearest 1/1000) and
`GetClock() = 2097 / 2^21`, so `diff` is about 7.2e-8 > 0 and the call
asks for that wait. -/
theorem videoRefresh_waits_at_millisecond :
    videoAtMillisecond.videoRefresh 1793354400001001 0
      = (videoAtMillisecond, 83562883711 / 1152921504606846976, []) := by
  have hG : videoAtMillisecond.avsync_.GetClock 1793354400001001 = 2097 / 2097152 :=
    AVSync.clock_after_millisecond
  have hP : ptsSeconds 1 videoAtMillisecond.time_base_
      = 1152921504606847 / 1152921504606846976 := ptsSeconds_millisecond
  have hd : roundToDouble (1152921504606847 / 1152921504606846976 - 2097 / 2097152)
      = 83562883711 / 1152921504606846976 := by
    rw [roundToDouble_of_dyadic _ 83562883711 (-60) (by norm_num) (by norm_num) (by norm_num)]
    norm_num
  have hpos : roundToDouble (ptsSeconds 1 videoAtMillisecond.time_base_
      - videoAtMillisecond.avsync_.GetClock 1793354400001001) > 0 := by
    rw [hP, hG, hd]
    norm_num
  have h := VideoOutput.videoRefresh_of_diff_pos videoAtMillisecond 1793354400001001 0
    { pts := 1, data := [10] } rfl hpos
  rw [h]
  show (videoAtMillisecond, min (roundToDouble (ptsSeconds 1 videoAtMillisecond.time_base_
      - videoAtMillisecond.avsync_.GetClock 1793354400001001)) REFRESH_RATE, [])
    = (videoAtMillisecond, 83562883711 / 1152921504606846976, [])
  rw [hP, hG, hd, REFRESH_RATE_eq, min_eq_left (by norm_num)]

/-- A frame whose exact time 28 / 90000 s (0.000311111...) is before the exact
time elapsed since `InitClock()`, 0.000312 s, is rendered, and the code's
doubles agree: `pts * time_base` is about 0.00031111111 and `GetClock()` is
`1305 / 2^22` (about 0.00031113625), so `diff` is about -2.5e-8. -/
theorem videoRefresh_renders_at_tick :
    videoAtTick.videoRefresh 1793354400000312 0
      = ({ videoAtTick with frame_queue_ := { queue_ := { items := [], aborted := false } } }, 0,
         [ VideoCall.SDL_UpdateYUVTexture 4 2 { pts := 28, data := [10] },
           VideoCall.SDL_RenderClear,
           VideoCall.SDL_RenderCopy 4 2,
           VideoCall.SDL_RenderPresent,
           VideoCall.av_frame_free { pts := 28, data := [10] } ]) := by
  have hG : videoAtTick.avsync_.GetClock 1793354400000312 = 1305 / 4194304 :=
    AVSync.clock_after_312_microseconds
  have hP : ptsSeconds 28 videoAtTick.time_base_
      = 5738987045154083 / 18446744073709551616 := ptsSeconds_tick
  have hle : roundToDouble (ptsSeconds 28 videoAtTick.time_base_
      - videoAtTick.avsync_.GetClock 1793354400000312) ≤ 0 := by
    rw [hP, hG]
    exact roundToDouble_nonpos _ (by norm_num)
  exact VideoOutput.videoRefresh_of_diff_nonpos videoAtTick 1793354400000312 0
    { pts := 28, data := [10] } [] rfl rfl hle

/-- C4 (the code at the failing input): with the frame queue empty,
`videoRefresh` returns without touching `remain_time`, so a pass through the
loop body of `RefreshLoopWaitEvent` hands on whatever wait it was given; on
the first pass that is 0, no sleep is made, and the wait requested for the
retry is 0 instead of `REFRESH_RATE`. -/
theorem refreshLoop_empty_queue_keeps_wait (avsync : AVSync) (w h : Int) (tb : AVRational)
    (us : Int) (remain_time : ℚ) :
    (videoIdle avsync w h tb).videoRefresh us remain_time
        = (videoIdle avsync w h tb, remain_time, [])
      ∧ (videoIdle avsync w h tb).RefreshLoopBody us 0 = (videoIdle avsync w h tb, 0, [])
      ∧ (0 : ℚ) ≠ REFRESH_RATE := by
  refine ⟨rfl, ?_, ?_⟩
  · simp [VideoOutput.RefreshLoopBody, VideoOutput.videoRefresh, videoIdle, AVFrameQueue.Front,
      Queue.Front]
  · rw [REFRESH_RATE_eq]
    norm_num

/-! ### Abort of a queue -/

theorem AVFrameQueue.releaseLoop_frees_frames (items : List AVFrame) :
    ∀ (fuel : Nat) (freed : List AVFrame), items.length < fuel →
      AVFrameQueue.releaseLoop fuel { queue_ := { items := items, aborted := false } } freed
        = some ({ queue_ := { items := [], aborted := false } }, freed ++ items) := by
  induction items with
  | nil =>
    intro fuel freed hfuel
    cases fuel with
    | zero => omega
    | succ n => simp [AVFrameQueue.releaseLoop, Queue.Pop]
  | cons x rest ih =>
    intro fuel freed hfuel
    cases fuel with
    | zero => omega
    | succ n =>
      have hrest : rest.length < n := by
        simp only [List.length_cons] at hfuel
        omega
      simp [AVFrameQueue.releaseLoop, Queue.Pop, ih n (freed ++ [x]) hrest]

theorem AVPacketQueue.releaseLoop_frees_packets (items : List AVPacket) :
    ∀ (fuel : Nat) (freed : List AVPacket), items.length < fuel →
      AVPacketQueue.releaseLoop fuel { queue_ := { items := items, aborted := false } } freed
        = some ({ queue_ := { items := [], aborted := false } }, freed ++ items) := by
  induction items with
  | nil =>
    intro fuel freed hfuel
    cases fuel with
    | zero => omega
    | succ n => simp [AVPacketQueue.releaseLoop, Queue.Pop]
  | cons x rest ih =>
    intro fuel freed hfuel
    cases fuel with
    | zero => omega
    | succ n =>
      have hrest : rest.length < n := by
        simp only [List.length_cons] at hfuel
        omega
      simp [AVPacketQueue.releaseLoop, Queue.Pop, ih n (freed ++ [x]) hrest]

/-- C10: on a frame queue and on a packet queue whose aborted flag is clear,
`Abort()` terminates (any fuel above the number `n` of resident items is
enough for the loop of `release`), frees exactly the resident items, each
once and in queue order, and leaves the queue empty with the aborted flag
set. -/
theorem abort_releases_every_resident_item (fq : AVFrameQueue) (pq : AVPacketQueue) (fuel : Nat)
    (hfq : fq.queue_.aborted = false) (hpq : pq.queue_.aborted = false)
    (hfuel_f : fq.queue_.items.length < fuel) (hfuel_p : pq.queue_.items.length < fuel) :
    fq.Abort fuel = some ({ queue_ := { items := [], aborted := true } }, fq.queue_.items)
      ∧ pq.Abort fuel = some ({ queue_ := { items := [], aborted := true } }, pq.queue_.items) := by
  obtain ⟨⟨fitems, fab⟩⟩ := fq
  obtain ⟨⟨pitems, pab⟩⟩ := pq
  simp only at hfq hpq hfuel_f hfuel_p
  subst hfq
  subst hpq
  constructor
  · simp [AVFrameQueue.Abort, AVFrameQueue.release,
      AVFrameQueue.releaseLoop_frees_frames fitems fuel [] hfuel_f, Queue.Abort]
  · simp [AVPacketQueue.Abort, AVPacketQueue.release,
      AVPacketQueue.releaseLoop_frees_packets pitems fuel [] hfuel_p, Queue.Abort]

/-- Witness for C10: a frame queue with two resident frames and a packet
queue with one resident packet. -/
theorem abort_releases_every_resident_item_witness :
    AVFrameQueue.Abort 3 { queue_ := { items := [{ pts := 1, data := [10] }, { pts := 2, data := [20] }],
                                       aborted := false } }
        = some ({ queue_ := { items := [], aborted := true } },
                [{ pts := 1, data := [10] }, { pts := 2, data := [20] }])
      ∧ AVPacketQueue.Abort 3 { queue_ := { items := [{ stream_index := 0, data := [7] }],
                                            aborted := false } }
        = some ({ queue_ := { items := [], aborted := true } },
                [{ stream_index := 0, data := [7] }]) :=
  abort_releases_every_resident_item
    { queue_ := { items := [{ pts := 1, data := [10] }, { pts := 2, data := [20] }],
                  aborted := false } }
    { queue_ := { items := [{ stream_index := 0, data := [7] }], aborted := false } }
    3 rfl rfl (by decide) (by decide)

/-! ### Backpressure in the demux loop -/

theorem AVPacketQueue.Size_Pop_le (q : AVPacketQueue) (timeout : Int) :
    (q.Pop timeout).2.Size ≤ q.Size := by
  obtain ⟨⟨items, ab⟩⟩ := q
  cases ab with
  | true => simp [AVPacketQueue.Pop, Queue.Pop, AVPacketQueue.Size]
  | false =>
    cases items with
    | nil => simp [AVPacketQueue.Pop, Queue.Pop, AVPacketQueue.Size]
    | cons x rest => simp [AVPacketQueue.Pop, Queue.Pop, AVPacketQueue.Size, Queue.Size]

theorem AVPacketQueue.Size_Push_le (q : AVPacketQueue) (val : AVPacket) :
    (q.Push val).2.Size ≤ q.Size + 1 := by
  obtain ⟨⟨items, ab⟩⟩ := q
  cases ab with
  | true => simp [AVPacketQueue.Push, Queue.Push, AVPacketQueue.Size]
  | false => simp [AVPacketQueue.Push, Queue.Push, AVPacketQueue.Size, Queue.Size]

theorem DemuxThread.readAndRoute_sizes (d : DemuxThread) :
    d.readAndRoute.1.audio_queue_.Size ≤ d.audio_queue_.Size + 1
      ∧ d.readAndRoute.1.video_queue_.Size ≤ d.video_queue_.Size + 1 := by
  unfold DemuxThread.readAndRoute
  have ha := AVPacketQueue.Size_Push_le d.audio_queue_
  have hv := AVPacketQueue.Size_Push_le d.video_queue_
  split
  · simp
  · simp
  · rename_i packet rest _
    by_cases h1 : packet.stream_index = d.audio_stream_
    · rw [if_pos h1]
      exact ⟨ha packet, by simp only; omega⟩
    · by_cases h2 : packet.stream_index = d.video_stream_
      · rw [if_neg h1, if_pos h2]
        exact ⟨by simp only; omega, hv packet⟩
      · rw [if_neg h1, if_neg h2]
        exact ⟨by simp only; omega, by simp only; omega⟩

theorem DemuxThread.check_proceed (d : DemuxThread) (h : d.check = DemuxCheck.proceed) :
    d.audio_queue_.Size ≤ 100 ∧ d.video_queue_.Size ≤ 100 := by
  unfold DemuxThread.check at h
  by_cases h1 : d.abort_ = 1
  · simp [h1] at h
  · by_cases h2 : d.audio_queue_.Size > 100 ∨ d.video_queue_.Size > 100
    · simp [h1, h2] at h
    · constructor <;> omega

theorem DemuxSystem.step_bounded (s : DemuxSystem) (a : SchedAction) (h : s.Bounded) :
    (s.step a).Bounded := by
  obtain ⟨ha, hv, hr⟩ := h
  cases a with
  | demux_step =>
    unfold DemuxSystem.step
    cases hpc : s.pc with
    | exited => exact ⟨ha, hv, fun h => by simp [hpc] at h⟩
    | loop_head =>
      cases hc : s.demux.check with
      | exit_loop => exact ⟨ha, hv, fun h => by simp at h⟩
      | sleep_retry => exact ⟨ha, hv, fun h => by simp [hpc] at h⟩
      | proceed => exact ⟨ha, hv, fun _ => DemuxThread.check_proceed s.demux hc⟩
    | reading =>
      have hsz := DemuxThread.readAndRoute_sizes s.demux
      have h100 := hr hpc
      rcases hrr : s.demux.readAndRoute with ⟨d1, go, calls⟩
      rw [hrr] at hsz
      cases go with
      | true => exact ⟨by simp only at hsz ⊢; omega, by simp only at hsz ⊢; omega,
                       fun h => by simp at h⟩
      | false => exact ⟨by simp only at hsz ⊢; omega, by simp only at hsz ⊢; omega,
                        fun h => by simp at h⟩
  | pop_audio =>
    have hp := AVPacketQueue.Size_Pop_le s.demux.audio_queue_ 10
    refine ⟨?_, hv, fun h => ?_⟩
    · simp only [DemuxSystem.step]; omega
    · have := hr h
      simp only [DemuxSystem.step]
      exact ⟨by omega, this.2⟩
  | pop_video =>
    have hp := AVPacketQueue.Size_Pop_le s.demux.video_queue_ 10
    refine ⟨ha, ?_, fun h => ?_⟩
    · simp only [DemuxSystem.step]; omega
    · have := hr h
      simp only [DemuxSystem.step]
      exact ⟨this.1, by omega⟩
  | stop => exact ⟨ha, hv, hr⟩

theorem DemuxSystem.run_bounded (sched : List SchedAction) :
    ∀ s : DemuxSystem, s.Bounded → (s.run sched).Bounded := by
  induction sched with
  | nil => intro s h; exact h
  | cons a rest ih =>
    intro s h
    exact ih (s.step a) (DemuxSystem.step_bounded s a h)

/-- C8: a pass through the body of the demux loop that gets past the
cancellation test with more than 100 items in the audio or in the video
packet queue sleeps 10 ms, reads nothing and pushes nothing, and goes round
again.  Hence, from a start `d0` with both queues at or below 100 items,
after any schedule of demux steps, consumer pops on either queue and
`Stop`, neither packet queue holds more than 101 items. -/
theorem demux_backpressure_bounds_queues (d d0 : DemuxThread) (sched : List SchedAction)
    (hrun : d.abort_ ≠ 1)
    (hover : d.audio_queue_.Size > 100 ∨ d.video_queue_.Size > 100)
    (haudio : d0.audio_queue_.Size ≤ 100) (hvideo : d0.video_queue_.Size ≤ 100) :
    d.RunBody = (d, true, [DemuxCall.sleep_for_ms 10])
      ∧ (DemuxSystem.run { demux := d0, pc := DemuxPc.loop_head } sched).demux.audio_queue_.Size
          ≤ 101
      ∧ (DemuxSystem.run { demux := d0, pc := DemuxPc.loop_head } sched).demux.video_queue_.Size
          ≤ 101 := by
  have hb : DemuxSystem.Bounded { demux := d0, pc := DemuxPc.loop_head } :=
    ⟨by simp only; omega, by simp only; omega, fun h => by simp at h⟩
  have hfin := DemuxSystem.run_bounded sched _ hb
  refine ⟨?_, hfin.1, hfin.2.1⟩
  simp [DemuxThread.RunBody, DemuxThread.check, hrun, hover]

/-- Witness for C8: with 101 audio packets queued the loop body only sleeps;
started with 100 queued and two more audio units to read, two full passes of
the demux thread bring the audio queue to 101 items and no further. -/
theorem demux_backpressure_bounds_queues_witness :
    ((demuxWithAudio 101 [some audioPacket]).RunBody
        = (demuxWithAudio 101 [some audioPacket], true, [DemuxCall.sleep_for_ms 10])
      ∧ (DemuxSystem.run
            { demux := demuxWithAudio 100 [some audioPacket, some audioPacket],
              pc := DemuxPc.loop_head }
            [SchedAction.demux_step, SchedAction.demux_step, SchedAction.demux_step,
             SchedAction.demux_step]).demux.audio_queue_.Size ≤ 101
      ∧ (DemuxSystem.run
            { demux := demuxWithAudio 100 [some audioPacket, some audioPacket],
              pc := DemuxPc.loop_head }
            [SchedAction.demux_step, SchedAction.demux_step, SchedAction.demux_step,
             SchedAction.demux_step]).demux.video_queue_.Size ≤ 101)
      ∧ (DemuxSystem.run
            { demux := demuxWithAudio 100 [some audioPacket, some audioPacket],
              pc := DemuxPc.loop_head }
            [SchedAction.demux_step, SchedAction.demux_step, SchedAction.demux_step,
             SchedAction.demux_step]).demux.audio_queue_.Size = 101 :=
  ⟨demux_backpressure_bounds_queues (demuxWithAudio 101 [some audioPacket])
      (demuxWithAudio 100 [some audioPacket, some audioPacket])
      [SchedAction.demux_step, SchedAction.demux_step, SchedAction.demux_step,
       SchedAction.demux_step]
      (by decide) (by decide) (by decide) (by decide),
    by decide⟩

/-! ### Draining the decoder -/

theorem DecodeThread.receiveLoop_yields {σ : Type} (dec : Decoder σ) {c c2 : σ}
    {fs : List AVFrame} (hy : dec.Yields c fs c2) :
    ∀ (fuel : Nat) (t : DecodeThread σ) (calls : List DecodeCall),
      t.codec_ctx_ = c → t.frame_queue_.queue_.aborted = false → fs.length < fuel →
      DecodeThread.receiveLoop dec fuel t calls
        = some ({ t with codec_ctx_ := c2,
                         frame_queue_ := { queue_ := { items := t.frame_queue_.queue_.items ++ fs,
                                                       aborted := false } } },
                calls ++ receivePushCalls fs
                  ++ [DecodeCall.avcodec_receive_frame RecvResult.eagain]) := by
  induction hy with
  | done hrecv =>
    intro fuel t calls hc hab hfuel
    cases fuel with
    | zero => omega
    | succ n =>
      obtain ⟨ab, cx, pq, ⟨⟨items, fab⟩⟩⟩ := t
      simp only at hc hab
      subst hc
      subst hab
      simp [DecodeThread.receiveLoop, hrecv, receivePushCalls]
  | @more c c1 c2 f fs hrecv _ ih =>
    intro fuel t calls hc hab hfuel
    cases fuel with
    | zero => omega
    | succ n =>
      obtain ⟨ab, cx, pq, ⟨⟨items, fab⟩⟩⟩ := t
      simp only at hc hab
      subst hc
      subst hab
      have hn : fs.length < n := by
        simp only [List.length_cons] at hfuel
        omega
      have hstep := ih n
        { abort_ := ab, codec_ctx_ := c1, packet_queue_ := pq,
          frame_queue_ := { queue_ := { items := items ++ [f], aborted := false } } }
        (calls ++ [DecodeCall.avcodec_receive_frame (RecvResult.frame f), DecodeCall.Push f 0])
        rfl rfl hn
      simp [DecodeThread.receiveLoop, hrecv, AVFrameQueue.Push, Queue.Push, hstep,
        receivePushCalls]

theorem DecodeThread.receiveLoop_ends {σ : Type} (dec : Decoder σ) :
    ∀ (fuel : Nat) (t t1 : DecodeThread σ) (calls calls1 : List DecodeCall),
      DecodeThread.receiveLoop dec fuel t calls = some (t1, calls1) →
      t1.abort_ = 1
        ∨ (t1.abort_ = t.abort_ ∧ t1.packet_queue_ = t.packet_queue_
            ∧ ∃ mid, calls1 = calls ++ mid ++ [DecodeCall.avcodec_receive_frame RecvResult.eagain]
                ∧ ∀ r, DecodeCall.Pop r ∉ mid) := by
  intro fuel
  induction fuel with
  | zero => intro t t1 calls calls1 h; simp [DecodeThread.receiveLoop] at h
  | succ n ih =>
    intro t t1 calls calls1 h
    rcases hrecv : dec.receive_frame t.codec_ctx_ with ⟨r, ctx1⟩
    cases r with
    | frame f =>
      simp only [DecodeThread.receiveLoop, hrecv] at h
      rcases ih _ _ _ _ h with h1 | ⟨hab, hpq, mid, hmid, hno⟩
      · exact Or.inl h1
      · refine Or.inr ⟨hab, hpq, [DecodeCall.avcodec_receive_frame (RecvResult.frame f),
          DecodeCall.Push f (t.frame_queue_.Push f).1] ++ mid, ?_, ?_⟩
        · rw [hmid]; simp only [List.append_assoc]
        · intro r hmem
          simp only [List.mem_append, List.mem_cons, List.mem_singleton, List.not_mem_nil,
            or_false] at hmem
          rcases hmem with (h2 | h2) | h2
          · cases h2
          · cases h2
          · exact hno r h2
    | eagain =>
      simp only [DecodeThread.receiveLoop, hrecv, Option.some.injEq, Prod.mk.injEq] at h
      obtain ⟨h1, h2⟩ := h
      subst h1
      exact Or.inr ⟨rfl, rfl, [], by simp [← h2], fun r hmem => by simp at hmem⟩
    | error ret =>
      simp only [DecodeThread.receiveLoop, hrecv, Option.some.injEq, Prod.mk.injEq] at h
      obtain ⟨h1, _⟩ := h
      subst h1
      exact Or.inl rfl

/-- C9: take a pass through the body of the decode loop that pops the unit
`packet` and submits it with success (`ret >= 0`).  If the decoder then
returns the frames `fs` and after them EAGAIN, the pass pushes every frame of
`fs` to the frame queue in the order returned, makes no pop but the one at
its start, and ends with the decoder's EAGAIN; with `fs` a single frame, one
frame is pushed for the unit.  And whatever the decoder answers, a pass that
completes and leaves the thread able to pop again (`abort_` not set) has
popped once, at its start, and has ended with the decoder's EAGAIN: the next
unit is popped only after that answer. -/
theorem decode_drains_decoder_until_eagain {σ : Type} (dec : Decoder σ) (t : DecodeThread σ)
    (packet : AVPacket) (rest : List AVPacket) (ret : Int) (c1 : σ)
    (hrun : t.abort_ ≠ 1) (hroom : t.frame_queue_.Size ≤ 10)
    (hpq : t.packet_queue_.queue_ = { items := packet :: rest, aborted := false })
    (hfq : t.frame_queue_.queue_.aborted = false)
    (hsend : dec.send_packet t.codec_ctx_ packet = (ret, c1)) (hok : 0 ≤ ret) :
    (∀ (fs : List AVFrame) (c2 : σ) (fuel : Nat), dec.Yields c1 fs c2 → fs.length < fuel →
        DecodeThread.RunBody dec fuel t
          = some ({ abort_ := t.abort_,
                    codec_ctx_ := c2,
                    packet_queue_ := { queue_ := { items := rest, aborted := false } },
                    frame_queue_ := { queue_ := { items := t.frame_queue_.queue_.items ++ fs,
                                                  aborted := false } } },
                  true,
                  [DecodeCall.Pop (some packet), DecodeCall.avcodec_send_packet packet ret,
                   DecodeCall.av_packet_free packet]
                    ++ receivePushCalls fs
                    ++ [DecodeCall.avcodec_receive_frame RecvResult.eagain]))
      ∧ (∀ (fuel : Nat) (t1 : DecodeThread σ) (go : Bool) (calls : List DecodeCall),
          DecodeThread.RunBody dec fuel t = some (t1, go, calls) → t1.abort_ ≠ 1 →
          go = true
            ∧ t1.packet_queue_ = { queue_ := { items := rest, aborted := false } }
            ∧ ∃ mid, calls = [DecodeCall.Pop (some packet),
                              DecodeCall.avcodec_send_packet packet ret,
                              DecodeCall.av_packet_free packet]
                        ++ mid ++ [DecodeCall.avcodec_receive_frame RecvResult.eagain]
                ∧ ∀ r, DecodeCall.Pop r ∉ mid) := by
  have hnroom : ¬ t.frame_queue_.Size > 10 := by omega
  have hnneg : ¬ ret < 0 := by omega
  constructor
  · intro fs c2 fuel hy hfuel
    have hloop := DecodeThread.receiveLoop_yields dec hy fuel
      { t with packet_queue_ := { queue_ := { items := rest, aborted := false } },
               codec_ctx_ := c1 }
      [DecodeCall.Pop (some packet), DecodeCall.avcodec_send_packet packet ret,
       DecodeCall.av_packet_free packet] rfl hfq hfuel
    simp only [List.append_assoc] at hloop
    simp [DecodeThread.RunBody, hrun, hnroom, AVPacketQueue.Pop, Queue.Pop, hpq, hsend, hnneg,
      hloop]
  · intro fuel t1 go calls h hab
    simp only [DecodeThread.RunBody, hrun, hnroom, AVPacketQueue.Pop, Queue.Pop, hpq, hsend,
      hnneg, if_false, Bool.false_eq_true, lt_self_iff_false] at h
    cases hres : DecodeThread.receiveLoop dec fuel
        { t with packet_queue_ := { queue_ := { items := rest, aborted := false } },
                 codec_ctx_ := c1 }
        [DecodeCall.Pop (some packet), DecodeCall.avcodec_send_packet packet ret,
         DecodeCall.av_packet_free packet] with
    | none => simp [hres] at h
    | some r =>
      obtain ⟨t2, calls2⟩ := r
      simp only [hres, Option.some.injEq, Prod.mk.injEq] at h
      obtain ⟨h1, h2, h3⟩ := h
      subst h1
      subst h3
      rcases DecodeThread.receiveLoop_ends dec _ _ _ _ _ hres with hbad | ⟨_, hq, mid, hmid, hno⟩
      · exact absurd hbad hab
      · exact ⟨h2.symm, hq, mid, hmid, hno⟩

/-- Witness for C9: a decoder without reordering delay; the pass that submits
the first of two waiting units pushes exactly one frame and leaves the second
unit in the packet queue. -/
theorem decode_drains_decoder_until_eagain_witness :
    DecodeThread.RunBody oneFrameDecoder 2 (decodeIdle [audioPacket, audioPacket])
      = some ({ abort_ := 0,
                codec_ctx_ := none,
                packet_queue_ := { queue_ := { items := [audioPacket], aborted := false } },
                frame_queue_ := { queue_ := { items := [] ++ [{ pts := 0, data := [7] }],
                                              aborted := false } } },
              true,
              [DecodeCall.Pop (some audioPacket), DecodeCall.avcodec_send_packet audioPacket 0,
               DecodeCall.av_packet_free audioPacket]
                ++ receivePushCalls [{ pts := 0, data := [7] }]
                ++ [DecodeCall.avcodec_receive_frame RecvResult.eagain]) :=
  (decode_drains_decoder_until_eagain oneFrameDecoder (decodeIdle [audioPacket, audioPacket])
    audioPacket [audioPacket] 0 (some { pts := 0, data := [7] })
    (by decide) (by decide) rfl rfl rfl (by decide)).1
    [{ pts := 0, data := [7] }] none 2
    (Decoder.Yields.more rfl (Decoder.Yields.done rfl)) (by decide)

/-! ### The audio callback -/

theorem streamOf_append (a b : List AudioCall) :
    streamOf (a ++ b) = streamOf a ++ streamOf b := by
  induction a with
  | nil => rfl
  | cons x xs ih => cases x <;> simp [streamOf, ih]

theorem poppedOf_append (a b : List AudioCall) :
    poppedOf (a ++ b) = poppedOf a ++ poppedOf b := by
  induction a with
  | nil => rfl
  | cons x xs ih =>
    cases x with
    | Pop r => cases r <;> simp [poppedOf, ih]
    | av_frame_free f => simp [poppedOf, ih]
    | write bs => simp [poppedOf, ih]
    | SetClock p => simp [poppedOf, ih]

theorem AVFrameQueue.Pop_none (q : AVFrameQueue) (timeout : Int)
    (h : (q.Pop timeout).1 = none) : q.Pop timeout = (none, q) := by
  obtain ⟨⟨items, ab⟩⟩ := q
  cases ab with
  | true => simp [AVFrameQueue.Pop, Queue.Pop]
  | false =>
    cases items with
    | nil => simp [AVFrameQueue.Pop, Queue.Pop]
    | cons x rest => simp [AVFrameQueue.Pop, Queue.Pop] at h

theorem memset0_append (a b : Int) (ha : 0 ≤ a) (hb : 0 ≤ b) :
    memset0 a ++ List.replicate b.toNat 0 = List.replicate (a + b).toNat 0 := by
  have h : (a + b).toNat = a.toNat + b.toNat := Int.toNat_add ha hb
  rw [memset0, h, List.replicate_add]

theorem AudioOutput.refill_underrun (conv : AVFrame → ConvResult) (ao : AudioOutput)
    (h : ao.Underrun) :
    ∃ popc, ao.refill conv
        = Refill.filled { ao with audio_buf_index := ao.blockStart, audio_buf_ := none,
                                  audio_buf_size := 512 } popc
      ∧ streamOf popc = [] ∧ poppedOf popc = []
      ∧ 0 ≤ ao.blockStart ∧ ao.blockStart < 512 := by
  obtain ⟨hpop, hstate⟩ := h
  have hpop2 := AVFrameQueue.Pop_none _ 2 hpop
  by_cases heq : ao.audio_buf_index = ao.audio_buf_size
  · refine ⟨[AudioCall.Pop none], ?_, rfl, rfl, ?_, ?_⟩
    · simp [AudioOutput.refill, heq, hpop2, AudioOutput.blockStart]
    · simp [AudioOutput.blockStart, heq]
    · simp [AudioOutput.blockStart, heq]
  · rcases hstate with h1 | ⟨hb, hs, h0, h5⟩
    · exact absurd h1 heq
    · refine ⟨[], ?_, rfl, rfl, ?_, ?_⟩
      · obtain ⟨sy, fq, tb, buf, sz, idx, pts⟩ := ao
        simp only at hb hs heq
        subst hb
        subst hs
        simp [AudioOutput.refill, heq, AudioOutput.blockStart]
      · simp [AudioOutput.blockStart, heq, h0]
      · simp [AudioOutput.blockStart, heq, h5]

theorem AudioOutput.fillLoop_underrun (conv : AVFrame → ConvResult) :
    ∀ (fuel : Nat) (ao : AudioOutput) (len : Int) (calls : List AudioCall),
      ao.Underrun → len.toNat < fuel →
      ∃ ao1 ext, AudioOutput.fillLoop conv fuel ao len calls = some (ao1, true, calls ++ ext)
        ∧ streamOf ext = List.replicate len.toNat 0
        ∧ poppedOf ext = []
        ∧ ao1.pts = ao.pts ∧ ao1.avsync_ = ao.avsync_ ∧ ao1.frame_queue_ = ao.frame_queue_
        ∧ (len ≤ 0 → ao1 = ao)
        ∧ (0 < len → ao1.audio_buf_ = none ∧ ao1.audio_buf_size = 512
            ∧ 0 < ao1.audio_buf_index ∧ ao1.audio_buf_index ≤ 512
            ∧ (ao1.audio_buf_index - ao.blockStart - len) % 512 = 0) := by
  intro fuel
  induction fuel with
  | zero => intro ao len calls _ hfuel; omega
  | succ n ih =>
    intro ao len calls hU hfuel
    by_cases hlen : len > 0
    · obtain ⟨popc, hrefill, hs0, hp0, he0, he5⟩ := AudioOutput.refill_underrun conv ao hU
      generalize he : ao.blockStart = e at hrefill he0 he5
      -- the block served in this pass
      obtain ⟨len3, hlen3⟩ : ∃ len3 : Int, len3 = if 512 - e > len then len else 512 - e := ⟨_, rfl⟩
      have hpos : 0 < len3 := by rw [hlen3]; split <;> omega
      have hle : len3 ≤ len := by rw [hlen3]; split <;> omega
      have hle2 : e + len3 ≤ 512 := by rw [hlen3]; split <;> omega
      have hfull : len3 < len → e + len3 = 512 := by rw [hlen3]; split <;> omega
      have hU1 : AudioOutput.Underrun
          { ao with audio_buf_index := e + len3, audio_buf_ := none, audio_buf_size := 512 } := by
        refine ⟨hU.1, ?_⟩
        by_cases h512 : e + len3 = 512
        · left; exact h512
        · right; exact ⟨rfl, rfl, by simp only; omega, by simp only; omega⟩
      have hfuel1 : (len - len3).toNat < n := by omega
      obtain ⟨ao1, ext, hrun, hs, hp, hpts, hsy, hq, hzero, hmore⟩ :=
        ih { ao with audio_buf_index := e + len3, audio_buf_ := none, audio_buf_size := 512 }
          (len - len3) (calls ++ popc ++ [AudioCall.write (memset0 len3)]) hU1 hfuel1
      refine ⟨ao1, popc ++ [AudioCall.write (memset0 len3)] ++ ext, ?_, ?_, ?_, hpts, hsy, hq,
        fun h => by omega, fun _ => ?_⟩
      · simp only [AudioOutput.fillLoop, hlen, if_true, hrefill, sub_zero, ← hlen3]
        simp only [List.append_assoc] at hrun ⊢
        exact hrun
      · simp only [streamOf_append, hs0, hs, streamOf, List.nil_append, List.append_nil]
        have := memset0_append len3 (len - len3) (le_of_lt hpos) (by omega)
        simpa using this
      · simp [poppedOf_append, hp0, hp, poppedOf]
      · by_cases hrest : 0 < len - len3
        · obtain ⟨hb, hsz, hi0, hi5, hmod⟩ := hmore hrest
          have h512 : e + len3 = 512 := hfull (by omega)
          have hbs : AudioOutput.blockStart
              { ao with audio_buf_index := e + len3, audio_buf_ := none, audio_buf_size := 512 }
              = 0 := by
            simp [AudioOutput.blockStart, h512]
          rw [hbs] at hmod
          exact ⟨hb, hsz, hi0, hi5, by omega⟩
        · have hao1 := hzero (by omega)
          subst hao1
          exact ⟨rfl, rfl, by simp only; omega, by simp only; omega, by simp only; omega⟩
    · refine ⟨ao, [], ?_, ?_, rfl, rfl, rfl, rfl, fun _ => rfl, fun h => absurd h hlen⟩
      · simp [AudioOutput.fillLoop, hlen]
      · have : len.toNat = 0 := by omega
        simp [streamOf, this]

/-- C5 (counterexample): a callback for `len = 4` bytes that starts with the
buffer used up and whose pop times out writes four zero bytes and leaves 508
bytes of the 512-byte silent block unserved; the next callback, although a
frame has arrived in the queue meanwhile, pops nothing and writes silence
again: the silence does carry over. -/
theorem audio_silence_carries_over :
    ((0 : Int) < 4 ∧ audioFresh.audio_buf_index = audioFresh.audio_buf_size
        ∧ (audioFresh.frame_queue_.Pop 2).1 = none)
      ∧ sdl_audio_callback convCopy 5 audioFresh 0 4
          = some (audioAfterShortSilence,
                  [AudioCall.Pop none, AudioCall.write [0, 0, 0, 0], AudioCall.SetClock 0])
      ∧ audioAfterShortSilence.audio_buf_index ≠ audioAfterShortSilence.audio_buf_size
      ∧ audioFrameArrived.frame_queue_.Front = some toneFrame
      ∧ (sdl_audio_callback convCopy 5 audioFrameArrived 1000 4).map (fun r => r.2)
          = some [AudioCall.write [0, 0, 0, 0], AudioCall.SetClock 0] := by
  refine ⟨⟨by decide, rfl, rfl⟩, rfl, by decide, rfl, rfl⟩

/-- C5 (amended): a callback for `len > 0` bytes that starts with the buffer
used up and from whose queue no frame can be popped terminates (any fuel
above `len` is enough), pops no frame, and writes `len` zero bytes.  The
silence is served from a NULL buffer of 512 bytes: afterwards
`audio_buf_size` is 512 and `audio_buf_index` is `len mod 512`, or 512 when
`len` is a multiple of 512, and only in that last case is the buffer used up
again at the end of the call. -/
theorem audio_underrun_writes_silence (conv : AVFrame → ConvResult) (ao : AudioOutput)
    (us : Int) (len : Int) (fuel : Nat)
    (hlen : 0 < len) (hused : ao.audio_buf_index = ao.audio_buf_size)
    (hpop : (ao.frame_queue_.Pop 2).1 = none) (hfuel : len.toNat < fuel) :
    ∃ ao1 calls, sdl_audio_callback conv fuel ao us len = some (ao1, calls)
      ∧ streamOf calls = List.replicate len.toNat 0
      ∧ poppedOf calls = []
      ∧ ao1.audio_buf_ = none ∧ ao1.audio_buf_size = 512
      ∧ ao1.audio_buf_index = (if len % 512 = 0 then 512 else len % 512)
      ∧ (ao1.audio_buf_index = ao1.audio_buf_size ↔ len % 512 = 0) := by
  obtain ⟨ao1, ext, hrun, hs, hp, _, _, _, _, hmore⟩ :=
    AudioOutput.fillLoop_underrun conv fuel ao len [] ⟨hpop, Or.inl hused⟩ hfuel
  obtain ⟨hb, hsz, hi0, hi5, hmod⟩ := hmore hlen
  have hbs : ao.blockStart = 0 := by simp [AudioOutput.blockStart, hused]
  rw [hbs] at hmod
  have hidx : ao1.audio_buf_index = (if len % 512 = 0 then 512 else len % 512) := by
    split <;> omega
  refine ⟨{ ao1 with avsync_ := ao1.avsync_.SetClock us ao1.pts },
    ext ++ [AudioCall.SetClock ao1.pts], ?_, ?_, ?_, hb, hsz, hidx, ?_⟩
  · simp only [List.nil_append] at hrun
    simp [sdl_audio_callback, hrun]
  · simp [streamOf_append, hs, streamOf]
  · simp [poppedOf_append, hp, poppedOf]
  · simp only [hsz]
    constructor
    · intro h; omega
    · intro h; omega

/-- Witness for C5 (amended): a request for 4 bytes on the fresh audio output
with an empty queue. -/
theorem audio_underrun_writes_silence_witness :
    ∃ ao1 calls, sdl_audio_callback convCopy 5 audioFresh 0 4 = some (ao1, calls)
      ∧ streamOf calls = List.replicate (4 : Int).toNat 0
      ∧ poppedOf calls = []
      ∧ ao1.audio_buf_ = none ∧ ao1.audio_buf_size = 512
      ∧ ao1.audio_buf_index = (if (4 : Int) % 512 = 0 then 512 else 4 % 512)
      ∧ (ao1.audio_buf_index = ao1.audio_buf_size ↔ (4 : Int) % 512 = 0) :=
  audio_underrun_writes_silence convCopy audioFresh 0 4 5 (by decide) rfl rfl (by decide)

theorem memcpy_eq_take_drop (buf : List Byte) (off n : Int) (h0 : 0 ≤ off)
    (h : off + n ≤ (buf.length : Int)) :
    memcpy buf off n = (buf.drop off.toNat).take n.toNat := by
  apply List.ext_getElem
  · simp only [memcpy, List.length_map, List.length_range, List.length_take, List.length_drop]
    omega
  · intro i h1 h2
    simp only [memcpy, List.length_map, List.length_range] at h1
    have hi : off.toNat + i < buf.length := by omega
    simp [memcpy, List.getD_eq_getElem?_getD, List.getElem?_eq_getElem hi]

theorem AudioOutput.fillLoop_extends (conv : AVFrame → ConvResult) :
    ∀ (fuel : Nat) (ao : AudioOutput) (len : Int) (calls : List AudioCall)
      (ao1 : AudioOutput) (full : Bool) (calls1 : List AudioCall),
      AudioOutput.fillLoop conv fuel ao len calls = some (ao1, full, calls1) →
      ∃ ext, calls1 = calls ++ ext := by
  intro fuel
  induction fuel with
  | zero => intro ao len calls ao1 full calls1 h; simp [AudioOutput.fillLoop] at h
  | succ n ih =>
    intro ao len calls ao1 full calls1 h
    by_cases hlen : len > 0
    · simp only [AudioOutput.fillLoop, hlen, if_true] at h
      cases hr : ao.refill conv with
      | returned ao2 calls2 =>
        simp only [hr, Option.some.injEq, Prod.mk.injEq] at h
        exact ⟨calls2, h.2.2.symm⟩
      | filled ao2 calls2 =>
        simp only [hr] at h
        obtain ⟨ext, hext⟩ := ih _ _ _ _ _ _ h
        rw [List.append_assoc, List.append_assoc] at hext
        exact ⟨_, hext⟩
    · simp only [AudioOutput.fillLoop, hlen, if_false, Option.some.injEq, Prod.mk.injEq] at h
      exact ⟨[], by simp [h.2.2]⟩

theorem AudioOutput.fillLoop_leftover_step (conv : AVFrame → ConvResult) (ao : AudioOutput)
    (len : Int) (buf : List Byte)
    (hbuf : ao.audio_buf_ = some buf) (h0 : 0 ≤ ao.audio_buf_index)
    (hlt : ao.audio_buf_index < ao.audio_buf_size)
    (hsz : ao.audio_buf_size ≤ (buf.length : Int)) (hlen : 0 < len)
    (fuel : Nat) (calls : List AudioCall) :
    AudioOutput.fillLoop conv (fuel + 1) ao len calls
      = AudioOutput.fillLoop conv fuel
          { ao with audio_buf_index :=
              ao.audio_buf_index + min len (ao.audio_buf_size - ao.audio_buf_index) }
          (len - min len (ao.audio_buf_size - ao.audio_buf_index))
          (calls ++ [AudioCall.write
            ((buf.drop ao.audio_buf_index.toNat).take
              (min len (ao.audio_buf_size - ao.audio_buf_index)).toNat)]) := by
  have hne : ao.audio_buf_index ≠ ao.audio_buf_size := by omega
  have hrefill : ao.refill conv = Refill.filled ao [] := by
    simp [AudioOutput.refill, hne]
  have hlen3 : (if ao.audio_buf_size - ao.audio_buf_index > len then len
      else ao.audio_buf_size - ao.audio_buf_index)
        = min len (ao.audio_buf_size - ao.audio_buf_index) := by
    split
    · rw [min_eq_left]; omega
    · rw [min_eq_right]; omega
  have hcopy := memcpy_eq_take_drop buf ao.audio_buf_index
    (min len (ao.audio_buf_size - ao.audio_buf_index)) h0
    (by have := min_le_right len (ao.audio_buf_size - ao.audio_buf_index); omega)
  simp only [AudioOutput.fillLoop, hlen, gt_iff_lt, if_true, hrefill, List.append_nil]
  simp only [gt_iff_lt] at hlen3
  rw [hlen3]
  simp only [hbuf, hcopy]

theorem AudioOutput.callback_leftover_head (conv : AVFrame → ConvResult) (ao : AudioOutput)
    (us : Int) (len : Int) (buf : List Byte)
    (hbuf : ao.audio_buf_ = some buf) (h0 : 0 ≤ ao.audio_buf_index)
    (hlt : ao.audio_buf_index < ao.audio_buf_size)
    (hsz : ao.audio_buf_size ≤ (buf.length : Int)) (hlen : 0 < len)
    (fuel : Nat) (ao1 : AudioOutput) (calls : List AudioCall)
    (h : sdl_audio_callback conv fuel ao us len = some (ao1, calls)) :
    ∃ rest, calls = AudioCall.write ((buf.drop ao.audio_buf_index.toNat).take
        (min len (ao.audio_buf_size - ao.audio_buf_index)).toNat) :: rest := by
  cases fuel with
  | zero => simp [sdl_audio_callback, AudioOutput.fillLoop] at h
  | succ n =>
    have hstep := AudioOutput.fillLoop_leftover_step conv ao len buf hbuf h0 hlt hsz hlen n []
    simp only [sdl_audio_callback, hstep, List.nil_append] at h
    cases hres : AudioOutput.fillLoop conv n
        { ao with audio_buf_index :=
            ao.audio_buf_index + min len (ao.audio_buf_size - ao.audio_buf_index) }
        (len - min len (ao.audio_buf_size - ao.audio_buf_index))
        [AudioCall.write ((buf.drop ao.audio_buf_index.toNat).take
          (min len (ao.audio_buf_size - ao.audio_buf_index)).toNat)] with
    | none => simp [hres] at h
    | some r =>
      obtain ⟨a, full, c⟩ := r
      obtain ⟨ext, hext⟩ := AudioOutput.fillLoop_extends conv _ _ _ _ _ _ _ hres
      rw [hres] at h
      cases full with
      | false =>
        simp only [Option.some.injEq, Prod.mk.injEq] at h
        exact ⟨ext, by rw [← h.2, hext]; rfl⟩
      | true =>
        simp only [Option.some.injEq, Prod.mk.injEq] at h
        exact ⟨ext ++ [AudioCall.SetClock a.pts], by rw [← h.2, hext]; rfl⟩

/-- C6: a callback that starts with leftover bytes (`0 <= audio_buf_index <
audio_buf_size`, the buffer not NULL and holding `audio_buf_size` bytes) for
`len >= 0` bytes: with `k = min(len, audio_buf_size - audio_buf_index)`, the
first pass of its loop writes the `k` buffer bytes from `audio_buf_index` on
without refilling; so in every completed call the first `k` bytes of the
stream are these bytes and each pop of the frame queue comes after at least
`k` bytes were written.  When `len <= audio_buf_size - audio_buf_index` the
call completes (fuel 2 is enough) without any pop, leaves the frame queue as
it was, and advances `audio_buf_index` by exactly `len`. -/
theorem audio_leftover_served_first (conv : AVFrame → ConvResult) (ao : AudioOutput)
    (us : Int) (len : Int) (buf : List Byte)
    (hbuf : ao.audio_buf_ = some buf) (h0 : 0 ≤ ao.audio_buf_index)
    (hlt : ao.audio_buf_index < ao.audio_buf_size)
    (hsz : ao.audio_buf_size ≤ (buf.length : Int)) (hlen : 0 ≤ len) :
    (0 < len → ∀ fuel : Nat,
        AudioOutput.fillLoop conv (fuel + 1) ao len []
          = AudioOutput.fillLoop conv fuel
              { ao with audio_buf_index :=
                  ao.audio_buf_index + min len (ao.audio_buf_size - ao.audio_buf_index) }
              (len - min len (ao.audio_buf_size - ao.audio_buf_index))
              [AudioCall.write ((buf.drop ao.audio_buf_index.toNat).take
                (min len (ao.audio_buf_size - ao.audio_buf_index)).toNat)])
      ∧ (∀ (fuel : Nat) (ao1 : AudioOutput) (calls : List AudioCall),
          sdl_audio_callback conv fuel ao us len = some (ao1, calls) →
          (streamOf calls).take (min len (ao.audio_buf_size - ao.audio_buf_index)).toNat
              = (buf.drop ao.audio_buf_index.toNat).take
                  (min len (ao.audio_buf_size - ao.audio_buf_index)).toNat
            ∧ ∀ (pre : List AudioCall) (r : Option AVFrame) (post : List AudioCall),
                calls = pre ++ AudioCall.Pop r :: post →
                (min len (ao.audio_buf_size - ao.audio_buf_index)).toNat
                  ≤ (streamOf pre).length)
      ∧ (len ≤ ao.audio_buf_size - ao.audio_buf_index → ∀ fuel : Nat, 2 ≤ fuel →
          ∃ ao1 calls, sdl_audio_callback conv fuel ao us len = some (ao1, calls)
            ∧ (∀ r, AudioCall.Pop r ∉ calls)
            ∧ streamOf calls = (buf.drop ao.audio_buf_index.toNat).take len.toNat
            ∧ ao1.audio_buf_index = ao.audio_buf_index + len
            ∧ ao1.frame_queue_ = ao.frame_queue_) := by
  have hklen : ((buf.drop ao.audio_buf_index.toNat).take
      (min len (ao.audio_buf_size - ao.audio_buf_index)).toNat).length
        = (min len (ao.audio_buf_size - ao.audio_buf_index)).toNat := by
    have := min_le_right len (ao.audio_buf_size - ao.audio_buf_index)
    simp only [List.length_take, List.length_drop]
    omega
  refine ⟨fun hpos fuel => ?_, fun fuel ao1 calls h => ?_, fun hfit fuel hfuel => ?_⟩
  · simpa using AudioOutput.fillLoop_leftover_step conv ao len buf hbuf h0 hlt hsz hpos fuel []
  · by_cases hpos : 0 < len
    · obtain ⟨rest, hcalls⟩ :=
        AudioOutput.callback_leftover_head conv ao us len buf hbuf h0 hlt hsz hpos fuel ao1 calls h
      subst hcalls
      constructor
      · simp only [streamOf]
        rw [List.take_append_of_le_length (le_of_eq hklen.symm), List.take_of_length_le]
        exact le_of_eq hklen
      · intro pre r post hsplit
        cases pre with
        | nil => simp at hsplit
        | cons x pre1 =>
          simp only [List.cons_append, List.cons.injEq] at hsplit
          rw [← hsplit.1]
          simp only [streamOf, List.length_append, hklen]
          omega
    · have hz : len = 0 := by omega
      subst hz
      have hk : (min (0 : Int) (ao.audio_buf_size - ao.audio_buf_index)).toNat = 0 := by
        rw [min_eq_left (by omega)]; rfl
      rw [hk]
      exact ⟨by simp, fun _ _ _ _ => Nat.zero_le _⟩
  · obtain ⟨n, rfl⟩ : ∃ n, fuel = n + 2 := ⟨fuel - 2, by omega⟩
    by_cases hpos : 0 < len
    · have hstep :=
        AudioOutput.fillLoop_leftover_step conv ao len buf hbuf h0 hlt hsz hpos (n + 1) []
      have hmin : min len (ao.audio_buf_size - ao.audio_buf_index) = len := min_eq_left hfit
      rw [hmin] at hstep
      refine ⟨{ ao with audio_buf_index := ao.audio_buf_index + len,
                        avsync_ := ao.avsync_.SetClock us ao.pts },
        [AudioCall.write ((buf.drop ao.audio_buf_index.toNat).take len.toNat),
         AudioCall.SetClock ao.pts], ?_, ?_, ?_, rfl, rfl⟩
      · have hrun : AudioOutput.fillLoop conv (n + 2) ao len []
            = some ({ ao with audio_buf_index := ao.audio_buf_index + len }, true,
                [AudioCall.write ((buf.drop ao.audio_buf_index.toNat).take len.toNat)]) := by
          rw [hstep]
          simp [AudioOutput.fillLoop]
        simp only [sdl_audio_callback, hrun]
        rfl
      · intro r hmem
        simp at hmem
      · simp [streamOf]
    · have hz : len = 0 := by omega
      subst hz
      refine ⟨{ ao with avsync_ := ao.avsync_.SetClock us ao.pts },
        [AudioCall.SetClock ao.pts], ?_, ?_, ?_, by simp, rfl⟩
      · simp [sdl_audio_callback, AudioOutput.fillLoop]
      · intro r hmem
        simp at hmem
      · simp [streamOf]

/-- Witness for C6: eight bytes buffered, two already served, a request for
four: bytes 13..16 are written, nothing is popped, the index moves to 6. -/
theorem audio_leftover_served_first_witness :
    ∃ ao1 calls, sdl_audio_callback convCopy 2 audioLeftover 0 4 = some (ao1, calls)
      ∧ (∀ r, AudioCall.Pop r ∉ calls)
      ∧ streamOf calls
          = (([11, 12, 13, 14, 15, 16, 17, 18] : List Byte).drop
              audioLeftover.audio_buf_index.toNat).take (4 : Int).toNat
      ∧ ao1.audio_buf_index = audioLeftover.audio_buf_index + 4
      ∧ ao1.frame_queue_ = audioLeftover.frame_queue_ :=
  (audio_leftover_served_first convCopy audioLeftover 0 4 [11, 12, 13, 14, 15, 16, 17, 18]
    rfl (by decide) (by decide) (by decide) (by decide)).2.2 (by decide) 2 (le_refl 2)

theorem ptsAfter_append (tb : AVRational) (init : ℚ) (a b : List AVFrame) :
    ptsAfter tb init (a ++ b) = ptsAfter tb (ptsAfter tb init a) b := by
  cases b using List.reverseRecOn with
  | nil => simp [ptsAfter]
  | append_singleton b1 x =>
    simp [ptsAfter, ← List.append_assoc, List.getLast?_append]

theorem AudioOutput.refill_pts (conv : AVFrame → ConvResult) (ao : AudioOutput) :
    (ao.refill conv).state.time_base_ = ao.time_base_
      ∧ (ao.refill conv).state.pts
          = ptsAfter ao.time_base_ ao.pts (poppedOf (ao.refill conv).calls) := by
  unfold AudioOutput.refill
  by_cases heq : ao.audio_buf_index = ao.audio_buf_size
  · simp only [heq, if_true]
    rcases hpop : AVFrameQueue.Pop ao.frame_queue_ 2 with ⟨r, q1⟩
    cases r with
    | none => simp [Refill.state, Refill.calls, poppedOf, ptsAfter]
    | some frame =>
      cases hc : conv frame with
      | failed => simp [hc, Refill.state, Refill.calls, poppedOf, ptsAfter]
      | ok buf size => simp [hc, Refill.state, Refill.calls, poppedOf, ptsAfter]
  · simp [heq, Refill.state, Refill.calls, poppedOf, ptsAfter]

theorem AudioOutput.fillLoop_pts (conv : AVFrame → ConvResult) :
    ∀ (fuel : Nat) (ao : AudioOutput) (len : Int) (calls : List AudioCall)
      (ao1 : AudioOutput) (full : Bool) (calls1 : List AudioCall),
      AudioOutput.fillLoop conv fuel ao len calls = some (ao1, full, calls1) →
      ∃ ext, calls1 = calls ++ ext ∧ ao1.time_base_ = ao.time_base_
        ∧ ao1.pts = ptsAfter ao.time_base_ ao.pts (poppedOf ext) := by
  intro fuel
  induction fuel with
  | zero => intro ao len calls ao1 full calls1 h; simp [AudioOutput.fillLoop] at h
  | succ n ih =>
    intro ao len calls ao1 full calls1 h
    have hrp := AudioOutput.refill_pts conv ao
    by_cases hlen : len > 0
    · simp only [AudioOutput.fillLoop, hlen, if_true] at h
      cases hr : ao.refill conv with
      | returned ao2 calls2 =>
        simp only [hr, Option.some.injEq, Prod.mk.injEq] at h
        simp only [hr, Refill.state, Refill.calls] at hrp
        obtain ⟨h1, _, h3⟩ := h
        subst h1
        exact ⟨calls2, h3.symm, hrp.1, hrp.2⟩
      | filled ao2 calls2 =>
        simp only [hr] at h
        simp only [hr, Refill.state, Refill.calls] at hrp
        obtain ⟨ext, hext, htb, hpts⟩ := ih _ _ _ _ _ _ h
        rw [List.append_assoc, List.append_assoc] at hext
        refine ⟨_, hext, by simpa [hrp.1] using htb, ?_⟩
        simp only at hpts htb
        rw [hpts, hrp.1, hrp.2, poppedOf_append, poppedOf_append, ptsAfter_append]
        simp [poppedOf]
    · simp only [AudioOutput.fillLoop, hlen, if_false, Option.some.injEq, Prod.mk.injEq] at h
      obtain ⟨h1, _, h3⟩ := h
      subst h1
      exact ⟨[], by simp [h3], rfl, by simp [poppedOf, ptsAfter]⟩

/-- C7: a callback whose loop fills the requested length (it runs to the end,
with no return on a conversion error) ends by calling `SetClock(p)`, where
`p` is `pts * time_base` of the frame popped last in this call, or, when the
call popped no frame, the value of the member `pts` on entry, which is the
`p` of the previous call; `p` is also what the member `pts` holds on exit. -/
theorem audio_callback_sets_clock_to_last_frame (conv : AVFrame → ConvResult) (fuel : Nat)
    (ao : AudioOutput) (us : Int) (len : Int) (ao1 : AudioOutput) (calls1 : List AudioCall)
    (hfill : AudioOutput.fillLoop conv fuel ao len [] = some (ao1, true, calls1)) :
    sdl_audio_callback conv fuel ao us len
        = some ({ ao1 with avsync_ := ao1.avsync_.SetClock us ao1.pts },
                calls1 ++ [AudioCall.SetClock ao1.pts])
      ∧ ao1.pts
          = (match (poppedOf calls1).getLast? with
             | some frame => ptsSeconds frame.pts ao.time_base_
             | none => ao.pts)
      ∧ (poppedOf calls1 = [] → ao1.pts = ao.pts) := by
  obtain ⟨ext, hext, _, hpts⟩ := AudioOutput.fillLoop_pts conv fuel ao len [] ao1 true calls1 hfill
  simp only [List.nil_append] at hext
  subst hext
  refine ⟨by simp [sdl_audio_callback, hfill], hpts, fun hnone => ?_⟩
  rw [hpts, hnone]
  rfl

/-- Witness for C7: the callback for 8 bytes on `audioLeftover` serves six
leftover bytes, pops `toneFrame` (pts 3, time base 1/1) and ends with
`SetClock(3 * 1/1)`. -/
theorem audio_callback_sets_clock_to_last_frame_witness :
    sdl_audio_callback convCopy 3 audioLeftover 0 8
        = some ({ audioAfterTone with avsync_ := audioAfterTone.avsync_.SetClock 0 audioAfterTone.pts },
                [AudioCall.write [13, 14, 15, 16, 17, 18], AudioCall.Pop (some toneFrame),
                 AudioCall.av_frame_free toneFrame, AudioCall.write [1, 2]]
                  ++ [AudioCall.SetClock audioAfterTone.pts])
      ∧ audioAfterTone.pts
          = (match (poppedOf [AudioCall.write [13, 14, 15, 16, 17, 18],
                AudioCall.Pop (some toneFrame), AudioCall.av_frame_free toneFrame,
                AudioCall.write [1, 2]]).getLast? with
             | some frame => ptsSeconds frame.pts audioLeftover.time_base_
             | none => audioLeftover.pts)
      ∧ (poppedOf [AudioCall.write [13, 14, 15, 16, 17, 18], AudioCall.Pop (some toneFrame),
            AudioCall.av_frame_free toneFrame, AudioCall.write [1, 2]] = []
          → audioAfterTone.pts = audioLeftover.pts) :=
  audio_callback_sets_clock_to_last_frame convCopy 3 audioLeftover 0 8 audioAfterTone
    [AudioCall.write [13, 14, 15, 16, 17, 18], AudioCall.Pop (some toneFrame),
     AudioCall.av_frame_free toneFrame, AudioCall.write [1, 2]] rfl

/-! ### Abort is idempotent, and an aborted queue stays aborted -/

theorem AVFrameQueue.Abort_of_aborted (q : AVFrameQueue) (fuel : Nat)
    (hab : q.queue_.aborted = true) :
    q.Abort (fuel + 1) = some (q, []) := by
  obtain ⟨⟨items, ab⟩⟩ := q
  simp only at hab
  subst hab
  simp [AVFrameQueue.Abort, AVFrameQueue.release, AVFrameQueue.releaseLoop, Queue.Pop,
    Queue.Abort]

theorem AVPacketQueue.Abort_when_aborted (q : AVPacketQueue) (fuel : Nat)
    (hab : q.queue_.aborted = true) :
    q.Abort (fuel + 1) = some (q, []) := by
  obtain ⟨⟨items, ab⟩⟩ := q
  simp only at hab
  subst hab
  simp [AVPacketQueue.Abort, AVPacketQueue.release, AVPacketQueue.releaseLoop, Queue.Pop,
    Queue.Abort]

theorem AVFrameQueue.Abort_any (q : AVFrameQueue) (fuel : Nat)
    (hfuel : q.queue_.items.length < fuel) :
    ∃ q1 freed, q.Abort fuel = some (q1, freed)
      ∧ q1.Abort fuel = some (q1, [])
      ∧ q1.queue_.aborted = true
      ∧ ((q.queue_.aborted = true → q.queue_.items = []) → q1.queue_.items = []) := by
  obtain ⟨n, rfl⟩ : ∃ n, fuel = n + 1 := ⟨fuel - 1, by omega⟩
  cases hab : q.queue_.aborted with
  | true =>
    exact ⟨q, [], AVFrameQueue.Abort_of_aborted q n hab, AVFrameQueue.Abort_of_aborted q n hab,
      hab, fun h => h rfl⟩
  | false =>
    obtain ⟨⟨items, ab⟩⟩ := q
    simp only at hab hfuel
    subst hab
    refine ⟨{ queue_ := { items := [], aborted := true } }, items, ?_,
      AVFrameQueue.Abort_of_aborted _ n rfl, rfl, fun _ => rfl⟩
    simp [AVFrameQueue.Abort, AVFrameQueue.release,
      AVFrameQueue.releaseLoop_frees_frames items (n + 1) [] hfuel, Queue.Abort]

theorem AVPacketQueue.Abort_every_state (q : AVPacketQueue) (fuel : Nat)
    (hfuel : q.queue_.items.length < fuel) :
    ∃ q1 freed, q.Abort fuel = some (q1, freed)
      ∧ q1.Abort fuel = some (q1, [])
      ∧ q1.queue_.aborted = true
      ∧ ((q.queue_.aborted = true → q.queue_.items = []) → q1.queue_.items = []) := by
  obtain ⟨n, rfl⟩ : ∃ n, fuel = n + 1 := ⟨fuel - 1, by omega⟩
  cases hab : q.queue_.aborted with
  | true =>
    exact ⟨q, [], AVPacketQueue.Abort_when_aborted q n hab,
      AVPacketQueue.Abort_when_aborted q n hab, hab, fun h => h rfl⟩
  | false =>
    obtain ⟨⟨items, ab⟩⟩ := q
    simp only at hab hfuel
    subst hab
    refine ⟨{ queue_ := { items := [], aborted := true } }, items, ?_,
      AVPacketQueue.Abort_when_aborted _ n rfl, rfl, fun _ => rfl⟩
    simp [AVPacketQueue.Abort, AVPacketQueue.release,
      AVPacketQueue.releaseLoop_frees_packets items (n + 1) [] hfuel, Queue.Abort]

/-- C11: on a frame queue and on a packet queue in any state, `Abort()`
terminates (fuel above the number of resident items is enough) and a second
`Abort()` on the result returns the very same state and frees nothing; that
state has the aborted flag set, and it is empty whenever the queue was not
already aborted with items inside (which no sequence of `Push`, `Pop` and
`Abort` from an empty queue produces). -/
theorem abort_twice_same_as_once (fq : AVFrameQueue) (pq : AVPacketQueue) (fuel : Nat)
    (hfuel_f : fq.queue_.items.length < fuel) (hfuel_p : pq.queue_.items.length < fuel) :
    (∃ fq1 freed, fq.Abort fuel = some (fq1, freed)
        ∧ fq1.Abort fuel = some (fq1, [])
        ∧ fq1.queue_.aborted = true
        ∧ ((fq.queue_.aborted = true → fq.queue_.items = []) → fq1.queue_.items = []))
      ∧ (∃ pq1 freed, pq.Abort fuel = some (pq1, freed)
        ∧ pq1.Abort fuel = some (pq1, [])
        ∧ pq1.queue_.aborted = true
        ∧ ((pq.queue_.aborted = true → pq.queue_.items = []) → pq1.queue_.items = [])) :=
  ⟨AVFrameQueue.Abort_any fq fuel hfuel_f, AVPacketQueue.Abort_every_state pq fuel hfuel_p⟩

/-- Witness for C11: a frame queue with two resident frames and a packet
queue with one resident packet. -/
theorem abort_twice_same_as_once_witness :
    (∃ fq1 freed,
        AVFrameQueue.Abort 3
            { queue_ := { items := [{ pts := 1, data := [10] }, { pts := 2, data := [20] }],
                          aborted := false } }
          = some (fq1, freed)
        ∧ fq1.Abort 3 = some (fq1, [])
        ∧ fq1.queue_.aborted = true
        ∧ (((false : Bool) = true →
              ([{ pts := 1, data := [10] }, { pts := 2, data := [20] }] : List AVFrame) = [])
            → fq1.queue_.items = []))
      ∧ (∃ pq1 freed,
          AVPacketQueue.Abort 3 { queue_ := { items := [audioPacket], aborted := false } }
            = some (pq1, freed)
          ∧ pq1.Abort 3 = some (pq1, [])
          ∧ pq1.queue_.aborted = true
          ∧ (((false : Bool) = true → ([audioPacket] : List AVPacket) = [])
              → pq1.queue_.items = [])) :=
  abort_twice_same_as_once
    { queue_ := { items := [{ pts := 1, data := [10] }, { pts := 2, data := [20] }],
                  aborted := false } }
    { queue_ := { items := [audioPacket], aborted := false } } 3 (by decide) (by decide)

theorem AVFrameQueue.releaseLoop_result :
    ∀ (fuel : Nat) (q : AVFrameQueue) (freed : List AVFrame) (q1 : AVFrameQueue)
      (freed1 : List AVFrame),
      AVFrameQueue.releaseLoop fuel q freed = some (q1, freed1) →
      q1.queue_.aborted = q.queue_.aborted
        ∧ (q.queue_.aborted = true → q1 = q)
        ∧ (q.queue_.aborted = false → q1.queue_.items = []) := by
  intro fuel
  induction fuel with
  | zero => intro q freed q1 freed1 h; simp [AVFrameQueue.releaseLoop] at h
  | succ n ih =>
    intro q freed q1 freed1 h
    obtain ⟨⟨items, ab⟩⟩ := q
    cases ab with
    | true =>
      simp only [AVFrameQueue.releaseLoop, Queue.Pop, if_true, Int.reduceNeg, Int.reduceLT,
        Option.some.injEq, Prod.mk.injEq] at h
      obtain ⟨h1, _⟩ := h
      subst h1
      exact ⟨rfl, fun _ => rfl, fun h => by simp at h⟩
    | false =>
      cases items with
      | nil =>
        simp only [AVFrameQueue.releaseLoop, Queue.Pop, Bool.false_eq_true, if_false,
          Int.reduceNeg, Int.reduceLT, if_true, Option.some.injEq, Prod.mk.injEq] at h
        obtain ⟨h1, _⟩ := h
        subst h1
        exact ⟨rfl, fun h => by simp at h, fun _ => rfl⟩
      | cons x rest =>
        simp only [AVFrameQueue.releaseLoop, Queue.Pop, Bool.false_eq_true, if_false,
          lt_self_iff_false] at h
        obtain ⟨h1, _, h3⟩ := ih _ _ _ _ h
        exact ⟨h1, fun h => by simp at h, fun _ => h3 rfl⟩

theorem AVPacketQueue.releaseLoop_outcome :
    ∀ (fuel : Nat) (q : AVPacketQueue) (freed : List AVPacket) (q1 : AVPacketQueue)
      (freed1 : List AVPacket),
      AVPacketQueue.releaseLoop fuel q freed = some (q1, freed1) →
      q1.queue_.aborted = q.queue_.aborted
        ∧ (q.queue_.aborted = true → q1 = q)
        ∧ (q.queue_.aborted = false → q1.queue_.items = []) := by
  intro fuel
  induction fuel with
  | zero => intro q freed q1 freed1 h; simp [AVPacketQueue.releaseLoop] at h
  | succ n ih =>
    intro q freed q1 freed1 h
    obtain ⟨⟨items, ab⟩⟩ := q
    cases ab with
    | true =>
      simp only [AVPacketQueue.releaseLoop, Queue.Pop, if_true, Int.reduceNeg, Int.reduceLT,
        Option.some.injEq, Prod.mk.injEq] at h
      obtain ⟨h1, _⟩ := h
      subst h1
      exact ⟨rfl, fun _ => rfl, fun h => by simp at h⟩
    | false =>
      cases items with
      | nil =>
        simp only [AVPacketQueue.releaseLoop, Queue.Pop, Bool.false_eq_true, if_false,
          Int.reduceNeg, Int.reduceLT, if_true, Option.some.injEq, Prod.mk.injEq] at h
        obtain ⟨h1, _⟩ := h
        subst h1
        exact ⟨rfl, fun h => by simp at h, fun _ => rfl⟩
      | cons x rest =>
        simp only [AVPacketQueue.releaseLoop, Queue.Pop, Bool.false_eq_true, if_false,
          lt_self_iff_false] at h
        obtain ⟨h1, _, h3⟩ := ih _ _ _ _ h
        exact ⟨h1, fun h => by simp at h, fun _ => h3 rfl⟩

theorem AVFrameQueue.Abort_result (fuel : Nat) (q q1 : AVFrameQueue) (freed : List AVFrame)
    (h : q.Abort fuel = some (q1, freed)) :
    q1.queue_.aborted = true
      ∧ ((q.queue_.aborted = true → q.queue_.items = []) → q1.queue_.items = []) := by
  unfold AVFrameQueue.Abort AVFrameQueue.release at h
  cases hr : AVFrameQueue.releaseLoop fuel q [] with
  | none => simp [hr] at h
  | some r =>
    obtain ⟨q2, freed2⟩ := r
    simp only [hr, Option.some.injEq, Prod.mk.injEq] at h
    obtain ⟨h1, _⟩ := h
    subst h1
    obtain ⟨_, hsame, hdrained⟩ := AVFrameQueue.releaseLoop_result fuel q [] q2 freed2 hr
    refine ⟨rfl, fun hinv => ?_⟩
    simp only [Queue.Abort]
    cases hab : q.queue_.aborted with
    | true => rw [hsame hab]; exact hinv hab
    | false => exact hdrained hab

theorem AVPacketQueue.Abort_outcome (fuel : Nat) (q q1 : AVPacketQueue) (freed : List AVPacket)
    (h : q.Abort fuel = some (q1, freed)) :
    q1.queue_.aborted = true
      ∧ ((q.queue_.aborted = true → q.queue_.items = []) → q1.queue_.items = []) := by
  unfold AVPacketQueue.Abort AVPacketQueue.release at h
  cases hr : AVPacketQueue.releaseLoop fuel q [] with
  | none => simp [hr] at h
  | some r =>
    obtain ⟨q2, freed2⟩ := r
    simp only [hr, Option.some.injEq, Prod.mk.injEq] at h
    obtain ⟨h1, _⟩ := h
    subst h1
    obtain ⟨_, hsame, hdrained⟩ := AVPacketQueue.releaseLoop_outcome fuel q [] q2 freed2 hr
    refine ⟨rfl, fun hinv => ?_⟩
    simp only [Queue.Abort]
    cases hab : q.queue_.aborted with
    | true => rw [hsame hab]; exact hinv hab
    | false => exact hdrained hab

theorem AVFrameQueue.perform_keeps_invariant (fuel : Nat) (q q1 : AVFrameQueue)
    (op : FrameQueueOp) (hinv : q.queue_.aborted = true → q.queue_.items = [])
    (h : q.perform fuel op = some q1) :
    q1.queue_.aborted = true → q1.queue_.items = [] := by
  cases op with
  | Push val =>
    obtain ⟨⟨items, ab⟩⟩ := q
    simp only [AVFrameQueue.perform, Option.some.injEq] at h
    subst h
    cases ab with
    | true => simpa [AVFrameQueue.Push, Queue.Push] using hinv
    | false => simp [AVFrameQueue.Push, Queue.Push]
  | Pop timeout =>
    obtain ⟨⟨items, ab⟩⟩ := q
    simp only [AVFrameQueue.perform, Option.some.injEq] at h
    subst h
    cases ab with
    | true => simpa [AVFrameQueue.Pop, Queue.Pop] using hinv
    | false => cases items <;> simp [AVFrameQueue.Pop, Queue.Pop]
  | Front =>
    simp only [AVFrameQueue.perform, Option.some.injEq] at h
    subst h
    exact hinv
  | Abort =>
    simp only [AVFrameQueue.perform] at h
    cases ha : q.Abort fuel with
    | none => simp [ha] at h
    | some r =>
      obtain ⟨q2, freed⟩ := r
      simp only [ha, Option.map_some', Option.some.injEq] at h
      subst h
      exact fun _ => (AVFrameQueue.Abort_result fuel q q2 freed ha).2 hinv

theorem AVPacketQueue.perform_preserves_invariant (fuel : Nat) (q q1 : AVPacketQueue)
    (op : PacketQueueOp) (hinv : q.queue_.aborted = true → q.queue_.items = [])
    (h : q.perform fuel op = some q1) :
    q1.queue_.aborted = true → q1.queue_.items = [] := by
  cases op with
  | Push val =>
    obtain ⟨⟨items, ab⟩⟩ := q
    simp only [AVPacketQueue.perform, Option.some.injEq] at h
    subst h
    cases ab with
    | true => simpa [AVPacketQueue.Push, Queue.Push] using hinv
    | false => simp [AVPacketQueue.Push, Queue.Push]
  | Pop timeout =>
    obtain ⟨⟨items, ab⟩⟩ := q
    simp only [AVPacketQueue.perform, Option.some.injEq] at h
    subst h
    cases ab with
    | true => simpa [AVPacketQueue.Pop, Queue.Pop] using hinv
    | false => cases items <;> simp [AVPacketQueue.Pop, Queue.Pop]
  | Abort =>
    simp only [AVPacketQueue.perform] at h
    cases ha : q.Abort fuel with
    | none => simp [ha] at h
    | some r =>
      obtain ⟨q2, freed⟩ := r
      simp only [ha, Option.map_some', Option.some.injEq] at h
      subst h
      exact fun _ => (AVPacketQueue.Abort_outcome fuel q q2 freed ha).2 hinv

theorem AVFrameQueue.performAll_keeps_invariant (fuel : Nat) (ops : List FrameQueueOp) :
    ∀ (q q1 : AVFrameQueue), (q.queue_.aborted = true → q.queue_.items = []) →
      AVFrameQueue.performAll fuel q ops = some q1 →
      q1.queue_.aborted = true → q1.queue_.items = [] := by
  induction ops with
  | nil =>
    intro q q1 hinv h
    simp only [AVFrameQueue.performAll, Option.some.injEq] at h
    subst h
    exact hinv
  | cons op rest ih =>
    intro q q1 hinv h
    simp only [AVFrameQueue.performAll] at h
    cases hp : q.perform fuel op with
    | none => simp [hp] at h
    | some q2 =>
      simp only [hp] at h
      exact ih q2 q1 (AVFrameQueue.perform_keeps_invariant fuel q q2 op hinv hp) h

theorem AVPacketQueue.performAll_preserves_invariant (fuel : Nat) (ops : List PacketQueueOp) :
    ∀ (q q1 : AVPacketQueue), (q.queue_.aborted = true → q.queue_.items = []) →
      AVPacketQueue.performAll fuel q ops = some q1 →
      q1.queue_.aborted = true → q1.queue_.items = [] := by
  induction ops with
  | nil =>
    intro q q1 hinv h
    simp only [AVPacketQueue.performAll, Option.some.injEq] at h
    subst h
    exact hinv
  | cons op rest ih =>
    intro q q1 hinv h
    simp only [AVPacketQueue.performAll] at h
    cases hp : q.perform fuel op with
    | none => simp [hp] at h
    | some q2 =>
      simp only [hp] at h
      exact ih q2 q1 (AVPacketQueue.perform_preserves_invariant fuel q q2 op hinv hp) h

theorem AVFrameQueue.performAll_of_aborted (n : Nat) (ops : List FrameQueueOp) :
    AVFrameQueue.performAll (n + 1) { queue_ := { items := [], aborted := true } } ops
      = some { queue_ := { items := [], aborted := true } } := by
  induction ops with
  | nil => rfl
  | cons op rest ih =>
    cases op with
    | Push val => simpa [AVFrameQueue.performAll, AVFrameQueue.perform, AVFrameQueue.Push,
        Queue.Push] using ih
    | Pop timeout => simpa [AVFrameQueue.performAll, AVFrameQueue.perform, AVFrameQueue.Pop,
        Queue.Pop] using ih
    | Front => simpa [AVFrameQueue.performAll, AVFrameQueue.perform] using ih
    | Abort =>
      simpa [AVFrameQueue.performAll, AVFrameQueue.perform,
        AVFrameQueue.Abort_of_aborted { queue_ := { items := [], aborted := true } } n rfl]
        using ih

theorem AVPacketQueue.performAll_after_abort (n : Nat) (ops : List PacketQueueOp) :
    AVPacketQueue.performAll (n + 1) { queue_ := { items := [], aborted := true } } ops
      = some { queue_ := { items := [], aborted := true } } := by
  induction ops with
  | nil => rfl
  | cons op rest ih =>
    cases op with
    | Push val => simpa [AVPacketQueue.performAll, AVPacketQueue.perform, AVPacketQueue.Push,
        Queue.Push] using ih
    | Pop timeout => simpa [AVPacketQueue.performAll, AVPacketQueue.perform, AVPacketQueue.Pop,
        Queue.Pop] using ih
    | Abort =>
      simpa [AVPacketQueue.performAll, AVPacketQueue.perform,
        AVPacketQueue.Abort_when_aborted { queue_ := { items := [], aborted := true } } n rfl]
        using ih

/-- C12: let `Abort()` have been called on a frame queue `fq0` and on a
packet queue `pq0` (neither aborted beforehand with items inside), giving
`fq` and `pq`.  Then the queue is empty and aborted, and it stays exactly so
through every later sequence of `Push`, `Pop`, `Front` and `Abort`; in that
state every `Push` returns the failure code -1 without enqueuing the item,
and every `Pop(timeout)` returns no item, the inner pop answering with the
code -1 for "aborted" and not with the code for a timeout that ran out. -/
theorem aborted_queue_rejects_push_and_pop (fq0 fq : AVFrameQueue) (pq0 pq : AVPacketQueue)
    (fuel : Nat) (ffreed : List AVFrame) (pfreed : List AVPacket)
    (hfinv : fq0.queue_.aborted = true → fq0.queue_.items = [])
    (hpinv : pq0.queue_.aborted = true → pq0.queue_.items = [])
    (hfa : fq0.Abort fuel = some (fq, ffreed)) (hpa : pq0.Abort fuel = some (pq, pfreed)) :
    (fq.queue_ = { items := [], aborted := true }
        ∧ (∀ (ops : List FrameQueueOp) (n : Nat), AVFrameQueue.performAll (n + 1) fq ops = some fq)
        ∧ (∀ val : AVFrame, fq.Push val = (-1, fq))
        ∧ (∀ timeout : Int, fq.Pop timeout = (none, fq) ∧ (fq.queue_.Pop timeout).1 = -1))
      ∧ (pq.queue_ = { items := [], aborted := true }
        ∧ (∀ (ops : List PacketQueueOp) (n : Nat),
            AVPacketQueue.performAll (n + 1) pq ops = some pq)
        ∧ (∀ val : AVPacket, pq.Push val = (-1, pq))
        ∧ (∀ timeout : Int, pq.Pop timeout = (none, pq) ∧ (pq.queue_.Pop timeout).1 = -1)) := by
  obtain ⟨hfab, hfempty⟩ := AVFrameQueue.Abort_result fuel fq0 fq ffreed hfa
  obtain ⟨hpab, hpempty⟩ := AVPacketQueue.Abort_outcome fuel pq0 pq pfreed hpa
  have hfe := hfempty hfinv
  have hpe := hpempty hpinv
  obtain ⟨⟨fitems, fab⟩⟩ := fq
  obtain ⟨⟨pitems, pab⟩⟩ := pq
  simp only at hfab hfe hpab hpe
  subst hfab
  subst hfe
  subst hpab
  subst hpe
  refine ⟨⟨rfl, fun ops n => AVFrameQueue.performAll_of_aborted n ops, fun val => ?_,
      fun timeout => ?_⟩,
    ⟨rfl, fun ops n => AVPacketQueue.performAll_after_abort n ops, fun val => ?_,
      fun timeout => ?_⟩⟩
  · simp [AVFrameQueue.Push, Queue.Push]
  · simp [AVFrameQueue.Pop, Queue.Pop]
  · simp [AVPacketQueue.Push, Queue.Push]
  · simp [AVPacketQueue.Pop, Queue.Pop]

/-- Witness for C12: a frame queue with two resident frames and a packet
queue with one resident packet, aborted. -/
theorem aborted_queue_rejects_push_and_pop_witness :
    ((({ queue_ := { items := [], aborted := true } } : AVFrameQueue).queue_
          = { items := [], aborted := true }
        ∧ (∀ (ops : List FrameQueueOp) (n : Nat),
            AVFrameQueue.performAll (n + 1) { queue_ := { items := [], aborted := true } } ops
              = some { queue_ := { items := [], aborted := true } })
        ∧ (∀ val : AVFrame,
            AVFrameQueue.Push { queue_ := { items := [], aborted := true } } val
              = (-1, { queue_ := { items := [], aborted := true } }))
        ∧ (∀ timeout : Int,
            AVFrameQueue.Pop { queue_ := { items := [], aborted := true } } timeout
                = (none, { queue_ := { items := [], aborted := true } })
              ∧ (Queue.Pop ({ items := [], aborted := true } : Queue AVFrame) timeout).1 = -1))
      ∧ (({ queue_ := { items := [], aborted := true } } : AVPacketQueue).queue_
          = { items := [], aborted := true }
        ∧ (∀ (ops : List PacketQueueOp) (n : Nat),
            AVPacketQueue.performAll (n + 1) { queue_ := { items := [], aborted := true } } ops
              = some { queue_ := { items := [], aborted := true } })
        ∧ (∀ val : AVPacket,
            AVPacketQueue.Push { queue_ := { items := [], aborted := true } } val
              = (-1, { queue_ := { items := [], aborted := true } }))
        ∧ (∀ timeout : Int,
            AVPacketQueue.Pop { queue_ := { items := [], aborted := true } } timeout
                = (none, { queue_ := { items := [], aborted := true } })
              ∧ (Queue.Pop ({ items := [], aborted := true } : Queue AVPacket) timeout).1
                  = -1))) :=
  aborted_queue_rejects_push_and_pop
    { queue_ := { items := [{ pts := 1, data := [10] }, { pts := 2, data := [20] }],
                  aborted := false } }
    { queue_ := { items := [], aborted := true } }
    { queue_ := { items := [audioPacket], aborted := false } }
    { queue_ := { items := [], aborted := true } }
    3 [{ pts := 1, data := [10] }, { pts := 2, data := [20] }] [audioPacket]
    (by decide) (by decide) rfl rfl

/-! ### Stopping a stage, and start-up in `main` -/

/-- C13: for every state of a stage (any flag, thread present or not), a
second `Thread::Stop()` leaves the state the first one left, which is
`abort_ = 1` and `thread_` null; both calls return 0; the second call joins
and deletes nothing, so over the two calls the thread, if there was one, is
joined and deleted exactly once and otherwise never.  `DecodeThread::Stop`,
which forwards to `Thread::Stop`, behaves the same. -/
theorem thread_stop_twice_same_as_once (t : Thread) :
    (t.Stop.1.Stop.1 = t.Stop.1
        ∧ t.Stop.1 = { abort_ := 1, thread_ := none }
        ∧ t.Stop.2.1 = 0 ∧ t.Stop.1.Stop.2.1 = 0
        ∧ t.Stop.1.Stop.2.2 = []
        ∧ t.Stop.2.2 ++ t.Stop.1.Stop.2.2
            = (match t.thread_ with
               | some handle => [ThreadCall.join handle, ThreadCall.delete handle]
               | none => []))
      ∧ ((DecodeThread.Stop (DecodeThread.Stop t).1).1 = (DecodeThread.Stop t).1
        ∧ (DecodeThread.Stop t).1 = { abort_ := 1, thread_ := none }
        ∧ (DecodeThread.Stop t).2.1 = 0 ∧ (DecodeThread.Stop (DecodeThread.Stop t).1).2.1 = 0
        ∧ (DecodeThread.Stop (DecodeThread.Stop t).1).2.2 = []
        ∧ (DecodeThread.Stop t).2.2 ++ (DecodeThread.Stop (DecodeThread.Stop t).1).2.2
            = (match t.thread_ with
               | some handle => [ThreadCall.join handle, ThreadCall.delete handle]
               | none => [])) := by
  obtain ⟨ab, th⟩ := t
  cases th with
  | none => simp [Thread.Stop, DecodeThread.Stop]
  | some handle => simp [Thread.Stop, DecodeThread.Stop]

/-- C14: whatever the return codes of the stage initialisations and starts,
if one of them is negative `main` returns a negative status and never enters
`VideoOutput::MainLoop`; and `main` returns 0 exactly when none of them is
negative, in which case it did enter `MainLoop`. -/
theorem main_fails_when_a_stage_fails (r : StageResults) :
    ((r.demux_thread_Init < 0 ∨ r.demux_thread_Start < 0
          ∨ r.audio_decode_thread_Init < 0 ∨ r.audio_decode_thread_Start < 0
          ∨ r.video_decode_thread_Init < 0 ∨ r.video_decode_thread_Start < 0
          ∨ r.audio_output_Init < 0 ∨ r.video_output_Init < 0) →
        (main r).1 < 0 ∧ MainCall.video_output_MainLoop ∉ (main r).2)
      ∧ ((main r).1 = 0 ↔
          (0 ≤ r.demux_thread_Init ∧ 0 ≤ r.demux_thread_Start
            ∧ 0 ≤ r.audio_decode_thread_Init ∧ 0 ≤ r.audio_decode_thread_Start
            ∧ 0 ≤ r.video_decode_thread_Init ∧ 0 ≤ r.video_decode_thread_Start
            ∧ 0 ≤ r.audio_output_Init ∧ 0 ≤ r.video_output_Init))
      ∧ ((main r).1 = 0 → MainCall.video_output_MainLoop ∈ (main r).2) := by
  unfold main
  by_cases h1 : r.demux_thread_Init < 0
  · simp only [h1, if_true]
    refine ⟨fun _ => ⟨by decide, by decide⟩, ⟨fun h => by simp at h, fun h => by omega⟩,
      fun h => by simp at h⟩
  by_cases h2 : r.demux_thread_Start < 0
  · simp only [h1, h2, if_true, if_false]
    refine ⟨fun _ => ⟨by decide, by decide⟩, ⟨fun h => by simp at h, fun h => by omega⟩,
      fun h => by simp at h⟩
  by_cases h3 : r.audio_decode_thread_Init < 0
  · simp only [h1, h2, h3, if_true, if_false]
    refine ⟨fun _ => ⟨by decide, by decide⟩, ⟨fun h => by simp at h, fun h => by omega⟩,
      fun h => by simp at h⟩
  by_cases h4 : r.audio_decode_thread_Start < 0
  · simp only [h1, h2, h3, h4, if_true, if_false]
    refine ⟨fun _ => ⟨by decide, by decide⟩, ⟨fun h => by simp at h, fun h => by omega⟩,
      fun h => by simp at h⟩
  by_cases h5 : r.video_decode_thread_Init < 0
  · simp only [h1, h2, h3, h4, h5, if_true, if_false]
    refine ⟨fun _ => ⟨by decide, by decide⟩, ⟨fun h => by simp at h, fun h => by omega⟩,
      fun h => by simp at h⟩
  by_cases h6 : r.video_decode_thread_Start < 0
  · simp only [h1, h2, h3, h4, h5, h6, if_true, if_false]
    refine ⟨fun _ => ⟨by decide, by decide⟩, ⟨fun h => by simp at h, fun h => by omega⟩,
      fun h => by simp at h⟩
  by_cases h7 : r.audio_output_Init < 0
  · simp only [h1, h2, h3, h4, h5, h6, h7, if_true, if_false]
    refine ⟨fun _ => ⟨by decide, by decide⟩, ⟨fun h => by simp at h, fun h => by omega⟩,
      fun h => by simp at h⟩
  by_cases h8 : r.video_output_Init < 0
  · simp only [h1, h2, h3, h4, h5, h6, h7, h8, if_true, if_false]
    refine ⟨fun _ => ⟨by decide, by decide⟩, ⟨fun h => by simp at h, fun h => by omega⟩,
      fun h => by simp at h⟩
  rw [if_neg h1, if_neg h2, if_neg h3, if_neg h4, if_neg h5, if_neg h6, if_neg h7, if_neg h8]
  refine ⟨fun h => by omega, ⟨fun _ => by omega, fun _ => rfl⟩, fun _ => by decide⟩

/-- Witness for C14: everything succeeds except `VideoOutput::Init`, which
returns -1. -/
theorem main_fails_when_a_stage_fails_witness :
    (main { demux_thread_Init := 0, demux_thread_Start := 0, audio_decode_thread_Init := 0,
            audio_decode_thread_Start := 0, video_decode_thread_Init := 0,
            video_decode_thread_Start := 0, audio_output_Init := 0,
            video_output_Init := -1 }).1 < 0
      ∧ MainCall.video_output_MainLoop ∉
          (main { demux_thread_Init := 0, demux_thread_Start := 0,
                  audio_decode_thread_Init := 0, audio_decode_thread_Start := 0,
                  video_decode_thread_Init := 0, video_decode_thread_Start := 0,
                  audio_output_Init := 0, video_output_Init := -1 }).2 :=
  (main_fails_when_a_stage_fails
    { demux_thread_Init := 0, demux_thread_Start := 0, audio_decode_thread_Init := 0,
      audio_decode_thread_Start := 0, video_decode_thread_Init := 0,
      video_decode_thread_Start := 0, audio_output_Init := 0, video_output_Init := -1 }).1
    (by decide)

/-! ### How often the audio callback sets the clock -/

theorem setClockCount_append (a b : List AudioCall) :
    setClockCount (a ++ b) = setClockCount a + setClockCount b := by
  induction a with
  | nil => simp [setClockCount]
  | cons x xs ih =>
    cases x <;> simp [setClockCount, ih]
    omega

theorem AudioOutput.refill_no_setClock (conv : AVFrame → ConvResult) (ao : AudioOutput) :
    setClockCount (ao.refill conv).calls = 0 := by
  unfold AudioOutput.refill
  by_cases heq : ao.audio_buf_index = ao.audio_buf_size
  · simp only [heq, if_true]
    rcases hpop : AVFrameQueue.Pop ao.frame_queue_ 2 with ⟨r, q1⟩
    cases r with
    | none => simp [Refill.calls, setClockCount]
    | some frame =>
      cases hc : conv frame with
      | failed => simp [hc, Refill.calls, setClockCount]
      | ok buf size => simp [hc, Refill.calls, setClockCount]
  · simp [heq, Refill.calls, setClockCount]

theorem AudioOutput.fillLoop_no_setClock (conv : AVFrame → ConvResult) :
    ∀ (fuel : Nat) (ao : AudioOutput) (len : Int) (calls : List AudioCall)
      (ao1 : AudioOutput) (full : Bool) (calls1 : List AudioCall),
      AudioOutput.fillLoop conv fuel ao len calls = some (ao1, full, calls1) →
      setClockCount calls1 = setClockCount calls := by
  intro fuel
  induction fuel with
  | zero => intro ao len calls ao1 full calls1 h; simp [AudioOutput.fillLoop] at h
  | succ n ih =>
    intro ao len calls ao1 full calls1 h
    have hr0 := AudioOutput.refill_no_setClock conv ao
    by_cases hlen : len > 0
    · simp only [AudioOutput.fillLoop, hlen, if_true] at h
      cases hr : ao.refill conv with
      | returned ao2 calls2 =>
        simp only [hr, Option.some.injEq, Prod.mk.injEq] at h
        simp only [hr, Refill.calls] at hr0
        rw [← h.2.2, setClockCount_append, hr0]
        rfl
      | filled ao2 calls2 =>
        simp only [hr] at h
        simp only [hr, Refill.calls] at hr0
        rw [ih _ _ _ _ _ _ h, setClockCount_append, setClockCount_append, hr0]
        simp [setClockCount]
    · simp only [AudioOutput.fillLoop, hlen, if_false, Option.some.injEq, Prod.mk.injEq] at h
      rw [h.2.2]

/-- C15 (counterexample): a callback for 4 bytes that is served from leftover
bytes pops no frame and calls `SetClock` once; a callback for 4 bytes that
pops two frames of 2 bytes calls `SetClock` once. -/
theorem audio_setClock_not_per_frame :
    (sdl_audio_callback convCopy 2 audioLeftover 0 4).map
        (fun r => (setClockCount r.2, (poppedOf r.2).length)) = some (1, 0)
      ∧ (sdl_audio_callback convCopy 3 audioTwoFrames 0 4).map
        (fun r => (setClockCount r.2, (poppedOf r.2).length)) = some (1, 2) := by
  constructor <;> rfl

/-- C15 (amended): a callback whose fill loop runs to the end (`full`) makes
exactly one `SetClock` call, as its last call, whatever the number of frames
it popped; a callback that returns from inside the loop on a conversion
error makes none. -/
theorem audio_callback_sets_clock_once_per_call (conv : AVFrame → ConvResult) (fuel : Nat)
    (ao : AudioOutput) (us : Int) (len : Int) (ao1 : AudioOutput) (full : Bool)
    (calls1 : List AudioCall)
    (hfill : AudioOutput.fillLoop conv fuel ao len [] = some (ao1, full, calls1)) :
    ∃ ao2 calls, sdl_audio_callback conv fuel ao us len = some (ao2, calls)
      ∧ setClockCount calls = (if full = true then 1 else 0)
      ∧ poppedOf calls = poppedOf calls1
      ∧ (full = true → calls = calls1 ++ [AudioCall.SetClock ao1.pts]) := by
  have hcount := AudioOutput.fillLoop_no_setClock conv fuel ao len [] ao1 full calls1 hfill
  cases full with
  | true =>
    refine ⟨{ ao1 with avsync_ := ao1.avsync_.SetClock us ao1.pts },
      calls1 ++ [AudioCall.SetClock ao1.pts], by simp [sdl_audio_callback, hfill], ?_, ?_,
      fun _ => rfl⟩
    · rw [setClockCount_append, hcount]
      rfl
    · simp [poppedOf_append, poppedOf]
  | false =>
    refine ⟨ao1, calls1, by simp [sdl_audio_callback, hfill], ?_, rfl, fun h => by simp at h⟩
    rw [hcount]
    rfl

/-- Witness for C15 (amended): the callback for 4 bytes on a queue of two
2-byte frames pops both and sets the clock once, at the end. -/
theorem audio_callback_sets_clock_once_per_call_witness :
    ∃ ao2 calls, sdl_audio_callback convCopy 3 audioTwoFrames 0 4 = some (ao2, calls)
      ∧ setClockCount calls = (if true = true then 1 else 0)
      ∧ poppedOf calls
          = poppedOf [AudioCall.Pop (some { pts := 1, data := [1, 2] }),
              AudioCall.av_frame_free { pts := 1, data := [1, 2] }, AudioCall.write [1, 2],
              AudioCall.Pop (some { pts := 2, data := [3, 4] }),
              AudioCall.av_frame_free { pts := 2, data := [3, 4] }, AudioCall.write [3, 4]]
      ∧ (true = true → calls
          = [AudioCall.Pop (some { pts := 1, data := [1, 2] }),
              AudioCall.av_frame_free { pts := 1, data := [1, 2] }, AudioCall.write [1, 2],
              AudioCall.Pop (some { pts := 2, data := [3, 4] }),
              AudioCall.av_frame_free { pts := 2, data := [3, 4] }, AudioCall.write [3, 4]]
            ++ [AudioCall.SetClock
                  ({ audioTwoFrames with
                      frame_queue_ := { queue_ := { items := [], aborted := false } }
                      audio_buf_ := some [3, 4]
                      audio_buf_size := 2
                      audio_buf_index := 2
                      pts := ptsSeconds 2 { num := 1, den := 1 } } :
                    AudioOutput).pts]) :=
  audio_callback_sets_clock_once_per_call convCopy 3 audioTwoFrames 0 4
    { audioTwoFrames with
      frame_queue_ := { queue_ := { items := [], aborted := false } }
      audio_buf_ := some [3, 4]
      audio_buf_size := 2
      audio_buf_index := 2
      pts := ptsSeconds 2 { num := 1, den := 1 } }
    true
    [AudioCall.Pop (some { pts := 1, data := [1, 2] }),
     AudioCall.av_frame_free { pts := 1, data := [1, 2] }, AudioCall.write [1, 2],
     AudioCall.Pop (some { pts := 2, data := [3, 4] }),
     AudioCall.av_frame_free { pts := 2, data := [3, 4] }, AudioCall.write [3, 4]]
    rfl

/-! ### A fatal decode error -/

theorem AVFrameQueue.Push_keeps_aborted (q : AVFrameQueue) (val : AVFrame) :
    (q.Push val).2.queue_.aborted = q.queue_.aborted := by
  obtain ⟨⟨items, ab⟩⟩ := q
  cases ab <;> simp [AVFrameQueue.Push, Queue.Push]

theorem AVPacketQueue.Pop_keeps_aborted (q : AVPacketQueue) (timeout : Int) :
    (q.Pop timeout).2.queue_.aborted = q.queue_.aborted := by
  obtain ⟨⟨items, ab⟩⟩ := q
  cases ab with
  | true => simp [AVPacketQueue.Pop, Queue.Pop]
  | false => cases items <;> simp [AVPacketQueue.Pop, Queue.Pop]

theorem DecodeThread.receiveLoop_outcome {σ : Type} (dec : Decoder σ) :
    ∀ (fuel : Nat) (t t1 : DecodeThread σ) (calls calls1 : List DecodeCall),
      DecodeThread.receiveLoop dec fuel t calls = some (t1, calls1) →
      t1.packet_queue_ = t.packet_queue_
        ∧ t1.frame_queue_.queue_.aborted = t.frame_queue_.queue_.aborted
        ∧ ∃ mid, (∀ c ∈ mid, DecodeCall.isDrain c = true)
            ∧ ((calls1 = calls ++ mid ++ [DecodeCall.avcodec_receive_frame RecvResult.eagain]
                  ∧ t1.abort_ = t.abort_)
              ∨ (∃ r, calls1 = calls ++ mid
                        ++ [DecodeCall.avcodec_receive_frame (RecvResult.error r)]
                  ∧ t1.abort_ = 1)) := by
  intro fuel
  induction fuel with
  | zero => intro t t1 calls calls1 h; simp [DecodeThread.receiveLoop] at h
  | succ n ih =>
    intro t t1 calls calls1 h
    rcases hrecv : dec.receive_frame t.codec_ctx_ with ⟨r, ctx1⟩
    cases r with
    | frame f =>
      simp only [DecodeThread.receiveLoop, hrecv] at h
      obtain ⟨hpq, hfq, mid, hmid, hend⟩ := ih _ _ _ _ h
      refine ⟨hpq, ?_, [DecodeCall.avcodec_receive_frame (RecvResult.frame f),
        DecodeCall.Push f (t.frame_queue_.Push f).1] ++ mid, ?_, ?_⟩
      · rw [hfq]
        exact AVFrameQueue.Push_keeps_aborted t.frame_queue_ f
      · intro c hc
        simp only [List.cons_append, List.nil_append, List.mem_cons] at hc
        rcases hc with hc | hc | hc
        · subst hc; rfl
        · subst hc; rfl
        · exact hmid c hc
      · rcases hend with ⟨h1, h2⟩ | ⟨r, h1, h2⟩
        · exact Or.inl ⟨by rw [h1]; simp only [List.append_assoc], h2⟩
        · exact Or.inr ⟨r, by rw [h1]; simp only [List.append_assoc], h2⟩
    | eagain =>
      simp only [DecodeThread.receiveLoop, hrecv, Option.some.injEq, Prod.mk.injEq] at h
      obtain ⟨h1, h2⟩ := h
      subst h1
      exact ⟨rfl, rfl, [], fun c hc => by simp at hc, Or.inl ⟨by simp [← h2], rfl⟩⟩
    | error ret =>
      simp only [DecodeThread.receiveLoop, hrecv, Option.some.injEq, Prod.mk.injEq] at h
      obtain ⟨h1, h2⟩ := h
      subst h1
      exact ⟨rfl, rfl, [], fun c hc => by simp at hc, Or.inr ⟨ret, by simp [← h2], rfl⟩⟩

theorem DecodeThread.Run_of_break {σ : Type} (dec : Decoder σ) (inner outer : Nat)
    (t t1 : DecodeThread σ) (calls : List DecodeCall)
    (hbody : DecodeThread.RunBody dec inner t = some (t1, false, calls)) :
    DecodeThread.Run dec inner (outer + 2) t [] = some (t1, calls) := by
  simp [DecodeThread.Run, hbody]

theorem DecodeThread.Run_of_abort {σ : Type} (dec : Decoder σ) (inner outer : Nat)
    (t t1 : DecodeThread σ) (calls : List DecodeCall)
    (hbody : DecodeThread.RunBody dec inner t = some (t1, true, calls))
    (hab : t1.abort_ = 1) :
    DecodeThread.Run dec inner (outer + 2) t [] = some (t1, calls) := by
  have hnext : DecodeThread.RunBody dec inner t1 = some (t1, false, []) := by
    simp [DecodeThread.RunBody, hab]
  simp [DecodeThread.Run, hbody, hnext]

/-- C16: take a pass through the body of the decode loop in which
`avcodec_send_packet` returns a negative code or `avcodec_receive_frame`
returns an error other than EAGAIN.  The pass popped one unit and freed it
(`av_packet_free`) right after submitting it, before anything else; a
failed submit ends the pass there and breaks the loop; a failed receive is
the last call of the pass, after the frames received before it were pushed,
and sets `abort_`.  In both cases the loop of `Run` ends with this pass: the
whole run from here makes no call beyond those of the pass, so no further
unit is popped and no further frame pushed.  The aborted flags of the packet
queue and of the frame queue are what they were. -/
theorem decode_error_stops_this_stage_only {σ : Type} (dec : Decoder σ) (inner : Nat)
    (t t1 : DecodeThread σ) (go : Bool) (calls : List DecodeCall)
    (hbody : DecodeThread.RunBody dec inner t = some (t1, go, calls))
    (herr : (∃ p ret, DecodeCall.avcodec_send_packet p ret ∈ calls ∧ ret < 0)
        ∨ (∃ r, DecodeCall.avcodec_receive_frame (RecvResult.error r) ∈ calls)) :
    (∃ p ret rest,
        calls = DecodeCall.Pop (some p) :: DecodeCall.avcodec_send_packet p ret
                  :: DecodeCall.av_packet_free p :: rest
          ∧ ((ret < 0 ∧ rest = [] ∧ go = false ∧ t1.abort_ = t.abort_)
            ∨ (0 ≤ ret ∧ t1.abort_ = 1
                ∧ ∃ mid r, rest = mid ++ [DecodeCall.avcodec_receive_frame (RecvResult.error r)]
                    ∧ ∀ c ∈ mid, DecodeCall.isDrain c = true)))
      ∧ (∀ outer : Nat, DecodeThread.Run dec inner (outer + 2) t [] = some (t1, calls))
      ∧ t1.packet_queue_.queue_.aborted = t.packet_queue_.queue_.aborted
      ∧ t1.frame_queue_.queue_.aborted = t.frame_queue_.queue_.aborted := by
  have hbody0 := hbody
  unfold DecodeThread.RunBody at hbody
  by_cases hab : t.abort_ = 1
  · simp only [hab, if_true, Option.some.injEq, Prod.mk.injEq] at hbody
    obtain ⟨_, _, hc⟩ := hbody
    subst hc
    simp at herr
  rw [if_neg hab] at hbody
  by_cases hsz : t.frame_queue_.Size > 10
  · simp only [hsz, if_true, Option.some.injEq, Prod.mk.injEq] at hbody
    obtain ⟨_, _, hc⟩ := hbody
    subst hc
    simp at herr
  rw [if_neg hsz] at hbody
  have hpqab := AVPacketQueue.Pop_keeps_aborted t.packet_queue_ 10
  rcases hpop : t.packet_queue_.Pop 10 with ⟨r, pq1⟩
  rw [hpop] at hbody hpqab
  cases r with
  | none =>
    simp only [Option.some.injEq, Prod.mk.injEq] at hbody
    obtain ⟨_, _, hc⟩ := hbody
    subst hc
    simp at herr
  | some p =>
    rcases hsend : dec.send_packet t.codec_ctx_ p with ⟨ret, c1⟩
    simp only [hsend] at hbody
    by_cases hret : ret < 0
    · simp only [hret, if_true, Option.some.injEq, Prod.mk.injEq] at hbody
      obtain ⟨h1, h2, h3⟩ := hbody
      subst h1
      subst h2
      subst h3
      exact ⟨⟨p, ret, [], rfl, Or.inl ⟨hret, rfl, rfl, rfl⟩⟩,
        fun outer => DecodeThread.Run_of_break dec inner outer t _ _ hbody0, hpqab, rfl⟩
    · rw [if_neg hret] at hbody
      cases hloop : DecodeThread.receiveLoop dec inner
          { t with packet_queue_ := pq1, codec_ctx_ := c1 }
          [DecodeCall.Pop (some p), DecodeCall.avcodec_send_packet p ret,
           DecodeCall.av_packet_free p] with
      | none => simp [hloop] at hbody
      | some res =>
        obtain ⟨t2, calls2⟩ := res
        simp only [hloop, Option.some.injEq, Prod.mk.injEq] at hbody
        obtain ⟨h1, h2, h3⟩ := hbody
        subst h1
        subst h2
        subst h3
        obtain ⟨hpq, hfq, mid, hmid, hend⟩ :=
          DecodeThread.receiveLoop_outcome dec _ _ _ _ _ hloop
        have hnosend : ∀ p2 ret2, DecodeCall.avcodec_send_packet p2 ret2 ∉ mid :=
          fun p2 ret2 hm => by simpa [DecodeCall.isDrain] using hmid _ hm
        have hnoerr : ∀ r2, DecodeCall.avcodec_receive_frame (RecvResult.error r2) ∉ mid :=
          fun r2 hm => by simpa [DecodeCall.isDrain] using hmid _ hm
        rcases hend with ⟨hc, _⟩ | ⟨r, hc, hab1⟩
        · exfalso
          rw [hc] at herr
          rcases herr with ⟨p2, ret2, hmem, hneg⟩ | ⟨r2, hmem⟩
          · simp only [List.mem_append, List.mem_cons, List.mem_singleton, List.not_mem_nil,
              or_false, DecodeCall.avcodec_send_packet.injEq] at hmem
            rcases hmem with ((hm | hm | hm) | hm) | hm
            · cases hm
            · omega
            · cases hm
            · exact hnosend p2 ret2 hm
            · cases hm
          · simp only [List.mem_append, List.mem_cons, List.mem_singleton, List.not_mem_nil,
              or_false] at hmem
            rcases hmem with ((hm | hm | hm) | hm) | hm
            · cases hm
            · cases hm
            · cases hm
            · exact hnoerr r2 hm
            · cases hm
        · refine ⟨⟨p, ret, mid ++ [DecodeCall.avcodec_receive_frame (RecvResult.error r)], ?_,
            Or.inr ⟨by omega, hab1, mid, r, rfl, hmid⟩⟩,
            fun outer => DecodeThread.Run_of_abort dec inner outer t _ _ hbody0 hab1, ?_, ?_⟩
          · rw [hc]
            simp
          · rw [hpq]
            exact hpqab
          · rw [hfq]

/-- Witness for C16: a decoder that accepts the unit and then fails to decode
it; the pass pops and frees the unit, sets `abort_`, and the loop ends
without touching the second unit in the packet queue. -/
theorem decode_error_stops_this_stage_only_witness :
    DecodeThread.Run failingDecoder 1 (0 + 2) (decodeIdle [audioPacket, audioPacket]) []
      = some ({ abort_ := 1, codec_ctx_ := none,
                packet_queue_ := { queue_ := { items := [audioPacket], aborted := false } },
                frame_queue_ := { queue_ := { items := [], aborted := false } } },
              [DecodeCall.Pop (some audioPacket), DecodeCall.avcodec_send_packet audioPacket 0,
               DecodeCall.av_packet_free audioPacket,
               DecodeCall.avcodec_receive_frame (RecvResult.error (-22))]) :=
  (decode_error_stops_this_stage_only failingDecoder 1 (decodeIdle [audioPacket, audioPacket])
    { abort_ := 1, codec_ctx_ := none,
      packet_queue_ := { queue_ := { items := [audioPacket], aborted := false } },
      frame_queue_ := { queue_ := { items := [], aborted := false } } }
    true
    [DecodeCall.Pop (some audioPacket), DecodeCall.avcodec_send_packet audioPacket 0,
     DecodeCall.av_packet_free audioPacket,
     DecodeCall.avcodec_receive_frame (RecvResult.error (-22))]
    rfl (Or.inr ⟨-22, by simp⟩)).2.1 0

/-! ### Routing in the demux loop -/

theorem DemuxThread.check_of_room (d : DemuxThread) (hrun : d.abort_ ≠ 1)
    (ha : d.audio_queue_.Size ≤ 100) (hv : d.video_queue_.Size ≤ 100) :
    d.check = DemuxCheck.proceed := by
  have hroom : ¬ (d.audio_queue_.Size > 100 ∨ d.video_queue_.Size > 100) := by omega
  simp [DemuxThread.check, hrun, hroom]

theorem DemuxThread.Run_routes (units : List AVPacket) :
    ∀ (d : DemuxThread) (tail : List (Option AVPacket)) (fuel : Nat) (calls : List DemuxCall)
      (aitems vitems : List AVPacket),
      d.abort_ ≠ 1 → d.audio_stream_ ≠ d.video_stream_ →
      d.audio_queue_ = { queue_ := { items := aitems, aborted := false } } →
      d.video_queue_ = { queue_ := { items := vitems, aborted := false } } →
      d.ifmt_ctx_ = units.map some ++ tail →
      (tail = [] ∨ ∃ more, tail = none :: more) →
      aitems.length
          + (units.filter (fun p => decide (p.stream_index = d.audio_stream_))).length ≤ 100 →
      vitems.length
          + (units.filter (fun p => decide (p.stream_index = d.video_stream_))).length ≤ 100 →
      units.length < fuel →
      DemuxThread.Run fuel d calls
        = some ({ d with
                  ifmt_ctx_ := tail.drop 1
                  audio_queue_ :=
                    { queue_ := { items := aitems ++ units.filter
                                    (fun p => decide (p.stream_index = d.audio_stream_)),
                                  aborted := false } }
                  video_queue_ :=
                    { queue_ := { items := vitems ++ units.filter
                                    (fun p => decide (p.stream_index = d.video_stream_)),
                                  aborted := false } } },
                calls ++ routeCalls d.audio_stream_ d.video_stream_ units
                  ++ [DemuxCall.av_read_frame none]) := by
  induction units with
  | nil =>
    intro d tail fuel calls aitems vitems hrun _ ha hv hsrc htail hra hrv hfuel
    obtain ⟨n, rfl⟩ : ∃ n, fuel = n + 1 := ⟨fuel - 1, by omega⟩
    obtain ⟨ab, src, as, vs, aq, vq⟩ := d
    simp only at hrun ha hv hsrc hra hrv
    subst ha
    subst hv
    simp only [List.map_nil, List.nil_append] at hsrc
    subst hsrc
    simp only [List.filter_nil, List.length_nil, add_zero] at hra hrv
    rcases htail with rfl | ⟨more, rfl⟩
    · have hck := DemuxThread.check_of_room
        { abort_ := ab, ifmt_ctx_ := [], audio_stream_ := as, video_stream_ := vs,
          audio_queue_ := { queue_ := { items := aitems, aborted := false } },
          video_queue_ := { queue_ := { items := vitems, aborted := false } } }
        hrun (by simp only [AVPacketQueue.Size, Queue.Size]; omega)
        (by simp only [AVPacketQueue.Size, Queue.Size]; omega)
      simp [DemuxThread.Run, DemuxThread.RunBody, hck, DemuxThread.readAndRoute, routeCalls]
    · have hck := DemuxThread.check_of_room
        { abort_ := ab, ifmt_ctx_ := none :: more, audio_stream_ := as, video_stream_ := vs,
          audio_queue_ := { queue_ := { items := aitems, aborted := false } },
          video_queue_ := { queue_ := { items := vitems, aborted := false } } }
        hrun (by simp only [AVPacketQueue.Size, Queue.Size]; omega)
        (by simp only [AVPacketQueue.Size, Queue.Size]; omega)
      simp [DemuxThread.Run, DemuxThread.RunBody, hck, DemuxThread.readAndRoute, routeCalls]
  | cons p rest ih =>
    intro d tail fuel calls aitems vitems hrun hdist ha hv hsrc htail hra hrv hfuel
    obtain ⟨n, rfl⟩ : ∃ n, fuel = n + 1 := ⟨fuel - 1, by omega⟩
    have hn : rest.length < n := by
      simp only [List.length_cons] at hfuel
      omega
    obtain ⟨ab, src, as, vs, aq, vq⟩ := d
    simp only at hrun hdist ha hv hsrc hra hrv
    subst ha
    subst hv
    simp only [List.map_cons, List.cons_append] at hsrc
    subst hsrc
    have hck := DemuxThread.check_of_room
      { abort_ := ab, ifmt_ctx_ := some p :: (rest.map some ++ tail), audio_stream_ := as,
        video_stream_ := vs,
        audio_queue_ := { queue_ := { items := aitems, aborted := false } },
        video_queue_ := { queue_ := { items := vitems, aborted := false } } }
      hrun (by simp only [AVPacketQueue.Size, Queue.Size]; omega)
      (by simp only [AVPacketQueue.Size, Queue.Size]; omega)
    by_cases h1 : p.stream_index = as
    · subst h1
      have h2 : ¬ p.stream_index = vs := hdist
      have hfa : (p :: rest).filter (fun q => decide (q.stream_index = p.stream_index))
          = p :: rest.filter (fun q => decide (q.stream_index = p.stream_index)) := by
        simp [List.filter_cons]
      have hfv : (p :: rest).filter (fun q => decide (q.stream_index = vs))
          = rest.filter (fun q => decide (q.stream_index = vs)) := by
        simp [List.filter_cons, h2]
      rw [hfa] at hra
      rw [hfv] at hrv
      simp only [List.length_cons] at hra
      have hstep := ih
        { abort_ := ab, ifmt_ctx_ := rest.map some ++ tail, audio_stream_ := p.stream_index,
          video_stream_ := vs,
          audio_queue_ := { queue_ := { items := aitems ++ [p], aborted := false } },
          video_queue_ := { queue_ := { items := vitems, aborted := false } } }
        tail n (calls ++ [DemuxCall.av_read_frame (some p)]) (aitems ++ [p]) vitems
        hrun hdist rfl rfl rfl htail
        (by simp only [List.length_append, List.length_singleton]; omega) hrv hn
      simp only [DemuxThread.Run, DemuxThread.RunBody, hck, DemuxThread.readAndRoute,
        if_true, AVPacketQueue.Push, Queue.Push, Bool.false_eq_true, if_false]
      rw [hstep, hfa, hfv]
      simp [routeCalls]
    · by_cases h2 : p.stream_index = vs
      · subst h2
        have hfa : (p :: rest).filter (fun q => decide (q.stream_index = as))
            = rest.filter (fun q => decide (q.stream_index = as)) := by
          simp [List.filter_cons, h1]
        have hfv : (p :: rest).filter (fun q => decide (q.stream_index = p.stream_index))
            = p :: rest.filter (fun q => decide (q.stream_index = p.stream_index)) := by
          simp [List.filter_cons]
        rw [hfa] at hra
        rw [hfv] at hrv
        simp only [List.length_cons] at hrv
        have hstep := ih
          { abort_ := ab, ifmt_ctx_ := rest.map some ++ tail, audio_stream_ := as,
            video_stream_ := p.stream_index,
            audio_queue_ := { queue_ := { items := aitems, aborted := false } },
            video_queue_ := { queue_ := { items := vitems ++ [p], aborted := false } } }
          tail n (calls ++ [DemuxCall.av_read_frame (some p)]) aitems (vitems ++ [p])
          hrun hdist rfl rfl rfl htail hra
          (by simp only [List.length_append, List.length_singleton]; omega) hn
        simp only [DemuxThread.Run, DemuxThread.RunBody, hck, DemuxThread.readAndRoute, h1,
          if_true, AVPacketQueue.Push, Queue.Push, Bool.false_eq_true, if_false]
        rw [hstep, hfa, hfv]
        simp [routeCalls, h1]
      · have hfa : (p :: rest).filter (fun q => decide (q.stream_index = as))
            = rest.filter (fun q => decide (q.stream_index = as)) := by
          simp [List.filter_cons, h1]
        have hfv : (p :: rest).filter (fun q => decide (q.stream_index = vs))
            = rest.filter (fun q => decide (q.stream_index = vs)) := by
          simp [List.filter_cons, h2]
        rw [hfa] at hra
        rw [hfv] at hrv
        have hstep := ih
          { abort_ := ab, ifmt_ctx_ := rest.map some ++ tail, audio_stream_ := as,
            video_stream_ := vs,
            audio_queue_ := { queue_ := { items := aitems, aborted := false } },
            video_queue_ := { queue_ := { items := vitems, aborted := false } } }
          tail n (calls ++ [DemuxCall.av_read_frame (some p), DemuxCall.av_packet_unref p])
          aitems vitems hrun hdist rfl rfl rfl htail hra hrv hn
        simp only [DemuxThread.Run, DemuxThread.RunBody, hck, DemuxThread.readAndRoute, h1, h2,
          if_false]
        rw [hstep, hfa, hfv]
        simp [routeCalls, h1, h2]

/-- C17: let the demux loop run with the cancellation flag clear, distinct
audio and video stream indices (as `Init` leaves them), both packet queues
not aborted, and a source that returns the units `units` and then fails (at
the end of the source, or with an error that is followed by `more`), with
room in both queues for the units so that no backpressure pause occurs.
Then the loop terminates (fuel above the number of units is enough); the
audio queue has received exactly the units whose stream index is
`audio_stream_`, in read order, the video queue exactly those whose index is
`video_stream_`, in read order; every other unit is unreferenced right after
its read and is in neither queue; and the failed read is the last call, so
nothing of `more` is read or pushed. -/
theorem demux_routes_units_in_read_order (d : DemuxThread) (units : List AVPacket)
    (tail : List (Option AVPacket)) (fuel : Nat)
    (hrun : d.abort_ ≠ 1) (hdist : d.audio_stream_ ≠ d.video_stream_)
    (ha : d.audio_queue_.queue_.aborted = false) (hv : d.video_queue_.queue_.aborted = false)
    (hsrc : d.ifmt_ctx_ = units.map some ++ tail)
    (htail : tail = [] ∨ ∃ more, tail = none :: more)
    (hroom_a : d.audio_queue_.queue_.items.length
        + (units.filter (fun p => decide (p.stream_index = d.audio_stream_))).length ≤ 100)
    (hroom_v : d.video_queue_.queue_.items.length
        + (units.filter (fun p => decide (p.stream_index = d.video_stream_))).length ≤ 100)
    (hfuel : units.length < fuel) :
    DemuxThread.Run fuel d []
      = some ({ d with
                ifmt_ctx_ := tail.drop 1
                audio_queue_ :=
                  { queue_ := { items := d.audio_queue_.queue_.items ++ units.filter
                                  (fun p => decide (p.stream_index = d.audio_stream_)),
                                aborted := false } }
                video_queue_ :=
                  { queue_ := { items := d.video_queue_.queue_.items ++ units.filter
                                  (fun p => decide (p.stream_index = d.video_stream_)),
                                aborted := false } } },
              routeCalls d.audio_stream_ d.video_stream_ units
                ++ [DemuxCall.av_read_frame none]) := by
  have haq : d.audio_queue_
      = { queue_ := { items := d.audio_queue_.queue_.items, aborted := false } } := by
    obtain ⟨ab, src, as, vs, ⟨⟨aitems, aab⟩⟩, vq⟩ := d
    simp only at ha
    subst ha
    rfl
  have hvq : d.video_queue_
      = { queue_ := { items := d.video_queue_.queue_.items, aborted := false } } := by
    obtain ⟨ab, src, as, vs, aq, ⟨⟨vitems, vab⟩⟩⟩ := d
    simp only at hv
    subst hv
    rfl
  have h := DemuxThread.Run_routes units d tail fuel [] d.audio_queue_.queue_.items
    d.video_queue_.queue_.items hrun hdist haq hvq hsrc htail hroom_a hroom_v hfuel
  simpa using h

/-- Witness for C17: the source returns an audio unit, a subtitle unit and a
video unit, then fails; a further audio unit behind the failure is never
read. -/
theorem demux_routes_units_in_read_order_witness :
    DemuxThread.Run 4
        (demuxWithAudio 0 [some audioPacket, some subtitlePacket, some videoPacket, none,
          some audioPacket]) []
      = some ({ demuxWithAudio 0 [some audioPacket, some subtitlePacket, some videoPacket, none,
                  some audioPacket] with
                ifmt_ctx_ := [some audioPacket]
                audio_queue_ := { queue_ := { items := [audioPacket], aborted := false } }
                video_queue_ := { queue_ := { items := [videoPacket], aborted := false } } },
              [DemuxCall.av_read_frame (some audioPacket),
               DemuxCall.av_read_frame (some subtitlePacket),
               DemuxCall.av_packet_unref subtitlePacket,
               DemuxCall.av_read_frame (some videoPacket),
               DemuxCall.av_read_frame none]) :=
  demux_routes_units_in_read_order
    (demuxWithAudio 0 [some audioPacket, some subtitlePacket, some videoPacket, none,
      some audioPacket])
    [audioPacket, subtitlePacket, videoPacket] [none, some audioPacket] 4
    (by decide) (by decide) rfl rfl rfl (Or.inr ⟨[some audioPacket], rfl⟩)
    (by decide) (by decide) (by decide)

/-! ### The fill loop of the audio callback terminates -/

theorem memcpy_length (buf : List Byte) (off n : Int) : (memcpy buf off n).length = n.toNat := by
  simp [memcpy]

theorem memset0_length (n : Int) : (memset0 n).length = n.toNat := by
  simp [memset0]

theorem AudioOutput.refill_progress (conv : AVFrame → ConvResult)
    (hconv : ∀ frame, ∃ buf size, conv frame = ConvResult.ok buf size ∧ 0 ≤ size)
    (ao : AudioOutput) (h0 : 0 ≤ ao.audio_buf_index)
    (h1 : ao.audio_buf_index ≤ ao.audio_buf_size) :
    ∃ ao2 calls2, ao.refill conv = Refill.filled ao2 calls2
      ∧ streamOf calls2 = []
      ∧ 0 ≤ ao2.audio_buf_index ∧ ao2.audio_buf_index ≤ ao2.audio_buf_size
      ∧ ao2.frame_queue_.queue_.items.length ≤ ao.frame_queue_.queue_.items.length
      ∧ (ao2.audio_buf_index = ao2.audio_buf_size →
          ao2.frame_queue_.queue_.items.length < ao.frame_queue_.queue_.items.length) := by
  unfold AudioOutput.refill
  by_cases heq : ao.audio_buf_index = ao.audio_buf_size
  · simp only [heq, if_true]
    obtain ⟨sy, ⟨⟨items, ab⟩⟩, tb, buf, sz, idx, pts⟩ := ao
    cases ab with
    | true =>
      refine ⟨{ avsync_ := sy, frame_queue_ := { queue_ := { items := items, aborted := true } },
                time_base_ := tb, audio_buf_ := none, audio_buf_size := 512,
                audio_buf_index := 0, pts := pts },
        [AudioCall.Pop none], by simp [AVFrameQueue.Pop, Queue.Pop], rfl, ?_, ?_, ?_, ?_⟩
      · simp
      · simp
      · simp
      · simp
    | false =>
      cases items with
      | nil =>
        refine ⟨{ avsync_ := sy, frame_queue_ := { queue_ := { items := [], aborted := false } },
                  time_base_ := tb, audio_buf_ := none, audio_buf_size := 512,
                  audio_buf_index := 0, pts := pts },
          [AudioCall.Pop none], by simp [AVFrameQueue.Pop, Queue.Pop], rfl, ?_, ?_, ?_, ?_⟩
        · simp
        · simp
        · simp
        · simp
      | cons frame rest =>
        obtain ⟨cbuf, csize, hc, hsize⟩ := hconv frame
        refine ⟨{ avsync_ := sy,
                  frame_queue_ := { queue_ := { items := rest, aborted := false } },
                  time_base_ := tb, audio_buf_ := some cbuf, audio_buf_size := csize,
                  audio_buf_index := 0, pts := ptsSeconds frame.pts tb },
          [AudioCall.Pop (some frame), AudioCall.av_frame_free frame],
          by simp [AVFrameQueue.Pop, Queue.Pop, hc], rfl, ?_, ?_, ?_, ?_⟩
        · simp
        · simpa using hsize
        · simp
        · simp
  · refine ⟨ao, [], by simp [heq], rfl, h0, h1, le_refl _, fun h => absurd h heq⟩

theorem AudioOutput.fillLoop_terminates (conv : AVFrame → ConvResult)
    (hconv : ∀ frame, ∃ buf size, conv frame = ConvResult.ok buf size ∧ 0 ≤ size) :
    ∀ (fuel : Nat) (ao : AudioOutput) (len : Int) (calls : List AudioCall),
      0 ≤ ao.audio_buf_index → ao.audio_buf_index ≤ ao.audio_buf_size →
      len.toNat + ao.frame_queue_.queue_.items.length < fuel →
      ∃ ao1 ext, AudioOutput.fillLoop conv fuel ao len calls = some (ao1, true, calls ++ ext)
        ∧ (streamOf ext).length = len.toNat
        ∧ 0 ≤ ao1.audio_buf_index ∧ ao1.audio_buf_index ≤ ao1.audio_buf_size := by
  intro fuel
  induction fuel with
  | zero => intro ao len calls _ _ hfuel; omega
  | succ n ih =>
    intro ao len calls h0 h1 hfuel
    by_cases hlen : len > 0
    · obtain ⟨ao2, calls2, hrefill, hs2, h20, h21, hq, hshrink⟩ :=
        AudioOutput.refill_progress conv hconv ao h0 h1
      obtain ⟨len3, hlen3⟩ : ∃ len3 : Int,
          len3 = if ao2.audio_buf_size - ao2.audio_buf_index > len then len
                 else ao2.audio_buf_size - ao2.audio_buf_index := ⟨_, rfl⟩
      have hnn : 0 ≤ len3 := by rw [hlen3]; split <;> omega
      have hle : len3 ≤ len := by rw [hlen3]; split <;> omega
      have hfit : ao2.audio_buf_index + len3 ≤ ao2.audio_buf_size := by
        rw [hlen3]; split <;> omega
      have hzero : len3 = 0 → ao2.audio_buf_index = ao2.audio_buf_size := by
        rw [hlen3]; split <;> omega
      have hmeasure : (len - len3).toNat + ao2.frame_queue_.queue_.items.length < n := by
        by_cases hz : len3 = 0
        · have := hshrink (hzero hz)
          omega
        · omega
      obtain ⟨bytes, hbytes⟩ : ∃ bytes : List Byte,
          bytes = (match ao2.audio_buf_ with
                   | none => memset0 len3
                   | some buf => memcpy buf ao2.audio_buf_index len3) := ⟨_, rfl⟩
      have hblen : bytes.length = len3.toNat := by
        rw [hbytes]
        cases ao2.audio_buf_ with
        | none => exact memset0_length len3
        | some buf => exact memcpy_length buf _ len3
      obtain ⟨ao1, ext, hrun, hs, hi0, hi1⟩ :=
        ih { ao2 with audio_buf_index := ao2.audio_buf_index + len3 } (len - len3)
          (calls ++ calls2 ++ [AudioCall.write bytes]) (by simp only; omega)
          (by simp only; omega) hmeasure
      refine ⟨ao1, calls2 ++ [AudioCall.write bytes] ++ ext, ?_, ?_, hi0, hi1⟩
      · simp only [AudioOutput.fillLoop, hlen, if_true, hrefill, ← hlen3, ← hbytes]
        simp only [List.append_assoc] at hrun ⊢
        exact hrun
      · simp only [streamOf_append, hs2, streamOf, List.nil_append, List.append_nil,
          List.length_append, hblen, hs]
        omega
    · refine ⟨ao, [], by simp [AudioOutput.fillLoop, hlen], ?_, h0, h1⟩
      have : len.toNat = 0 := by omega
      simp [streamOf, this]

/-- C18: let the converter succeed on every frame with a non-negative size,
let `len >= 0`, and let `0 <= audio_buf_index <= audio_buf_size` hold on
entry.  Then for every (finite) frame queue the callback terminates with its
fill loop run to the end (fuel above `len` plus the number of queued frames
is enough), the bytes it wrote to the stream are exactly `len`, and
`0 <= audio_buf_index <= audio_buf_size` holds on exit. -/
theorem audio_callback_fills_request (conv : AVFrame → ConvResult) (ao : AudioOutput)
    (us : Int) (len : Int) (fuel : Nat)
    (hconv : ∀ frame, ∃ buf size, conv frame = ConvResult.ok buf size ∧ 0 ≤ size)
    (hlen : 0 ≤ len)
    (h0 : 0 ≤ ao.audio_buf_index) (h1 : ao.audio_buf_index ≤ ao.audio_buf_size)
    (hfuel : len.toNat + ao.frame_queue_.queue_.items.length < fuel) :
    ∃ ao1 calls, sdl_audio_callback conv fuel ao us len = some (ao1, calls)
      ∧ AudioOutput.fillLoop conv fuel ao len [] ≠ none
      ∧ ((streamOf calls).length : Int) = len
      ∧ 0 ≤ ao1.audio_buf_index ∧ ao1.audio_buf_index ≤ ao1.audio_buf_size := by
  obtain ⟨ao1, ext, hrun, hs, hi0, hi1⟩ :=
    AudioOutput.fillLoop_terminates conv hconv fuel ao len [] h0 h1 hfuel
  simp only [List.nil_append] at hrun
  refine ⟨{ ao1 with avsync_ := ao1.avsync_.SetClock us ao1.pts },
    ext ++ [AudioCall.SetClock ao1.pts], by simp [sdl_audio_callback, hrun], by simp [hrun],
    ?_, hi0, hi1⟩
  simp only [streamOf_append, streamOf, List.append_nil, hs]
  omega

/-- Witness for C18: eight bytes requested with six left over and one frame
of eight bytes queued. -/
theorem audio_callback_fills_request_witness :
    ∃ ao1 calls, sdl_audio_callback convCopy 10 audioLeftover 0 8 = some (ao1, calls)
      ∧ AudioOutput.fillLoop convCopy 10 audioLeftover 8 [] ≠ none
      ∧ ((streamOf calls).length : Int) = 8
      ∧ 0 ≤ ao1.audio_buf_index ∧ ao1.audio_buf_index ≤ ao1.audio_buf_size :=
  audio_callback_fills_request convCopy audioLeftover 0 8 10
    (fun frame => ⟨frame.data, (frame.data.length : Int), rfl, Int.natCast_nonneg _⟩)
    (by decide) (by decide) (by decide) (by decide)

end SparkPlayer
